import Mathlib

/-!
# USB host core of the `vanilla` kernel: descriptor walk, parsing, driver binding, addresses

Shallow embedding of `kernel/src/usb/usb.c`.

* `u32` values are natural numbers reduced modulo `2 ^ 32` wherever the C code does
  arithmetic on them; bytes read from a buffer are reduced modulo `256`.
* A byte buffer `u8* data` is the memory behind the pointer: a function from the
  byte index to the byte stored there.
* Loops whose exit depends on the data take a `fuel` argument and return `none`
  when it runs out.
-/

namespace Vanilla

/-! ## Definitions -/

/-- Modulus of the `u32` type. -/
def U32 : Nat := 2 ^ 32

/-- Modelled from the spec: `usb_protocol.h` is not among the sources; the wire
contract gives the descriptor type code CONFIGURATION = 2. -/
def USB_DESC_CONFIG : Nat := 2

/-- Modelled from the spec: `usb_protocol.h` is not among the sources; the wire
contract gives the descriptor type code INTERFACE = 4. -/
def USB_DESC_IFACE : Nat := 4

/-- Modelled from the spec: `usb_protocol.h` is not among the sources; the wire
contract gives the descriptor type code ENDPOINT = 5. -/
def USB_DESC_EP : Nat := 5

/-- The `sizeof` values that `usb.c` uses.  The structures are declared in headers
that are not among the sources, so their sizes are parameters of the model. -/
structure Sizes where
  /-- The value of `sizeof(struct usb_config_desc)`. -/
  config_desc : Nat
  /-- The value of `sizeof(struct usb_iface_desc)`. -/
  iface_desc : Nat
  /-- The value of `sizeof(struct usb_ep_desc)`. -/
  ep_desc : Nat
  /-- The value of `sizeof(struct usb_config)`. -/
  config : Nat
  /-- The value of `sizeof(struct usb_iface)`. -/
  iface : Nat
  /-- The value of `sizeof(struct usb_ep)`. -/
  ep : Nat

/-- The record sizes of the USB 2.0 wire format (9, 9 and 7 bytes) with host records
of 20, 40 and 12 bytes; used for concrete evaluations. -/
def stdSizes : Sizes :=
  { config_desc := 9, iface_desc := 9, ep_desc := 7, config := 20, iface := 40, ep := 12 }

/-- The byte `data[i]`. -/
def byteAt (data : Nat → Nat) (i : Nat) : Nat := data i % 256

/-- A buffer given by its leading bytes; every byte after them reads as zero. -/
def bufOf (l : List Nat) : Nat → Nat := fun i => l.getD i 0

/-- Loop of `usbc_verify_descriptors`, started at position `pos` with the counters
`configs`, `ifaces`, `eps`.  The result is the returned status and the three
counters as they stand at the return. -/
def verifyLoop (sz : Sizes) (data : Nat → Nat) (size : Nat) :
    Nat → Nat → Nat → Nat → Nat → Option (Nat × Nat × Nat × Nat)
  | 0, _, _, _, _ => none
  | fuel + 1, pos, configs, ifaces, eps =>
    if pos < size then
      let type := byteAt data (pos + 1)
      let len := byteAt data pos
      if type = USB_DESC_CONFIG then
        if len ≠ sz.config_desc then some (0, configs, ifaces, eps)
        else verifyLoop sz data size fuel ((pos + len) % U32) ((configs + 1) % U32) ifaces eps
      else if type = USB_DESC_IFACE then
        if len ≠ sz.iface_desc then some (0, configs, ifaces, eps)
        else verifyLoop sz data size fuel ((pos + len) % U32) configs ((ifaces + 1) % U32) eps
      else if type = USB_DESC_EP then
        if len ≠ sz.ep_desc then some (0, configs, ifaces, eps)
        else verifyLoop sz data size fuel ((pos + len) % U32) configs ifaces ((eps + 1) % U32)
      else verifyLoop sz data size fuel ((pos + len) % U32) configs ifaces eps
    else if pos = size then some (1, configs, ifaces, eps)
    else some (0, configs, ifaces, eps)

/-- The function `usbc_verify_descriptors(data, size, &configs, &ifaces, &eps)`: the
three counters are cleared and the walk starts at position 0.  The result is
`(status, configs, ifaces, eps)`. -/
def usbc_verify_descriptors (sz : Sizes) (fuel : Nat) (data : Nat → Nat) (size : Nat) :
    Option (Nat × Nat × Nat × Nat) :=
  verifyLoop sz data size fuel 0 0 0 0

/-- A descriptor tree of 25 bytes: one configuration, one interface (HID boot
keyboard) and one interrupt-in endpoint. -/
def sampleTree : List Nat :=
  [9, 2, 25, 0, 1, 1, 0, 128, 50,
   9, 4, 0, 0, 1, 3, 1, 1, 0,
   7, 5, 129, 3, 8, 0, 10]

/-! ### Host-side records of the descriptor buffer

The buffer that `dev->configs` points to holds the configuration records, then the
interface records, then the endpoint records.  A pointer to one of these records is
represented by the index of the record inside its region (its slot); `none` is `NULL`.
The record at `ptr + usbc_get_desc_offset(configs, ifaces, type, k)` is slot `k` of the
region of `type`. -/

/-- The record `struct usb_config`. -/
structure usb_config where
  /-- Copy of the wire descriptor. -/
  desc : List Nat
  /-- Pointer to the current interface. -/
  curr_iface : Option Nat
  /-- Number of interfaces of the configuration. -/
  num_ifaces : Nat
  /-- Pointer to the first interface record of the configuration. -/
  ifaces : Option Nat

/-- The record `struct usb_iface`. -/
structure usb_iface where
  /-- Copy of the wire descriptor. -/
  desc : List Nat
  /-- Pointer to the bound driver. -/
  driver : Option Nat
  /-- Pointer to the device the interface belongs to. -/
  parent_dev : Option Nat
  /-- Flag: a driver has been assigned. -/
  assigned : Nat
  /-- Number of endpoints of the interface. -/
  num_eps : Nat
  /-- Pointer to the first endpoint record of the interface. -/
  eps : Option Nat

/-- The record `struct usb_ep`. -/
structure usb_ep where
  /-- The bytes written at `&ep->desc`. -/
  desc : List Nat
  /-- Pointer to the pipe of the endpoint. -/
  pipe : Option Nat

/-- Contents of a descriptor buffer, by region and slot. -/
structure DescBuffer where
  /-- The configuration region. -/
  cfgs : Nat → usb_config
  /-- The interface region. -/
  ifs : Nat → usb_iface
  /-- The endpoint region. -/
  eps : Nat → usb_ep

/-- The fields of `struct usb_dev` that the descriptor code and the driver binding use.
`self` is the address of the record, `mem` the contents of the buffer `configs` points to,
`iface_list` the interface records on the intrusive list, head first. -/
structure usb_dev where
  /-- Address of this device record. -/
  self : Nat
  /-- The cached 18-byte device descriptor. -/
  desc : List Nat
  /-- Number of configurations. -/
  num_configs : Nat
  /-- Size of the descriptor buffer. -/
  desc_total_size : Nat
  /-- Pointer to the descriptor buffer. -/
  configs : Option Nat
  /-- Contents of the descriptor buffer. -/
  mem : DescBuffer
  /-- Slots of the interface records on the interface list, head first. -/
  iface_list : List Nat
  /-- The product name buffer. -/
  product : Nat → Nat
  /-- The manufacturer name buffer. -/
  manufacturer : Nat → Nat
  /-- The pipe table. -/
  pipes : Nat → Option Nat
  /-- The bitmap of the pipes in use. -/
  pipe_bm : Nat
  /-- The bus address of the device. -/
  address : Nat
  /-- The maximum packet size of endpoint zero. -/
  ep0_size : Nat

/-- The copy `memory_copy(data + pos, dest, n)`: the `n` bytes stored at `dest`. -/
def memory_copy (data : Nat → Nat) (pos n : Nat) : List Nat :=
  (List.range n).map (fun i => byteAt data (pos + i))

/-- Modelled from the spec: `list.h` is not among the sources, and the specification does
not say at which end of a list `list_add_first` inserts.  The model puts the node at the
head, as the name says.  No statement about the order in which the nodes of a list are
visited rests on this choice: the statements about the interface list hold for either
end, and those about the driver walk take the list in the order the walk visits it. -/
def list_add_first {α : Type} (node : α) (list : List α) : List α := node :: list

/-- The function `usbc_alloc_descriptors`.  The allocator `bmalloc` is outside `usb.c`:
it is a parameter that maps the requested size to `none` (a `NULL` result) or to the
address and the initial contents of the new buffer.  The result is the status and the
device record. -/
def usbc_alloc_descriptors (sz : Sizes) (bmalloc : Nat → Option (Nat × DescBuffer))
    (dev : usb_dev) (configs ifaces eps : Nat) : Nat × usb_dev :=
  let desc_mem_size := (configs * sz.config + ifaces * sz.iface + eps * sz.ep) % U32
  match bmalloc desc_mem_size with
  | none => (0, { dev with configs := none, desc_total_size := desc_mem_size })
  | some (p, m) => (1, { dev with configs := some p, mem := m, desc_total_size := desc_mem_size })

/-- First loop of `usbc_init_descriptors`: the configuration slots `0 .. n - 1`. -/
def initConfigs (mem : DescBuffer) : Nat → DescBuffer
  | 0 => mem
  | i + 1 =>
    let m := initConfigs mem i
    { m with cfgs := Function.update m.cfgs i { m.cfgs i with curr_iface := none } }

/-- Second loop of `usbc_init_descriptors`: the interface slots `0 .. n - 1`. -/
def initIfaces (dev : usb_dev) : Nat → usb_dev
  | 0 => dev
  | i + 1 =>
    let d := initIfaces dev i
    { d with
      mem := { d.mem with
        ifs := Function.update d.mem.ifs i
          { d.mem.ifs i with driver := none, parent_dev := some dev.self, assigned := 0 } }
      iface_list := list_add_first i d.iface_list }

/-- Third loop of `usbc_init_descriptors`: the endpoint slots `0 .. n - 1`. -/
def initEps (mem : DescBuffer) : Nat → DescBuffer
  | 0 => mem
  | i + 1 =>
    let m := initEps mem i
    { m with eps := Function.update m.eps i { m.eps i with pipe := none } }

/-- The function `usbc_init_descriptors`. -/
def usbc_init_descriptors (dev : usb_dev) (configs ifaces eps : Nat) : usb_dev :=
  let d1 := { dev with mem := initConfigs dev.mem configs }
  let d2 := initIfaces d1 ifaces
  { d2 with mem := initEps d2.mem eps }

/-- Local variables of the second walk in `usbc_parse_descriptors`, with the device. -/
structure ParseState where
  /-- The device record and its descriptor buffer. -/
  dev : usb_dev
  /-- Slot of the next configuration record. -/
  config_index : Nat
  /-- Slot of the next interface record. -/
  iface_index : Nat
  /-- Slot of the next endpoint record. -/
  ep_index : Nat
  /-- Pointer to the last configuration record. -/
  last_cfg : Option Nat
  /-- Pointer to the last interface record. -/
  last_iface : Option Nat

/-- Body of the second walk of `usbc_parse_descriptors` for the descriptor at `pos`,
up to the stride.  `Except.error dev` is the early `return 0`. -/
def parseBody (sz : Sizes) (data : Nat → Nat) (pos : Nat) (st : ParseState) :
    Except usb_dev ParseState :=
  let type := byteAt data (pos + 1)
  if type = USB_DESC_CONFIG then
    let cfg := st.config_index
    let c0 := st.dev.mem.cfgs cfg
    let c1 := { c0 with desc := memory_copy data pos sz.config_desc, num_ifaces := 0 }
    .ok { st with
      dev := { st.dev with
        num_configs := (st.dev.num_configs + 1) % U32
        mem := { st.dev.mem with cfgs := Function.update st.dev.mem.cfgs cfg c1 } }
      last_cfg := some cfg
      config_index := (st.config_index + 1) % U32 }
  else if type = USB_DESC_IFACE then
    let iface := st.iface_index
    let i0 := st.dev.mem.ifs iface
    let i1 := { i0 with desc := memory_copy data pos sz.iface_desc, num_eps := 0 }
    let dev1 := { st.dev with mem := { st.dev.mem with ifs := Function.update st.dev.mem.ifs iface i1 } }
    match st.last_cfg with
    | none => .error dev1
    | some lc =>
      let c0 := dev1.mem.cfgs lc
      let c1 := if c0.num_ifaces = 0 then { c0 with ifaces := some iface } else c0
      let c2 := { c1 with num_ifaces := (c1.num_ifaces + 1) % U32 }
      .ok { st with
        dev := { dev1 with mem := { dev1.mem with cfgs := Function.update dev1.mem.cfgs lc c2 } }
        last_iface := some iface
        iface_index := (st.iface_index + 1) % U32 }
  else if type = USB_DESC_EP then
    let ep := st.ep_index
    let e0 := st.dev.mem.eps ep
    let e1 := { e0 with desc := memory_copy data pos sz.ep }
    let dev1 := { st.dev with mem := { st.dev.mem with eps := Function.update st.dev.mem.eps ep e1 } }
    match st.last_iface with
    | none => .error dev1
    | some li =>
      let i0 := dev1.mem.ifs li
      let i1 := if i0.num_eps = 0 then { i0 with eps := some ep } else i0
      let i2 := { i1 with num_eps := (i1.num_eps + 1) % U32 }
      .ok { st with
        dev := { dev1 with mem := { dev1.mem with ifs := Function.update dev1.mem.ifs li i2 } }
        ep_index := (st.ep_index + 1) % U32 }
  else .ok st

/-- The second walk of `usbc_parse_descriptors`, started at position `pos`.  The result
is the returned status and the device record. -/
def parseLoop (sz : Sizes) (data : Nat → Nat) (size : Nat) :
    Nat → Nat → ParseState → Option (Nat × usb_dev)
  | 0, _, _ => none
  | fuel + 1, pos, st =>
    if pos < size then
      match parseBody sz data pos st with
      | .error dev => some (0, dev)
      | .ok st1 => parseLoop sz data size fuel ((pos + byteAt data pos) % U32) st1
    else some (1, st.dev)

/-- The function `usbc_parse_descriptors(dev, data, size)`.  The result is the returned
status, the device record, and the list of sizes requested from the allocator. -/
def usbc_parse_descriptors (sz : Sizes) (bmalloc : Nat → Option (Nat × DescBuffer))
    (fuel : Nat) (dev : usb_dev) (data : Nat → Nat) (size : Nat) :
    Option (Nat × usb_dev × List Nat) :=
  match usbc_verify_descriptors sz fuel data size with
  | none => none
  | some (r, configs, ifaces, eps) =>
    if r = 0 then some (0, dev, [])
    else
      let a := usbc_alloc_descriptors sz bmalloc dev configs ifaces eps
      let log := [(configs * sz.config + ifaces * sz.iface + eps * sz.ep) % U32]
      if a.1 = 0 then some (0, a.2, log)
      else
        let dev2 := usbc_init_descriptors a.2 configs ifaces eps
        let st : ParseState :=
          { dev := dev2, config_index := 0, iface_index := 0, ep_index := 0,
            last_cfg := none, last_iface := none }
        match parseLoop sz data size fuel 0 st with
        | none => none
        | some (r2, dev3) => some (r2, dev3, log)

/-- Sum of `f 0, ..., f (n - 1)`. -/
def sumTo (f : Nat → Nat) : Nat → Nat
  | 0 => 0
  | n + 1 => sumTo f n + f n

/-- A descriptor buffer with arbitrary-looking contents, as an allocator may return it. -/
def junkBuffer : DescBuffer :=
  { cfgs := fun _ => { desc := [], curr_iface := some 7, num_ifaces := 5, ifaces := some 9 }
    ifs := fun _ => { desc := [], driver := some 3, parent_dev := none, assigned := 1,
                      num_eps := 4, eps := some 2 }
    eps := fun _ => { desc := [], pipe := some 1 } }

/-- An allocator that always succeeds and returns a buffer with stale contents. -/
def junkAlloc : Nat → Option (Nat × DescBuffer) := fun _ => some (4096, junkBuffer)

/-- The memory of a device record as an allocator may return it: stale contents, with
`n0` in the place of `num_configs`. -/
def rawDev (n0 : Nat) : usb_dev :=
  { self := 1000, desc := [], num_configs := n0, desc_total_size := 0, configs := some 77,
    mem := junkBuffer, iface_list := [99], product := fun _ => 120,
    manufacturer := fun _ => 121, pipes := fun _ => some 5, pipe_bm := 255,
    address := 33, ep0_size := 3 }

/-! ### Drivers and driver matching -/

/-- The record `struct usb_dev_id`: a flag word and the values to compare. -/
structure usb_dev_id where
  /-- Which fields are compared. -/
  flags : Nat
  /-- Vendor id. -/
  vendor_id : Nat
  /-- Product id. -/
  product_id : Nat
  /-- Device class. -/
  dev_class : Nat
  /-- Device subclass. -/
  dev_sub_class : Nat
  /-- Device protocol. -/
  dev_protocol : Nat
  /-- Interface class. -/
  iface_class : Nat
  /-- Interface subclass. -/
  iface_sub_class : Nat
  /-- Interface protocol. -/
  iface_protocol : Nat

/-- The eight `USB_DEV_ID_*_MASK` macros.  They are defined in a header that is not
among the sources, so they are parameters of the model. -/
structure DevIdMasks where
  /-- The macro `USB_DEV_ID_VENDOR_MASK`. -/
  USB_DEV_ID_VENDOR_MASK : Nat
  /-- The macro `USB_DEV_ID_PRODUCT_MASK`. -/
  USB_DEV_ID_PRODUCT_MASK : Nat
  /-- The macro `USB_DEV_ID_DEV_CLASS_MASK`. -/
  USB_DEV_ID_DEV_CLASS_MASK : Nat
  /-- The macro `USB_DEV_ID_DEV_SUBCLASS_MASK`. -/
  USB_DEV_ID_DEV_SUBCLASS_MASK : Nat
  /-- The macro `USB_DEV_ID_DEV_PROTOCOL_MASK`. -/
  USB_DEV_ID_DEV_PROTOCOL_MASK : Nat
  /-- The macro `USB_DEV_ID_IFACE_CLASS_MASK`. -/
  USB_DEV_ID_IFACE_CLASS_MASK : Nat
  /-- The macro `USB_DEV_ID_IFACE_SUBCLASS_MASK`. -/
  USB_DEV_ID_IFACE_SUBCLASS_MASK : Nat
  /-- The macro `USB_DEV_ID_IFACE_PROTOCOL_MASK`. -/
  USB_DEV_ID_IFACE_PROTOCOL_MASK : Nat

/-- One bit per field, in the order of the fields; used for concrete evaluations. -/
def stdMasks : DevIdMasks :=
  { USB_DEV_ID_VENDOR_MASK := 1, USB_DEV_ID_PRODUCT_MASK := 2, USB_DEV_ID_DEV_CLASS_MASK := 4,
    USB_DEV_ID_DEV_SUBCLASS_MASK := 8, USB_DEV_ID_DEV_PROTOCOL_MASK := 16,
    USB_DEV_ID_IFACE_CLASS_MASK := 32, USB_DEV_ID_IFACE_SUBCLASS_MASK := 64,
    USB_DEV_ID_IFACE_PROTOCOL_MASK := 128 }

/-- Modelled from the spec: `usb_protocol.h` is not among the sources; the device
descriptor is bit-exact per USB 2.0 section 9.6, so `idVendor` is the little-endian
16-bit value at bytes 8 and 9. -/
def idVendor (desc : List Nat) : Nat := desc.getD 8 0 + 256 * desc.getD 9 0

/-- Modelled from the spec: `usb_protocol.h` is not among the sources; `idProduct` is
the little-endian 16-bit value at bytes 10 and 11 of the device descriptor. -/
def idProduct (desc : List Nat) : Nat := desc.getD 10 0 + 256 * desc.getD 11 0

/-- Modelled from the spec: `usb_protocol.h` is not among the sources; `bDeviceClass`
is byte 4 of the device descriptor. -/
def bDeviceClass (desc : List Nat) : Nat := desc.getD 4 0

/-- Modelled from the spec: `usb_protocol.h` is not among the sources;
`bDeviceSubClass` is byte 5 of the device descriptor. -/
def bDeviceSubClass (desc : List Nat) : Nat := desc.getD 5 0

/-- Modelled from the spec: `usb_protocol.h` is not among the sources;
`bDeviceProtocol` is byte 6 of the device descriptor. -/
def bDeviceProtocol (desc : List Nat) : Nat := desc.getD 6 0

/-- Modelled from the spec: `usb_protocol.h` is not among the sources;
`bInterfaceClass` is byte 5 of the interface descriptor. -/
def bInterfaceClass (desc : List Nat) : Nat := desc.getD 5 0

/-- Modelled from the spec: `usb_protocol.h` is not among the sources;
`bInterfaceSubClass` is byte 6 of the interface descriptor. -/
def bInterfaceSubClass (desc : List Nat) : Nat := desc.getD 6 0

/-- Modelled from the spec: `usb_protocol.h` is not among the sources;
`bInterfaceProtocol` is byte 7 of the interface descriptor. -/
def bInterfaceProtocol (desc : List Nat) : Nat := desc.getD 7 0

/-- The fields of `struct usb_driver` that `usb.c` uses.  `self` is the address of the
record; `dev_ids` is the array behind the pointer; `connect` is the driver's callback,
represented by the truth value it returns for an interface. -/
structure usb_driver where
  /-- Address of this driver record. -/
  self : Nat
  /-- The device-id array. -/
  dev_ids : Nat → usb_dev_id
  /-- Number of entries of the device-id array. -/
  num_dev_ids : Nat
  /-- The connect callback. -/
  connect : usb_iface → Bool

/-- The function `usbc_check_dev_match`. -/
def usbc_check_dev_match (m : DevIdMasks) (id : usb_dev_id) (dev : usb_dev) : Nat :=
  let flags := id.flags
  if flags &&& m.USB_DEV_ID_VENDOR_MASK ≠ 0 ∧ id.vendor_id ≠ idVendor dev.desc then 0
  else if flags &&& m.USB_DEV_ID_PRODUCT_MASK ≠ 0 ∧ id.product_id ≠ idProduct dev.desc then 0
  else if flags &&& m.USB_DEV_ID_DEV_CLASS_MASK ≠ 0 ∧ id.dev_class ≠ bDeviceClass dev.desc then 0
  else if flags &&& m.USB_DEV_ID_DEV_SUBCLASS_MASK ≠ 0 ∧
      id.dev_sub_class ≠ bDeviceSubClass dev.desc then 0
  else if flags &&& m.USB_DEV_ID_DEV_PROTOCOL_MASK ≠ 0 ∧
      id.dev_protocol ≠ bDeviceProtocol dev.desc then 0
  else 1

/-- The function `usbc_check_iface_match`. -/
def usbc_check_iface_match (m : DevIdMasks) (id : usb_dev_id) (iface : usb_iface) : Nat :=
  let flags := id.flags
  if flags &&& m.USB_DEV_ID_IFACE_CLASS_MASK ≠ 0 ∧
      id.iface_class ≠ bInterfaceClass iface.desc then 0
  else if flags &&& m.USB_DEV_ID_IFACE_SUBCLASS_MASK ≠ 0 ∧
      id.iface_sub_class ≠ bInterfaceSubClass iface.desc then 0
  else if flags &&& m.USB_DEV_ID_IFACE_PROTOCOL_MASK ≠ 0 ∧
      id.iface_protocol ≠ bInterfaceProtocol iface.desc then 0
  else 1

/-- Loop of `usbc_check_driver_match` from index `i`, with `count - i` entries left.
`parent` is the device record that `iface->parent_dev` points to. -/
def driverMatchLoop (m : DevIdMasks) (driver : usb_driver) (iface : usb_iface)
    (parent : usb_dev) : Nat → Nat → Nat
  | 0, _ => 0
  | left + 1, i =>
    if usbc_check_dev_match m (driver.dev_ids i) parent ≠ 0 then
      if usbc_check_iface_match m (driver.dev_ids i) iface ≠ 0 then 1
      else driverMatchLoop m driver iface parent left (i + 1)
    else driverMatchLoop m driver iface parent left (i + 1)

/-- The function `usbc_check_driver_match`; `parent` is the device record that
`iface->parent_dev` points to. -/
def usbc_check_driver_match (m : DevIdMasks) (driver : usb_driver) (iface : usb_iface)
    (parent : usb_dev) : Nat :=
  driverMatchLoop m driver iface parent driver.num_dev_ids 0

/-- The enumeration states `enum usb_enum_state`. -/
inductive usb_enum_state where
  | USB_ENUM_IDLE
  | USB_ENUM_GET_EP0_SIZE
  | USB_ENUM_GET_DEV_DESC
  | USB_ENUM_SET_ADDRESS
  | USB_ENUM_GET_DESC_LENGTH
  | USB_ENUM_GET_DESCRIPTORS
  | USB_ENUM_GET_PRODUCT_NAME
  | USB_ENUM_GET_MANUFACTURER_NAME
  deriving DecidableEq

/-- The fields of `struct usb_core` that the address allocation and the driver binding
use.  The lists are head first; `dev_list` holds the addresses of the device records. -/
structure usb_core where
  /-- The enumeration state. -/
  enum_state : usb_enum_state
  /-- The device list. -/
  dev_list : List Nat
  /-- The driver list. -/
  driver_list : List usb_driver
  /-- The bitmap of the device addresses in use. -/
  dev_addr_bm : Nat
  /-- Pointer to the device being enumerated. -/
  enum_dev : Option Nat

/-- The function `usbc_init`, on the fields of the model. -/
def usbc_init (usbc : usb_core) : usb_core :=
  { usbc with
    enum_state := usb_enum_state.USB_ENUM_IDLE
    dev_list := []
    dev_addr_bm := 1
    driver_list := [] }

/-- The function `usbc_add_driver`. -/
def usbc_add_driver (driver : usb_driver) (usbc : usb_core) : usb_core :=
  { usbc with driver_list := list_add_first driver usbc.driver_list }

/-- Loop of `usbc_find_driver` over the driver list (`list_iterate` visits the nodes
from the head).  The result is the returned driver (`none` for `NULL`) and the
addresses of the drivers whose `connect` was called, in call order. -/
def findDriverLoop (m : DevIdMasks) (iface : usb_iface) (parent : usb_dev) :
    List usb_driver → Option usb_driver × List Nat
  | [] => (none, [])
  | driver :: rest =>
    let status := usbc_check_driver_match m driver iface parent
    if status ≠ 0 then
      if !driver.connect iface then (none, [driver.self])
      else (some driver, [driver.self])
    else findDriverLoop m iface parent rest

/-- The function `usbc_find_driver`; `parent` is the device record that
`iface->parent_dev` points to. -/
def usbc_find_driver (m : DevIdMasks) (iface : usb_iface) (parent : usb_dev)
    (usbc : usb_core) : Option usb_driver × List Nat :=
  if iface.assigned = 1 then (none, [])
  else findDriverLoop m iface parent usbc.driver_list

/-- Loop of `usbc_assign_driver` over the interface list.  The body only looks a
driver up and prints; the result is the device record and, per interface visited, the
slot of the interface with the result of `usbc_find_driver`. -/
def assignDriverLoop (m : DevIdMasks) (deref : Option Nat → usb_dev) (usbc : usb_core)
    (dev : usb_dev) : List Nat → usb_dev × List (Nat × Option usb_driver × List Nat)
  | [] => (dev, [])
  | node :: rest =>
    let iface := dev.mem.ifs node
    let driver := usbc_find_driver m iface (deref iface.parent_dev) usbc
    let r := assignDriverLoop m deref usbc dev rest
    (r.1, (node, driver) :: r.2)

/-- The function `usbc_assign_driver(dev, usbc)`; `deref` reads the device record behind
a `parent_dev` pointer. -/
def usbc_assign_driver (m : DevIdMasks) (deref : Option Nat → usb_dev) (dev : usb_dev)
    (usbc : usb_core) : usb_dev × List (Nat × Option usb_driver × List Nat) :=
  assignDriverLoop m deref usbc dev dev.iface_list

/-- An initialised core. -/
def freshCore : usb_core :=
  usbc_init { enum_state := usb_enum_state.USB_ENUM_GET_DEV_DESC, dev_list := [7],
              driver_list := [], dev_addr_bm := 0, enum_dev := none }

/-- Modelled from the spec: the string helpers are not among the sources;
`string_copy(src, dest)` stores the characters of `src` and a terminating zero at the
start of `dest`. -/
def string_copy (src : List Nat) (dest : Nat → Nat) : Nat → Nat :=
  fun i => if i < src.length then src.getD i 0 else if i = src.length then 0 else dest i

/-- The string `"None"`. -/
def strNone : List Nat := [78, 111, 110, 101]

/-- Loop of `usbc_add_device` over the pipe table: the entries `0 .. n - 1` are cleared. -/
def clearPipes (pipes : Nat → Option Nat) : Nat → Nat → Option Nat
  | 0 => pipes
  | i + 1 => Function.update (clearPipes pipes i) i none

/-- The function `usbc_add_device`; `raw` is the memory that `bmalloc` returns for the
new device record.  The fields that the function does not write keep the contents of
that memory. -/
def usbc_add_device (MAX_PIPES : Nat) (usbc : usb_core) (raw : usb_dev) :
    usb_core × usb_dev :=
  ({ usbc with dev_list := list_add_first raw.self usbc.dev_list, enum_dev := some raw.self },
   { raw with
     iface_list := []
     product := string_copy strNone raw.product
     manufacturer := string_copy strNone raw.manufacturer
     pipes := clearPipes raw.pipes MAX_PIPES
     pipe_bm := 0 })

/-- A device record as `usbc_add_device` leaves it, made in memory whose `num_configs`
place holds `n0`. -/
def freshDev (n0 : Nat) : usb_dev := (usbc_add_device 10 freshCore (rawDev n0)).2

/-- A driver at address `a` with one device-id entry for HID boot keyboards (interface
class 3, subclass 1, protocol 1) whose `connect` returns `ok`. -/
def hidDriver (a : Nat) (ok : Bool) : usb_driver :=
  { self := a
    dev_ids := fun _ =>
      { flags := 224, vendor_id := 0, product_id := 0, dev_class := 0, dev_sub_class := 0,
        dev_protocol := 0, iface_class := 3, iface_sub_class := 1, iface_protocol := 1 }
    num_dev_ids := 1
    connect := fun _ => ok }

/-- The device record after the 25-byte sample tree has been parsed into it. -/
def sampleDev : usb_dev :=
  match usbc_parse_descriptors stdSizes junkAlloc 4 (freshDev 0) (bufOf sampleTree) 25 with
  | some r => r.2.1
  | none => freshDev 0

/-- The condition of the specification for one device-id entry: every field whose flag
is set in the entry equals the field of the parent device descriptor or of the
interface descriptor. -/
def EntryMatches (m : DevIdMasks) (id : usb_dev_id) (iface : usb_iface) (parent : usb_dev) :
    Prop :=
  (id.flags &&& m.USB_DEV_ID_VENDOR_MASK ≠ 0 → id.vendor_id = idVendor parent.desc) ∧
  (id.flags &&& m.USB_DEV_ID_PRODUCT_MASK ≠ 0 → id.product_id = idProduct parent.desc) ∧
  (id.flags &&& m.USB_DEV_ID_DEV_CLASS_MASK ≠ 0 → id.dev_class = bDeviceClass parent.desc) ∧
  (id.flags &&& m.USB_DEV_ID_DEV_SUBCLASS_MASK ≠ 0 →
    id.dev_sub_class = bDeviceSubClass parent.desc) ∧
  (id.flags &&& m.USB_DEV_ID_DEV_PROTOCOL_MASK ≠ 0 →
    id.dev_protocol = bDeviceProtocol parent.desc) ∧
  (id.flags &&& m.USB_DEV_ID_IFACE_CLASS_MASK ≠ 0 →
    id.iface_class = bInterfaceClass iface.desc) ∧
  (id.flags &&& m.USB_DEV_ID_IFACE_SUBCLASS_MASK ≠ 0 →
    id.iface_sub_class = bInterfaceSubClass iface.desc) ∧
  (id.flags &&& m.USB_DEV_ID_IFACE_PROTOCOL_MASK ≠ 0 →
    id.iface_protocol = bInterfaceProtocol iface.desc)

instance (m : DevIdMasks) (id : usb_dev_id) (iface : usb_iface) (parent : usb_dev) :
    Decidable (EntryMatches m id iface parent) := by
  unfold EntryMatches
  infer_instance

/-! ### Device addresses -/

/-- Loop of `usbc_new_address` from index `i`; `bitmask` is the `u16` copy of the
bitmap taken on entry and the index is a `u8`.  The result is the returned address and
the core. -/
def newAddressLoop (MAX_PIPES : Nat) (usbc : usb_core) (bitmask : Nat) :
    Nat → Nat → Option (Nat × usb_core)
  | 0, _ => none
  | fuel + 1, i =>
    if i < MAX_PIPES then
      if bitmask &&& (1 <<< i) = 0 then
        some (i, { usbc with dev_addr_bm := usbc.dev_addr_bm ||| (1 <<< i) })
      else newAddressLoop MAX_PIPES usbc bitmask fuel ((i + 1) % 256)
    else some (0, usbc)

/-- The function `usbc_new_address`.  The macro `MAX_PIPES` is defined in a header that
is not among the sources, so it is a parameter. -/
def usbc_new_address (MAX_PIPES fuel : Nat) (usbc : usb_core) : Option (Nat × usb_core) :=
  let bitmask := usbc.dev_addr_bm % 2 ^ 16
  newAddressLoop MAX_PIPES usbc bitmask fuel 1

/-- The cores reachable from `usbc_init` by calls to `usbc_new_address`. -/
inductive AddrReachable (MAX_PIPES : Nat) : usb_core → Prop
  | init (usbc : usb_core) : AddrReachable MAX_PIPES (usbc_init usbc)
  | call (c c1 : usb_core) (fuel a : Nat) :
      AddrReachable MAX_PIPES c → usbc_new_address MAX_PIPES fuel c = some (a, c1) →
      AddrReachable MAX_PIPES c1

/-! ### The bLength-stride walk, as the specification describes it -/

/-- Position of the walk after `k` strides: it starts at 0 and each stride adds the
`bLength` byte found at the current position (in `u32` arithmetic). -/
def walkPos (data : Nat → Nat) : Nat → Nat
  | 0 => 0
  | k + 1 => (walkPos data k + byteAt data (walkPos data k)) % U32

/-- The walk over `size` bytes finishes after `n` strides: the first `n` positions
lie inside the buffer and the position after them does not. -/
def WalkFinishes (data : Nat → Nat) (size n : Nat) : Prop :=
  (∀ k, k < n → walkPos data k < size) ∧ size ≤ walkPos data n

/-- The `bDescriptorType` of the `k`-th descriptor met in the walk. -/
def descType (data : Nat → Nat) (k : Nat) : Nat := byteAt data (walkPos data k + 1)

/-- The `bLength` of the `k`-th descriptor met in the walk. -/
def descLen (data : Nat → Nat) (k : Nat) : Nat := byteAt data (walkPos data k)

/-- The `k`-th descriptor met in the walk passes the length check: when its type is
CONFIGURATION, INTERFACE or ENDPOINT its `bLength` is the size of that wire record. -/
def LengthOk (sz : Sizes) (data : Nat → Nat) (k : Nat) : Prop :=
  (descType data k = USB_DESC_CONFIG → descLen data k = sz.config_desc) ∧
  (descType data k = USB_DESC_IFACE → descLen data k = sz.iface_desc) ∧
  (descType data k = USB_DESC_EP → descLen data k = sz.ep_desc)

instance (sz : Sizes) (data : Nat → Nat) (k : Nat) : Decidable (LengthOk sz data k) := by
  unfold LengthOk
  infer_instance

instance (data : Nat → Nat) (size n : Nat) : Decidable (WalkFinishes data size n) := by
  unfold WalkFinishes
  infer_instance

/-- Number of descriptors of type `t` among the first `k` descriptors of the walk. -/
def countType (data : Nat → Nat) (t : Nat) : Nat → Nat
  | 0 => 0
  | k + 1 => countType data t k + (if descType data k = t then 1 else 0)

/-- Number of interfaces recorded in configuration slot `j`. -/
def numIfaces (m : DescBuffer) (j : Nat) : Nat := (m.cfgs j).num_ifaces

/-- Number of endpoints recorded in interface slot `j`. -/
def numEps (m : DescBuffer) (j : Nat) : Nat := (m.ifs j).num_eps

/-- State of the second walk of `usbc_parse_descriptors` after `k` descriptors, for a
device whose `num_configs` was `n0` before the call. -/
structure ParseInv (data : Nat → Nat) (n0 k : Nat) (st : ParseState) : Prop where
  /-- The configuration slot counter. -/
  cfg_idx : st.config_index = countType data USB_DESC_CONFIG k
  /-- The interface slot counter. -/
  if_idx : st.iface_index = countType data USB_DESC_IFACE k
  /-- The endpoint slot counter. -/
  ep_idx : st.ep_index = countType data USB_DESC_EP k
  /-- The configuration count of the device. -/
  ncfg : st.dev.num_configs % U32 = (n0 + countType data USB_DESC_CONFIG k) % U32
  /-- The last configuration is the newest configuration slot. -/
  lcfg : st.last_cfg =
    if countType data USB_DESC_CONFIG k = 0 then none
    else some (countType data USB_DESC_CONFIG k - 1)
  /-- The last interface is the newest interface slot. -/
  lif : st.last_iface =
    if countType data USB_DESC_IFACE k = 0 then none
    else some (countType data USB_DESC_IFACE k - 1)
  /-- The interface counts add up. -/
  sum_if : sumTo (numIfaces st.dev.mem) (countType data USB_DESC_CONFIG k)
    = countType data USB_DESC_IFACE k
  /-- The endpoint counts add up. -/
  sum_ep : sumTo (numEps st.dev.mem) (countType data USB_DESC_IFACE k)
    = countType data USB_DESC_EP k
  /-- The interface pointers of the configurations. -/
  ptr_if : ∀ j, j < countType data USB_DESC_CONFIG k → 0 < numIfaces st.dev.mem j →
    (st.dev.mem.cfgs j).ifaces = some (sumTo (numIfaces st.dev.mem) j)
  /-- The endpoint pointers of the interfaces. -/
  ptr_ep : ∀ j, j < countType data USB_DESC_IFACE k → 0 < numEps st.dev.mem j →
    (st.dev.mem.ifs j).eps = some (sumTo (numEps st.dev.mem) j)

/-- Where the second walk of `usbc_parse_descriptors` has put the first `k` descriptors:
every interface lies in the slot range of the configuration met last before it, every
endpoint in the slot range of the interface met last before it, and the record in the
slot of a descriptor holds the bytes copied from that descriptor. -/
structure WireInv (sz : Sizes) (data : Nat → Nat) (k : Nat) (st : ParseState) : Prop where
  /-- Interfaces lie in the slot range of their configuration. -/
  mem_if : ∀ t, t < k → descType data t = USB_DESC_IFACE →
    sumTo (numIfaces st.dev.mem) (countType data USB_DESC_CONFIG t - 1)
        ≤ countType data USB_DESC_IFACE t ∧
      countType data USB_DESC_IFACE t
        < sumTo (numIfaces st.dev.mem) (countType data USB_DESC_CONFIG t)
  /-- Endpoints lie in the slot range of their interface. -/
  mem_ep : ∀ t, t < k → descType data t = USB_DESC_EP →
    sumTo (numEps st.dev.mem) (countType data USB_DESC_IFACE t - 1)
        ≤ countType data USB_DESC_EP t ∧
      countType data USB_DESC_EP t
        < sumTo (numEps st.dev.mem) (countType data USB_DESC_IFACE t)
  /-- The configuration records hold the copied descriptors. -/
  desc_cfg : ∀ t, t < k → descType data t = USB_DESC_CONFIG →
    (st.dev.mem.cfgs (countType data USB_DESC_CONFIG t)).desc
      = memory_copy data (walkPos data t) sz.config_desc
  /-- The interface records hold the copied descriptors. -/
  desc_if : ∀ t, t < k → descType data t = USB_DESC_IFACE →
    (st.dev.mem.ifs (countType data USB_DESC_IFACE t)).desc
      = memory_copy data (walkPos data t) sz.iface_desc
  /-- The endpoint records hold the bytes copied to `&ep->desc`. -/
  desc_ep : ∀ t, t < k → descType data t = USB_DESC_EP →
    (st.dev.mem.eps (countType data USB_DESC_EP t)).desc
      = memory_copy data (walkPos data t) sz.ep

/-- The buffer passes the verify pass: every CONFIGURATION, INTERFACE or ENDPOINT
descriptor met in the `n` strides of the walk has the length of its wire record and the
walk ends exactly at `size`. -/
def Verified (sz : Sizes) (data : Nat → Nat) (size n : Nat) : Prop :=
  (∀ j, j < n → LengthOk sz data j) ∧ walkPos data n = size

instance (sz : Sizes) (data : Nat → Nat) (size n : Nat) : Decidable (Verified sz data size n) := by
  unfold Verified
  infer_instance

/-- State of `usbc_uni_to_string`: the destination string, and the indices of the source
that were read and of the destination that were written, in order. -/
structure UniResult where
  /-- The destination. -/
  string : Nat → Nat
  /-- Indices read from `uni`. -/
  reads : List Nat
  /-- Indices written in `string`. -/
  writes : List Nat

/-- Loop of `usbc_uni_to_string`; `string_size` is the size after the decrement.  The
result is the final `ascii_pos` and the state. -/
def uniLoop (uni : Nat → Nat) (uni_size string_size : Nat) :
    Nat → Nat → Nat → UniResult → Option (Nat × UniResult)
  | 0, _, _, _ => none
  | fuel + 1, uni_pos, ascii_pos, r =>
    if uni_pos < uni_size ∧ ascii_pos < string_size then
      uniLoop uni uni_size string_size fuel ((uni_pos + 2) % U32) ((ascii_pos + 1) % U32)
        { string := Function.update r.string ascii_pos (byteAt uni uni_pos)
          reads := r.reads ++ [uni_pos]
          writes := r.writes ++ [ascii_pos] }
    else some (ascii_pos, r)

/-- The function `usbc_uni_to_string(uni, uni_size, string, string_size)`. -/
def usbc_uni_to_string (fuel : Nat) (uni : Nat → Nat) (uni_size : Nat) (string : Nat → Nat)
    (string_size : Nat) : Option UniResult :=
  if string_size > 0 then
    match uniLoop uni uni_size (string_size - 1) fuel 0 0
        { string := string, reads := [], writes := [] } with
    | none => none
    | some (ascii_pos, r) =>
      some { string := Function.update r.string ascii_pos 0
             reads := r.reads
             writes := r.writes ++ [ascii_pos] }
  else some { string := string, reads := [], writes := [] }

/-- Number of characters the specification lets `usbc_uni_to_string` copy:
`min(ceil(uni_size / 2), string_size - 1)`. -/
def uniCount (uni_size string_size : Nat) : Nat :=
  min ((uni_size + 1) / 2) (string_size - 1)

/-! ### System-call gate (`kernel/syscall.c`) -/

/-- The kernel functions that `svc_handler_ext` calls, with their arguments. -/
inductive KernelCall where
  | thread_sleep (ms : Nat)
  | gpio_toggle (port : Nat) (pin : Nat)
  deriving DecidableEq

/-- The selector that `svc_handler_ext` reads: the byte at address `stack_ptr[6] - 2`. -/
def svcSelector (mem : Nat → Nat) (stack_ptr : Nat → Nat) : Nat :=
  byteAt mem ((stack_ptr 6 % U32 + U32 - 2) % U32)

/-- The function `svc_handler_ext(stack_ptr)`; `mem` is the byte memory and `stack_ptr`
the exception frame (slots `R0, R1, R2, R3, R12, LR, PC, xPSR`).  The result is the list
of kernel functions called and the exception frame afterwards. -/
def svc_handler_ext (mem : Nat → Nat) (stack_ptr : Nat → Nat) :
    List KernelCall × (Nat → Nat) :=
  let svc := svcSelector mem stack_ptr
  if svc = 1 then ([KernelCall.thread_sleep (stack_ptr 0 % U32)], stack_ptr)
  else if svc = 2 then
    ([KernelCall.gpio_toggle (stack_ptr 0 % U32) (stack_ptr 1 % U32 % 256)], stack_ptr)
  else ([], stack_ptr)

/-- An exception frame given by its eight slots. -/
def frameOf (l : List Nat) : Nat → Nat := fun i => l.getD i 0

/-- Memory holding the selector byte `n` at address 4096 (the second byte of the trap
instruction is at 4097, the saved PC is 4098). -/
def svcMem (n : Nat) : Nat → Nat := fun a => if a = 4096 then n else if a = 4097 then 223 else 0

/-! ### Enumeration (`usbc_start_enum`, `usbc_enumerate_handler`) -/

/-- Modelled from the spec: `usb_protocol.h` is not among the sources; the wire
contract gives the descriptor type code DEVICE = 1. -/
def USB_DESC_DEVICE : Nat := 1

/-- Modelled from the spec: `usb_protocol.h` is not among the sources; the wire
contract gives the descriptor type code STRING = 3. -/
def USB_DESC_STRING : Nat := 3

/-- Modelled from the spec: `usb_protocol.h` is not among the sources; the standard
request GET_DESCRIPTOR of USB 2.0 section 9.4 has the code 6. -/
def USB_REQ_GET_DESCRIPTOR : Nat := 6

/-- Modelled from the spec: `usb_protocol.h` is not among the sources; the standard
request SET_ADDRESS of USB 2.0 section 9.4 has the code 5. -/
def USB_REQ_SET_ADDRESS : Nat := 5

/-- Modelled from the spec: `usb_protocol.h` is not among the sources; in
`bmRequestType` of USB 2.0 section 9.3 the direction device-to-host is bit 7. -/
def USB_DEVICE_TO_HOST : Nat := 128

/-- Modelled from the spec: `usb_protocol.h` is not among the sources; in
`bmRequestType` of USB 2.0 section 9.3 the direction host-to-device is 0. -/
def USB_HOST_TO_DEVICE : Nat := 0

/-- Modelled from the spec: `usb_strings.h` is not among the sources; a string
descriptor has a 2-byte header in front of its payload. -/
def USB_STRING_OFFSET : Nat := 2

/-- Modelled from the spec: `usb_protocol.h` is not among the sources; the setup packet
has the 8 bytes `bmRequestType`, `bRequest`, `wValue`, `wIndex`, `wLength`.  The fields
`bDescriptorIndex` and `bDescriptorType` that `usb.c` also uses are the low and the high
byte of `wValue`. -/
structure usb_setup_desc where
  /-- Characteristics of the request. -/
  bmRequestType : Nat
  /-- The request. -/
  bRequest : Nat
  /-- The value word. -/
  wValue : Nat
  /-- The index word. -/
  wIndex : Nat
  /-- Number of bytes to transfer. -/
  wLength : Nat
  deriving DecidableEq

/-- The field `bDescriptorIndex` of a setup packet. -/
def bDescriptorIndex (s : usb_setup_desc) : Nat := s.wValue % 256

/-- The field `bDescriptorType` of a setup packet. -/
def bDescriptorType (s : usb_setup_desc) : Nat := s.wValue / 256 % 256

/-- The assignment `setup.bDescriptorType = t`. -/
def set_bDescriptorType (s : usb_setup_desc) (t : Nat) : usb_setup_desc :=
  { s with wValue := t % 256 * 256 + s.wValue % 256 }

/-- The assignment `setup.bDescriptorIndex = i`. -/
def set_bDescriptorIndex (s : usb_setup_desc) (i : Nat) : usb_setup_desc :=
  { s with wValue := s.wValue / 256 % 256 * 256 + i % 256 }

/-- Calls that leave `usb.c`: the host controller functions, the allocator and the
`connect` callbacks of the drivers, with the arguments that matter.  A submitted URB
carries the setup packet as it stands at the submission. -/
inductive HcEvent where
  | pipe_configure (pipe dev_addr ep_addr size : Nat)
  | alloc_urb
  | fill_control_urb
  | submit_urb (pipe : Nat) (setup : usb_setup_desc)
  | set_ep_size (pipe size : Nat)
  | set_address (pipe addr : Nat)
  | pipe_disable (pipe : Nat)
  | bmalloc (size : Nat)
  | connect (driver iface : Nat)
  deriving DecidableEq

/-- The pipes on which the URBs of a trace were submitted, in order. -/
def submits : List HcEvent → List Nat
  | [] => []
  | HcEvent.submit_urb pipe _ :: rest => pipe :: submits rest
  | _ :: rest => submits rest

/-- The messages of the calls of `panic` in `usb.c`. -/
inductive PanicCode where
  | abort_enumeration
  | error
  | cannot_parse_descriptors
  | enumeration_urb_failed
  deriving DecidableEq

/-- The constants and external functions the enumeration depends on.  They are defined
in files that are not among the sources, so they are parameters of the model. -/
structure EnumParams where
  /-- The `sizeof` values. -/
  sz : Sizes
  /-- The device-id flag masks. -/
  masks : DevIdMasks
  /-- The macro `MAX_PIPES`. -/
  MAX_PIPES : Nat
  /-- The macro `USB_ENUM_BUFFER_SIZE`. -/
  USB_ENUM_BUFFER_SIZE : Nat
  /-- The macro `USB_DEV_NAME_MAX_SIZE`. -/
  USB_DEV_NAME_MAX_SIZE : Nat
  /-- The value `URB_STATUS_OK`. -/
  URB_STATUS_OK : Nat
  /-- The allocator, as in `usbc_alloc_descriptors`. -/
  bmalloc : Nat → Option (Nat × DescBuffer)

/-- Parameters used for concrete evaluations. -/
def stdParams : EnumParams :=
  { sz := stdSizes, masks := stdMasks, MAX_PIPES := 10, USB_ENUM_BUFFER_SIZE := 512,
    USB_DEV_NAME_MAX_SIZE := 64, URB_STATUS_OK := 0, bmalloc := junkAlloc }

/-- A completed URB as the enumeration handler sees it.  Its setup buffer is the global
`setup` and its context is the core, as `usbhc_fill_control_urb` and
`usbhc_set_urb_context` set them; `transfer_buffer` is the contents of `enum_buffer`. -/
structure urb where
  /-- Completion status. -/
  status : Nat
  /-- Number of bytes transferred. -/
  acctual_length : Nat
  /-- The transfer buffer. -/
  transfer_buffer : Nat → Nat

/-- The state the enumeration works on: the core, the device record `usbc->enum_dev`
points to, the global `setup`, and the calls made so far. -/
structure EnumWorld where
  /-- The core. -/
  usbc : usb_core
  /-- The device being enumerated. -/
  dev : usb_dev
  /-- The global setup packet. -/
  setup : usb_setup_desc
  /-- The calls made so far, oldest first. -/
  trace : List HcEvent

/-- Modelled from the spec: `panic` is not among the sources; a fatal error halts the
system.  A run of the handler either returns (`done`) or ends in `panic`, in both cases
with the state reached. -/
inductive Outcome where
  | done (w : EnumWorld)
  | panic (code : PanicCode) (w : EnumWorld)

/-- The calls `usbhc_fill_control_urb(urb, &setup, enum_buffer, &usbc_enumerate_handler)`
and `usbhc_submit_urb(urb, usbc->pipe0)` that end every request function; `pipe0` is pipe
number 0 of the controller (`usbc_init`). -/
def submitControl (w : EnumWorld) : EnumWorld :=
  { w with trace := w.trace ++ [HcEvent.fill_control_urb, HcEvent.submit_urb 0 w.setup] }

/-- The function `usbc_get_dev_desc(urb, usbc, full)`. -/
def usbc_get_dev_desc (w : EnumWorld) (full : Nat) : EnumWorld :=
  let s := { w.setup with bmRequestType := USB_DEVICE_TO_HOST,
                          bRequest := USB_REQ_GET_DESCRIPTOR }
  let s := set_bDescriptorType s USB_DESC_DEVICE
  let s := set_bDescriptorIndex s 0
  let s := { s with wIndex := 0 }
  let s := if full ≠ 0 then { s with wLength := 18 } else { s with wLength := 8 }
  submitControl { w with setup := s }

/-- The function `usb_get_string_desc(urb, usbc, desc_index, lang_id)`. -/
def usb_get_string_desc (P : EnumParams) (w : EnumWorld) (desc_index lang_id : Nat) :
    EnumWorld :=
  let s := { w.setup with bmRequestType := USB_DEVICE_TO_HOST,
                          bRequest := USB_REQ_GET_DESCRIPTOR }
  let s := set_bDescriptorType s USB_DESC_STRING
  let s := set_bDescriptorIndex s desc_index
  let s := { s with wIndex := lang_id % 65536, wLength := P.USB_ENUM_BUFFER_SIZE % 65536 }
  submitControl { w with setup := s }

/-- The function `usbc_set_dev_addr(urb, usbc)`. -/
def usbc_set_dev_addr (P : EnumParams) (fuel : Nat) (w : EnumWorld) : Option EnumWorld :=
  match usbc_new_address P.MAX_PIPES fuel w.usbc with
  | none => none
  | some (a, usbc1) =>
    let s := { w.setup with bmRequestType := USB_HOST_TO_DEVICE,
                            bRequest := USB_REQ_SET_ADDRESS,
                            wValue := a, wIndex := 0, wLength := 0 }
    some (submitControl { w with usbc := usbc1, setup := s })

/-- The function `usbc_get_cfg_desc(urb, usbc)`. -/
def usbc_get_cfg_desc (w : EnumWorld) : EnumWorld :=
  let s := { w.setup with bmRequestType := USB_DEVICE_TO_HOST,
                          bRequest := USB_REQ_GET_DESCRIPTOR }
  let s := set_bDescriptorType s USB_DESC_CONFIG
  let s := set_bDescriptorIndex s 0
  let s := { s with wIndex := 0, wLength := 9 }
  submitControl { w with setup := s }

/-- The function `usbc_get_all_desc(urb, usbc)`. -/
def usbc_get_all_desc (w : EnumWorld) : EnumWorld :=
  let s := { w.setup with bmRequestType := USB_DEVICE_TO_HOST,
                          bRequest := USB_REQ_GET_DESCRIPTOR }
  let s := set_bDescriptorType s USB_DESC_CONFIG
  let s := set_bDescriptorIndex s 0
  let s := { s with wIndex := 0, wLength := w.dev.desc_total_size % 65536 }
  submitControl { w with setup := s }

/-- Modelled from the spec: `usb_protocol.h` is not among the sources;
`bMaxPacketSize` is byte 7 of the device descriptor (USB 2.0 section 9.6). -/
def bMaxPacketSize (buf : Nat → Nat) : Nat := byteAt buf 7

/-- Modelled from the spec: `usb_protocol.h` is not among the sources; `wTotalLength`
is the little-endian 16-bit value at bytes 2 and 3 of the configuration descriptor. -/
def wTotalLength (buf : Nat → Nat) : Nat := byteAt buf 2 + 256 * byteAt buf 3

/-- Modelled from the spec: `usb_protocol.h` is not among the sources; `iManufacturer`
is byte 14 of the device descriptor. -/
def iManufacturer (desc : List Nat) : Nat := desc.getD 14 0

/-- Modelled from the spec: `usb_protocol.h` is not among the sources; `iProduct` is
byte 15 of the device descriptor. -/
def iProduct (desc : List Nat) : Nat := desc.getD 15 0

/-- The function `usbc_ep0_size_done(urb, dev)`. -/
def usbc_ep0_size_done (u : urb) (dev : usb_dev) : Except PanicCode usb_dev :=
  let packet_size := bMaxPacketSize u.transfer_buffer
  if packet_size < 8 ∨ packet_size > 1024 then .error PanicCode.abort_enumeration
  else .ok { dev with ep0_size := packet_size }

/-- The function `usbc_device_desc_done(urb, dev)`; `setup` is the setup buffer of the
URB.  `desc` receives the `wLength` bytes that are copied to `&dev->desc`. -/
def usbc_device_desc_done (setup : usb_setup_desc) (u : urb) (dev : usb_dev) : usb_dev :=
  let size := setup.wLength
  { dev with desc := memory_copy u.transfer_buffer 0 size }

/-- The function `usbc_address_done(urb, dev)`. -/
def usbc_address_done (w : EnumWorld) : EnumWorld :=
  let dev := { w.dev with address := w.setup.wValue }
  { w with dev := dev, trace := w.trace ++ [HcEvent.set_address 0 dev.address] }

/-- The function `usbc_desc_length_done(urb, dev)`. -/
def usbc_desc_length_done (u : urb) (dev : usb_dev) : Except PanicCode usb_dev :=
  if u.acctual_length ≠ 9 then .error PanicCode.error
  else .ok { dev with desc_total_size := wTotalLength u.transfer_buffer }

/-- The function `usbc_get_all_desc_done(urb, dev)`, up to the printing.  The result is
the device record, the sizes requested from the allocator, and whether `panic` was
called. -/
def usbc_get_all_desc_done (P : EnumParams) (fuel : Nat) (u : urb) (dev : usb_dev) :
    Option (Bool × usb_dev × List Nat) :=
  match usbc_parse_descriptors P.sz P.bmalloc fuel dev u.transfer_buffer u.acctual_length with
  | none => none
  | some (r, dev1, log) => if r = 0 then some (true, dev1, log) else some (false, dev1, log)

/-- The common body of `usbc_get_product_name_done` and
`usbc_get_manufacturer_name_done`, on the name buffer `name`. -/
def nameDone (P : EnumParams) (fuel : Nat) (setup : usb_setup_desc) (u : urb)
    (name : Nat → Nat) : Option (Nat → Nat) :=
  if bDescriptorIndex setup = 0 then some name
  else
    match usbc_uni_to_string fuel (fun i => u.transfer_buffer (USB_STRING_OFFSET + i))
        ((u.acctual_length % U32 + U32 - 2) % U32) name P.USB_DEV_NAME_MAX_SIZE with
    | none => none
    | some r => some r.string

/-- The function `usbc_get_product_name_done(urb, dev)`. -/
def usbc_get_product_name_done (P : EnumParams) (fuel : Nat) (setup : usb_setup_desc)
    (u : urb) (dev : usb_dev) : Option usb_dev :=
  match nameDone P fuel setup u dev.product with
  | none => none
  | some s => some { dev with product := s }

/-- The function `usbc_get_manufacturer_name_done(urb, dev)`. -/
def usbc_get_manufacturer_name_done (P : EnumParams) (fuel : Nat) (setup : usb_setup_desc)
    (u : urb) (dev : usb_dev) : Option usb_dev :=
  match nameDone P fuel setup u dev.manufacturer with
  | none => none
  | some s => some { dev with manufacturer := s }

/-- The `connect` calls of a run of `usbc_assign_driver`, in order. -/
def connectEvents : List (Nat × Option usb_driver × List Nat) → List HcEvent
  | [] => []
  | (slot, _, calls) :: rest => calls.map (fun d => HcEvent.connect d slot) ++ connectEvents rest

/-- The function `usbc_enumerate_handler(urb)`. -/
def usbc_enumerate_handler (P : EnumParams) (fuel : Nat) (u : urb) (w : EnumWorld) :
    Option Outcome :=
  if u.status ≠ P.URB_STATUS_OK then
    some (Outcome.panic PanicCode.enumeration_urb_failed w)
  else
    match w.usbc.enum_state with
    | usb_enum_state.USB_ENUM_IDLE => some (Outcome.done w)
    | usb_enum_state.USB_ENUM_GET_EP0_SIZE =>
      match usbc_ep0_size_done u w.dev with
      | .error c => some (Outcome.panic c w)
      | .ok dev1 =>
        let w1 := { w with dev := dev1,
                           trace := w.trace ++ [HcEvent.set_ep_size 0 dev1.ep0_size] }
        let w2 := { w1 with
          usbc := { w1.usbc with enum_state := usb_enum_state.USB_ENUM_GET_DEV_DESC } }
        some (Outcome.done (usbc_get_dev_desc w2 1))
    | usb_enum_state.USB_ENUM_GET_DEV_DESC =>
      let w1 := { w with dev := usbc_device_desc_done w.setup u w.dev }
      let w2 := { w1 with
        usbc := { w1.usbc with enum_state := usb_enum_state.USB_ENUM_SET_ADDRESS } }
      match usbc_set_dev_addr P fuel w2 with
      | none => none
      | some w3 => some (Outcome.done w3)
    | usb_enum_state.USB_ENUM_SET_ADDRESS =>
      let w1 := usbc_address_done w
      let w2 := { w1 with
        usbc := { w1.usbc with enum_state := usb_enum_state.USB_ENUM_GET_DESC_LENGTH } }
      some (Outcome.done (usbc_get_cfg_desc w2))
    | usb_enum_state.USB_ENUM_GET_DESC_LENGTH =>
      match usbc_desc_length_done u w.dev with
      | .error c => some (Outcome.panic c w)
      | .ok dev1 =>
        let w1 := { w with dev := dev1 }
        let w2 := { w1 with
          usbc := { w1.usbc with enum_state := usb_enum_state.USB_ENUM_GET_DESCRIPTORS } }
        some (Outcome.done (usbc_get_all_desc w2))
    | usb_enum_state.USB_ENUM_GET_DESCRIPTORS =>
      match usbc_get_all_desc_done P fuel u w.dev with
      | none => none
      | some (fatal, dev1, log) =>
        let w1 := { w with dev := dev1, trace := w.trace ++ log.map HcEvent.bmalloc }
        if fatal then some (Outcome.panic PanicCode.cannot_parse_descriptors w1)
        else
          let w2 := { w1 with
            usbc := { w1.usbc with enum_state := usb_enum_state.USB_ENUM_GET_PRODUCT_NAME } }
          some (Outcome.done (usb_get_string_desc P w2 (iProduct w2.dev.desc) 0))
    | usb_enum_state.USB_ENUM_GET_PRODUCT_NAME =>
      match usbc_get_product_name_done P fuel w.setup u w.dev with
      | none => none
      | some dev1 =>
        let w1 := { w with dev := dev1 }
        let w2 := { w1 with
          usbc := { w1.usbc with
            enum_state := usb_enum_state.USB_ENUM_GET_MANUFACTURER_NAME } }
        some (Outcome.done (usb_get_string_desc P w2 (iManufacturer w2.dev.desc) 0))
    | usb_enum_state.USB_ENUM_GET_MANUFACTURER_NAME =>
      match usbc_get_manufacturer_name_done P fuel w.setup u w.dev with
      | none => none
      | some dev1 =>
        let w1 := { w with dev := dev1, trace := w.trace ++ [HcEvent.pipe_disable 0] }
        let r := usbc_assign_driver P.masks (fun _ => w1.dev) w1.dev w1.usbc
        some (Outcome.done { w1 with dev := r.1, trace := w1.trace ++ connectEvents r.2 })

/-- The function `usbc_start_enum(usbc)`; `raw` is the memory that `bmalloc` returns for
the new device record. -/
def usbc_start_enum (P : EnumParams) (w : EnumWorld) (raw : usb_dev) : EnumWorld :=
  let w1 := { w with trace := w.trace ++ [HcEvent.pipe_configure 0 0 0 64] }
  let a := usbc_add_device P.MAX_PIPES w1.usbc raw
  let w2 := { w1 with usbc := a.1, dev := a.2, trace := w1.trace ++ [HcEvent.alloc_urb] }
  let w3 := { w2 with
    usbc := { w2.usbc with enum_state := usb_enum_state.USB_ENUM_GET_EP0_SIZE } }
  usbc_get_dev_desc w3 0

/-- The state that follows an enumeration state in the sequence of the specification. -/
def nextState : usb_enum_state → usb_enum_state
  | usb_enum_state.USB_ENUM_IDLE => usb_enum_state.USB_ENUM_IDLE
  | usb_enum_state.USB_ENUM_GET_EP0_SIZE => usb_enum_state.USB_ENUM_GET_DEV_DESC
  | usb_enum_state.USB_ENUM_GET_DEV_DESC => usb_enum_state.USB_ENUM_SET_ADDRESS
  | usb_enum_state.USB_ENUM_SET_ADDRESS => usb_enum_state.USB_ENUM_GET_DESC_LENGTH
  | usb_enum_state.USB_ENUM_GET_DESC_LENGTH => usb_enum_state.USB_ENUM_GET_DESCRIPTORS
  | usb_enum_state.USB_ENUM_GET_DESCRIPTORS => usb_enum_state.USB_ENUM_GET_PRODUCT_NAME
  | usb_enum_state.USB_ENUM_GET_PRODUCT_NAME => usb_enum_state.USB_ENUM_GET_MANUFACTURER_NAME
  | usb_enum_state.USB_ENUM_GET_MANUFACTURER_NAME => usb_enum_state.USB_ENUM_IDLE

/-- The world of an outcome. -/
def Outcome.world : Outcome → EnumWorld
  | Outcome.done w => w
  | Outcome.panic _ w => w

/-- A world right after `usbc_init`, before any device is attached. -/
def idleWorld : EnumWorld :=
  { usbc := freshCore, dev := rawDev 0,
    setup := { bmRequestType := 0, bRequest := 0, wValue := 0, wIndex := 0, wLength := 0 },
    trace := [] }

/-- An 18-byte device descriptor with `bMaxPacketSize = 64`, `iManufacturer = 0` and
`iProduct = 0`. -/
def sampleDevDesc : List Nat :=
  [18, 1, 0, 2, 0, 0, 0, 64, 52, 18, 120, 86, 0, 1, 0, 0, 0, 1]

/-- A completed URB with status OK. -/
def okUrb (len : Nat) (bytes : List Nat) : urb :=
  { status := 0, acctual_length := len, transfer_buffer := bufOf bytes }

/-- The six states of the enumeration sequence that wait for a request to complete and
have a following state. -/
def stepStates : List usb_enum_state :=
  [usb_enum_state.USB_ENUM_GET_EP0_SIZE, usb_enum_state.USB_ENUM_GET_DEV_DESC,
   usb_enum_state.USB_ENUM_SET_ADDRESS, usb_enum_state.USB_ENUM_GET_DESC_LENGTH,
   usb_enum_state.USB_ENUM_GET_DESCRIPTORS, usb_enum_state.USB_ENUM_GET_PRODUCT_NAME]

/-- The handler applied to a world; the world is kept when the handler does not return. -/
def stepWorld (P : EnumParams) (fuel : Nat) (u : urb) (w : EnumWorld) : EnumWorld :=
  match usbc_enumerate_handler P fuel u w with
  | some o => o.world
  | none => w

/-- The handler applied to the completions `us`, one after the other. -/
def runWorld (P : EnumParams) (fuel : Nat) : List urb → EnumWorld → EnumWorld
  | [], w => w
  | u :: us, w => runWorld P fuel us (stepWorld P fuel u w)

/-- The completions of an enumeration of the sample device: 8 bytes of the device
descriptor, the 18-byte device descriptor, the status stage of SET_ADDRESS, 9 bytes of
the configuration descriptor, the 25-byte tree, and two string descriptors. -/
def sampleUrbs : List urb :=
  [okUrb 8 sampleDevDesc, okUrb 18 sampleDevDesc, okUrb 0 [], okUrb 9 sampleTree,
   okUrb 25 sampleTree, okUrb 4 [4, 3, 9, 4], okUrb 4 [4, 3, 9, 4]]

/-- The world after `usbc_start_enum` and the first `k` completions of the sample
enumeration, with one HID driver registered. -/
def sampleWorld (k : Nat) : EnumWorld :=
  runWorld stdParams 20 (sampleUrbs.take k)
    (usbc_start_enum stdParams
      { idleWorld with usbc := usbc_add_driver (hidDriver 501 true) freshCore } (rawDev 0))

/-- The worlds reachable from `usbc_start_enum` by completions that the handler
returns from. -/
inductive EnumReach (P : EnumParams) : EnumWorld → Prop
  | start (w : EnumWorld) (raw : usb_dev) : EnumReach P (usbc_start_enum P w raw)
  | step (w w1 : EnumWorld) (fuel : Nat) (u : urb) :
      EnumReach P w → usbc_enumerate_handler P fuel u w = some (Outcome.done w1) →
      EnumReach P w1

/-- The name buffer holds the string `"None"`. -/
def NameIsNone (name : Nat → Nat) : Prop :=
  name 0 = 78 ∧ name 1 = 111 ∧ name 2 = 110 ∧ name 3 = 101 ∧ name 4 = 0


/-- Two device records agree on the name buffers and the cached device descriptor. -/
def SameNames (a b : usb_dev) : Prop :=
  a.product = b.product ∧ a.manufacturer = b.manufacturer ∧ a.desc = b.desc

/-- The relation between the setup packet, the cached device descriptor and the name
buffers that holds in each enumeration state. -/
def NameInv (w : EnumWorld) : Prop :=
  match w.usbc.enum_state with
  | usb_enum_state.USB_ENUM_GET_PRODUCT_NAME =>
    bDescriptorIndex w.setup = iProduct w.dev.desc % 256 ∧
    NameIsNone w.dev.product ∧ NameIsNone w.dev.manufacturer
  | usb_enum_state.USB_ENUM_GET_MANUFACTURER_NAME =>
    bDescriptorIndex w.setup = iManufacturer w.dev.desc % 256 ∧
    (iProduct w.dev.desc % 256 = 0 → NameIsNone w.dev.product) ∧
    (iManufacturer w.dev.desc % 256 = 0 → NameIsNone w.dev.manufacturer)
  | _ => NameIsNone w.dev.product ∧ NameIsNone w.dev.manufacturer

/-! ### Layout of the descriptor buffer -/

/-- The function `usbc_get_desc_offset(configs, ifaces, type, index)`; `type` is a `u8`,
the products and sums are `u32`. -/
def usbc_get_desc_offset (sz : Sizes) (configs ifaces type index : Nat) : Nat :=
  let offset := 0
  if type % 256 = USB_DESC_CONFIG then
    (offset + index * sz.config % U32) % U32
  else if type % 256 = USB_DESC_IFACE then
    let offset := (offset + configs * sz.config % U32) % U32
    (offset + index * sz.iface % U32) % U32
  else if type % 256 = USB_DESC_EP then
    let offset := (offset + configs * sz.config % U32) % U32
    let offset := (offset + ifaces * sz.iface % U32) % U32
    (offset + index * sz.ep % U32) % U32
  else offset

/-- The state in which the second walk of `usbc_parse_descriptors` starts, for the device
record `dev` as `usbc_init_descriptors` leaves it. -/
def parseStart (dev : usb_dev) : ParseState :=
  { dev := dev, config_index := 0, iface_index := 0, ep_index := 0,
    last_cfg := none, last_iface := none }

/-- The states at the head of the second loop of `usbc_parse_descriptors`: the position
and the local variables, from the start state `st0` on. -/
inductive ParseReach (sz : Sizes) (data : Nat → Nat) (size : Nat) (st0 : ParseState) :
    Nat → ParseState → Prop
  | start : ParseReach sz data size st0 0 st0
  | step (pos : Nat) (st st1 : ParseState) :
      ParseReach sz data size st0 pos st → pos < size →
      parseBody sz data pos st = .ok st1 →
      ParseReach sz data size st0 ((pos + byteAt data pos) % U32) st1

/-- Two device records agree on the interface list and, in every interface record, on
the fields `driver`, `parent_dev` and `assigned`. -/
def IfaceFrame (a b : usb_dev) : Prop :=
  a.iface_list = b.iface_list ∧
  ∀ j, (a.mem.ifs j).driver = (b.mem.ifs j).driver ∧
    (a.mem.ifs j).parent_dev = (b.mem.ifs j).parent_dev ∧
    (a.mem.ifs j).assigned = (b.mem.ifs j).assigned

/-- An 18-byte device descriptor with `iManufacturer = 1` and `iProduct = 2`. -/
def namedDevDesc : List Nat :=
  [18, 1, 0, 2, 0, 0, 0, 64, 52, 18, 120, 86, 0, 1, 1, 2, 0, 1]

/-- The first five completions of an enumeration of a device with name strings. -/
def namedUrbs : List urb :=
  [okUrb 8 namedDevDesc, okUrb 18 namedDevDesc, okUrb 0 [], okUrb 9 sampleTree,
   okUrb 25 sampleTree]

/-- The world after `usbc_start_enum` and the first `k` completions of the enumeration of
the device with name strings. -/
def namedWorld (k : Nat) : EnumWorld :=
  runWorld stdParams 64 (namedUrbs.take k) (usbc_start_enum stdParams idleWorld (rawDev 0))

/-- A 9-byte configuration descriptor that reports `wTotalLength = 1000`. -/
def longConfigDesc : List Nat := [9, 2, 232, 3, 1, 1, 0, 128, 50]

/-- A configuration descriptor followed by a descriptor of type 0x21 with `bLength = 0`. -/
def zeroLengthTree : List Nat := [9, 2, 11, 0, 1, 1, 0, 128, 50, 0, 33]

/-- The sample tree followed, past its 25 bytes, by five bytes that are not part of it. -/
def overrunTree : List Nat := sampleTree ++ [170, 187, 204, 221, 238]

/-- A configuration descriptor followed by one more byte. -/
def trailingByteTree : List Nat := [9, 2, 10, 0, 1, 1, 0, 128, 50, 1]

/-- A completed string URB buffer: a first byte, then bytes that are not part of the
transfer when its actual length is 0 or 1. -/
def shortStringBuffer : List Nat := [4, 3, 72, 0, 105, 0]

/-- The buffer `a` holds, in every slot at or above the counts `C`, `I`, `E` of its
region, the record that `b` holds there. -/
def SlotsAbove (C I E : Nat) (a b : DescBuffer) : Prop :=
  (∀ j, C ≤ j → a.cfgs j = b.cfgs j) ∧ (∀ j, I ≤ j → a.ifs j = b.ifs j) ∧
  (∀ j, E ≤ j → a.eps j = b.eps j)

/-- The validation that the completion step of a state makes, read off the done-functions
of `usb.c`: the condition under which they do not call `panic`.  GET_EP0_SIZE checks
`bMaxPacketSize`, GET_DESC_LENGTH the received length, GET_DESCRIPTORS the result of
`usbc_parse_descriptors`; the other states check nothing. -/
def stepValid (P : EnumParams) (fuel : Nat) (u : urb) (w : EnumWorld) : Prop :=
  match w.usbc.enum_state with
  | usb_enum_state.USB_ENUM_GET_EP0_SIZE =>
    8 ≤ bMaxPacketSize u.transfer_buffer ∧ bMaxPacketSize u.transfer_buffer ≤ 1024
  | usb_enum_state.USB_ENUM_GET_DESC_LENGTH => u.acctual_length = 9
  | usb_enum_state.USB_ENUM_GET_DESCRIPTORS =>
    ∃ r dev1 log, usbc_parse_descriptors P.sz P.bmalloc fuel w.dev u.transfer_buffer
      u.acctual_length = some (r, dev1, log) ∧ r ≠ 0
  | _ => True

/-! ## Theorems -/

theorem walkPos_lt (data : Nat → Nat) (k : Nat) : walkPos data k < U32 := by
  cases k with
  | zero => simp [walkPos, U32]
  | succ k => exact Nat.mod_lt _ (by simp [U32])

theorem walkPos_add_of_eq (data : Nat → Nat) (i j : Nat)
    (h : walkPos data i = walkPos data j) (t : Nat) :
    walkPos data (i + t) = walkPos data (j + t) := by
  induction t with
  | zero => simpa using h
  | succ t ih =>
    show walkPos data (i + t + 1) = walkPos data (j + t + 1)
    simp only [walkPos, ih]

/-- The positions of a finishing walk are pairwise different. -/
theorem walkPos_injOn (data : Nat → Nat) (size n : Nat) (h : WalkFinishes data size n)
    (i j : Nat) (hij : i < j) (hj : j ≤ n) : walkPos data i ≠ walkPos data j := by
  intro he
  have h1 := walkPos_add_of_eq data i j he (n - j)
  have h2 : j + (n - j) = n := by omega
  rw [h2] at h1
  have h3 : walkPos data (i + (n - j)) < size := h.1 _ (by omega)
  have h4 := h.2
  omega

/-- A finishing walk takes fewer than `2 ^ 32` strides. -/
theorem walk_steps_lt (data : Nat → Nat) (size n : Nat) (h : WalkFinishes data size n) :
    n < U32 := by
  by_contra hn
  have hcard : (Finset.range (n + 1)).card ≤ (Finset.range U32).card := by
    apply Finset.card_le_card_of_injOn (walkPos data)
    · intro k _
      simpa using walkPos_lt data k
    · intro a ha b hb hab
      have ha1 : a < n + 1 := by simpa using ha
      have hb1 : b < n + 1 := by simpa using hb
      by_contra hne
      rcases Nat.lt_or_gt_of_ne hne with hlt | hgt
      · exact walkPos_injOn data size n h a b hlt (by omega) hab
      · exact walkPos_injOn data size n h b a hgt (by omega) hab.symm
  simp at hcard
  omega

theorem countType_le (data : Nat → Nat) (t k : Nat) : countType data t k ≤ k := by
  induction k with
  | zero => simp [countType]
  | succ k ih =>
    simp only [countType]
    split <;> omega

theorem verifyLoop_spec (sz : Sizes) (data : Nat → Nat) (size n : Nat)
    (h : WalkFinishes data size n) :
    ∀ m k fuel, k + m = n → m < fuel → (∀ j, j < k → LengthOk sz data j) →
      ∃ r c i e,
        verifyLoop sz data size fuel (walkPos data k) (countType data USB_DESC_CONFIG k)
          (countType data USB_DESC_IFACE k) (countType data USB_DESC_EP k) = some (r, c, i, e) ∧
        (r = 1 ∨ r = 0) ∧
        (r = 1 ↔ ((∀ j, j < n → LengthOk sz data j) ∧ walkPos data n = size)) ∧
        (r = 1 → c = countType data USB_DESC_CONFIG n ∧ i = countType data USB_DESC_IFACE n ∧
          e = countType data USB_DESC_EP n) := by
  have hn := walk_steps_lt data size n h
  intro m
  induction m with
  | zero =>
    intro k fuel hk hf hok
    have hkn : k = n := by omega
    subst hkn
    obtain ⟨f, rfl⟩ : ∃ f, fuel = f + 1 := ⟨fuel - 1, by omega⟩
    have hge := h.2
    by_cases heq : walkPos data k = size
    · refine ⟨1, countType data USB_DESC_CONFIG k, countType data USB_DESC_IFACE k,
        countType data USB_DESC_EP k, ?_, Or.inl rfl, ?_, ?_⟩
      · simp [verifyLoop, heq]
      · simp [heq]; exact hok
      · intro _; exact ⟨rfl, rfl, rfl⟩
    · refine ⟨0, countType data USB_DESC_CONFIG k, countType data USB_DESC_IFACE k,
        countType data USB_DESC_EP k, ?_, Or.inr rfl, ?_, ?_⟩
      · have : ¬ walkPos data k < size := by omega
        simp [verifyLoop, heq, this]
      · simp [heq]
      · intro h0; exact absurd h0 (by decide)
  | succ m ih =>
    intro k fuel hk hf hok
    obtain ⟨f, rfl⟩ : ∃ f, fuel = f + 1 := ⟨fuel - 1, by omega⟩
    have hkn : k < n := by omega
    have hlt : walkPos data k < size := h.1 k hkn
    have hcC := countType_le data USB_DESC_CONFIG k
    have hcI := countType_le data USB_DESC_IFACE k
    have hcE := countType_le data USB_DESC_EP k
    have hbad : ¬ LengthOk sz data k →
        ¬ ((∀ j, j < n → LengthOk sz data j) ∧ walkPos data n = size) := by
      intro hb hall
      exact hb (hall.1 k hkn)
    have hstep : ∀ j, LengthOk sz data k → j < k + 1 → LengthOk sz data j := by
      intro j hk1 hj
      rcases Nat.lt_succ_iff_lt_or_eq.mp hj with hj1 | hj1
      · exact hok j hj1
      · exact hj1 ▸ hk1
    have hnext : (walkPos data k + byteAt data (walkPos data k)) % U32 = walkPos data (k + 1) := rfl
    unfold verifyLoop
    simp only [hlt, if_true]
    by_cases hC : byteAt data (walkPos data k + 1) = USB_DESC_CONFIG
    · by_cases hl : byteAt data (walkPos data k) = sz.config_desc
      · have hLok : LengthOk sz data k := by
          refine ⟨fun _ => hl, fun hI => ?_, fun hE => ?_⟩
          · simp [descType, hC, USB_DESC_CONFIG, USB_DESC_IFACE] at hI
          · simp [descType, hC, USB_DESC_CONFIG, USB_DESC_EP] at hE
        have h1 : (countType data USB_DESC_CONFIG k + 1) % U32
            = countType data USB_DESC_CONFIG (k + 1) := by
          rw [Nat.mod_eq_of_lt (by omega)]; simp [countType, descType, hC]
        have h2 : countType data USB_DESC_IFACE k = countType data USB_DESC_IFACE (k + 1) := by
          simp [countType, descType, hC, USB_DESC_CONFIG, USB_DESC_IFACE]
        have h3 : countType data USB_DESC_EP k = countType data USB_DESC_EP (k + 1) := by
          simp [countType, descType, hC, USB_DESC_CONFIG, USB_DESC_EP]
        rw [if_pos hC, if_neg (not_not.mpr hl), hnext, h1]
        rw [h2, h3]
        exact ih (k + 1) f (by omega) (by omega) (fun j hj => hstep j hLok hj)
      · have hLbad : ¬ LengthOk sz data k := fun hL => hl (hL.1 hC)
        refine ⟨0, countType data USB_DESC_CONFIG k, countType data USB_DESC_IFACE k,
        countType data USB_DESC_EP k, ?_, Or.inr rfl, ?_, ?_⟩
        · rw [if_pos hC, if_pos hl]
        · simpa using hbad hLbad
        · intro h0; exact absurd h0 (by decide)
    · by_cases hI : byteAt data (walkPos data k + 1) = USB_DESC_IFACE
      · by_cases hl : byteAt data (walkPos data k) = sz.iface_desc
        · have hLok : LengthOk sz data k := by
            refine ⟨fun hC2 => absurd hC2 hC, fun _ => hl, fun hE => ?_⟩
            simp [descType, hI, USB_DESC_IFACE, USB_DESC_EP] at hE
          have h1 : (countType data USB_DESC_IFACE k + 1) % U32
              = countType data USB_DESC_IFACE (k + 1) := by
            rw [Nat.mod_eq_of_lt (by omega)]; simp [countType, descType, hI]
          have h2 : countType data USB_DESC_CONFIG k = countType data USB_DESC_CONFIG (k + 1) := by
            simp [countType, descType, hI, USB_DESC_CONFIG, USB_DESC_IFACE]
          have h3 : countType data USB_DESC_EP k = countType data USB_DESC_EP (k + 1) := by
            simp [countType, descType, hI, USB_DESC_IFACE, USB_DESC_EP]
          rw [if_neg hC, if_pos hI, if_neg (not_not.mpr hl), hnext, h1]
          rw [h2, h3]
          exact ih (k + 1) f (by omega) (by omega) (fun j hj => hstep j hLok hj)
        · have hLbad : ¬ LengthOk sz data k := fun hL => hl (hL.2.1 hI)
          refine ⟨0, countType data USB_DESC_CONFIG k, countType data USB_DESC_IFACE k,
        countType data USB_DESC_EP k, ?_, Or.inr rfl, ?_, ?_⟩
          · rw [if_neg hC, if_pos hI, if_pos hl]
          · simpa using hbad hLbad
          · intro h0; exact absurd h0 (by decide)
      · by_cases hE : byteAt data (walkPos data k + 1) = USB_DESC_EP
        · by_cases hl : byteAt data (walkPos data k) = sz.ep_desc
          · have hLok : LengthOk sz data k :=
              ⟨fun hC2 => absurd hC2 hC, fun hI2 => absurd hI2 hI, fun _ => hl⟩
            have h1 : (countType data USB_DESC_EP k + 1) % U32
                = countType data USB_DESC_EP (k + 1) := by
              rw [Nat.mod_eq_of_lt (by omega)]; simp [countType, descType, hE]
            have h2 : countType data USB_DESC_CONFIG k
                = countType data USB_DESC_CONFIG (k + 1) := by
              simp [countType, descType, hE, USB_DESC_CONFIG, USB_DESC_EP]
            have h3 : countType data USB_DESC_IFACE k = countType data USB_DESC_IFACE (k + 1) := by
              simp [countType, descType, hE, USB_DESC_IFACE, USB_DESC_EP]
            rw [if_neg hC, if_neg hI, if_pos hE, if_neg (not_not.mpr hl), hnext, h1]
            rw [h2, h3]
            exact ih (k + 1) f (by omega) (by omega) (fun j hj => hstep j hLok hj)
          · have hLbad : ¬ LengthOk sz data k := fun hL => hl (hL.2.2 hE)
            refine ⟨0, countType data USB_DESC_CONFIG k, countType data USB_DESC_IFACE k,
        countType data USB_DESC_EP k, ?_, Or.inr rfl, ?_, ?_⟩
            · rw [if_neg hC, if_neg hI, if_pos hE, if_pos hl]
            · simpa using hbad hLbad
            · intro h0; exact absurd h0 (by decide)
        · have hLok : LengthOk sz data k :=
            ⟨fun hC2 => absurd hC2 hC, fun hI2 => absurd hI2 hI, fun hE2 => absurd hE2 hE⟩
          have h1 : countType data USB_DESC_CONFIG k = countType data USB_DESC_CONFIG (k + 1) := by
            simp [countType, descType, hC]
          have h2 : countType data USB_DESC_IFACE k = countType data USB_DESC_IFACE (k + 1) := by
            simp [countType, descType, hI]
          have h3 : countType data USB_DESC_EP k = countType data USB_DESC_EP (k + 1) := by
            simp [countType, descType, hE]
          rw [if_neg hC, if_neg hI, if_neg hE, hnext]
          rw [h1, h2, h3]
          exact ih (k + 1) f (by omega) (by omega) (fun j hj => hstep j hLok hj)

theorem sumTo_congr (f g : Nat → Nat) (n : Nat) (h : ∀ j, j < n → f j = g j) :
    sumTo f n = sumTo g n := by
  induction n with
  | zero => rfl
  | succ n ih =>
    simp only [sumTo]
    rw [ih (fun j hj => h j (by omega)), h n (by omega)]

theorem le_sumTo (f : Nat → Nat) (n j : Nat) (h : j < n) : f j ≤ sumTo f n := by
  induction n with
  | zero => omega
  | succ n ih =>
    simp only [sumTo]
    rcases Nat.lt_succ_iff_lt_or_eq.mp h with h1 | h1
    · have := ih h1; omega
    · subst h1; omega

theorem countType_succ_eq (data : Nat → Nat) (t k : Nat) (h : descType data k = t) :
    countType data t (k + 1) = countType data t k + 1 := by
  simp [countType, h]

theorem countType_succ_ne (data : Nat → Nat) (t k : Nat) (h : descType data k ≠ t) :
    countType data t (k + 1) = countType data t k := by
  simp [countType, h]

theorem parseBody_config (sz : Sizes) (data : Nat → Nat) (pos : Nat) (st : ParseState)
    (h : byteAt data (pos + 1) = USB_DESC_CONFIG) :
    parseBody sz data pos st = .ok { st with
      dev := { st.dev with
        num_configs := (st.dev.num_configs + 1) % U32
        mem := { st.dev.mem with
          cfgs := Function.update st.dev.mem.cfgs st.config_index
            { st.dev.mem.cfgs st.config_index with
              desc := memory_copy data pos sz.config_desc, num_ifaces := 0 } } }
      last_cfg := some st.config_index
      config_index := (st.config_index + 1) % U32 } := by
  unfold parseBody
  dsimp only
  rw [if_pos h]

theorem parseBody_other (sz : Sizes) (data : Nat → Nat) (pos : Nat) (st : ParseState)
    (h1 : byteAt data (pos + 1) ≠ USB_DESC_CONFIG) (h2 : byteAt data (pos + 1) ≠ USB_DESC_IFACE)
    (h3 : byteAt data (pos + 1) ≠ USB_DESC_EP) :
    parseBody sz data pos st = .ok st := by
  unfold parseBody
  dsimp only
  rw [if_neg h1, if_neg h2, if_neg h3]

theorem parseBody_iface_none (sz : Sizes) (data : Nat → Nat) (pos : Nat) (st : ParseState)
    (h : byteAt data (pos + 1) = USB_DESC_IFACE) (hl : st.last_cfg = none) :
    ∃ d, parseBody sz data pos st = .error d := by
  have h1 : byteAt data (pos + 1) ≠ USB_DESC_CONFIG := by
    rw [h]; decide
  unfold parseBody
  dsimp only
  rw [if_neg h1, if_pos h]
  simp only [hl]
  exact ⟨_, rfl⟩

theorem parseBody_ep_none (sz : Sizes) (data : Nat → Nat) (pos : Nat) (st : ParseState)
    (h : byteAt data (pos + 1) = USB_DESC_EP) (hl : st.last_iface = none) :
    ∃ d, parseBody sz data pos st = .error d := by
  have h1 : byteAt data (pos + 1) ≠ USB_DESC_CONFIG := by
    rw [h]; decide
  have h2 : byteAt data (pos + 1) ≠ USB_DESC_IFACE := by
    rw [h]; decide
  unfold parseBody
  dsimp only
  rw [if_neg h1, if_neg h2, if_pos h]
  simp only [hl]
  exact ⟨_, rfl⟩

theorem parseBody_iface_some (sz : Sizes) (data : Nat → Nat) (pos : Nat) (st : ParseState)
    (h : byteAt data (pos + 1) = USB_DESC_IFACE) (lc : Nat) (hl : st.last_cfg = some lc) :
    parseBody sz data pos st = .ok { st with
      dev := { st.dev with
        mem := { st.dev.mem with
          ifs := Function.update st.dev.mem.ifs st.iface_index
            { st.dev.mem.ifs st.iface_index with
              desc := memory_copy data pos sz.iface_desc, num_eps := 0 }
          cfgs := Function.update st.dev.mem.cfgs lc
            { (if (st.dev.mem.cfgs lc).num_ifaces = 0
                then { st.dev.mem.cfgs lc with ifaces := some st.iface_index }
                else st.dev.mem.cfgs lc) with
              num_ifaces := ((st.dev.mem.cfgs lc).num_ifaces + 1) % U32 } } }
      last_iface := some st.iface_index
      iface_index := (st.iface_index + 1) % U32 } := by
  have h1 : byteAt data (pos + 1) ≠ USB_DESC_CONFIG := by
    rw [h]; decide
  unfold parseBody
  dsimp only
  rw [if_neg h1, if_pos h]
  simp only [hl]
  split <;> simp_all

theorem parseBody_ep_some (sz : Sizes) (data : Nat → Nat) (pos : Nat) (st : ParseState)
    (h : byteAt data (pos + 1) = USB_DESC_EP) (li : Nat) (hl : st.last_iface = some li) :
    parseBody sz data pos st = .ok { st with
      dev := { st.dev with
        mem := { st.dev.mem with
          eps := Function.update st.dev.mem.eps st.ep_index
            { st.dev.mem.eps st.ep_index with desc := memory_copy data pos sz.ep }
          ifs := Function.update st.dev.mem.ifs li
            { (if (st.dev.mem.ifs li).num_eps = 0
                then { st.dev.mem.ifs li with eps := some st.ep_index }
                else st.dev.mem.ifs li) with
              num_eps := ((st.dev.mem.ifs li).num_eps + 1) % U32 } } }
      ep_index := (st.ep_index + 1) % U32 } := by
  have h1 : byteAt data (pos + 1) ≠ USB_DESC_CONFIG := by
    rw [h]; decide
  have h2 : byteAt data (pos + 1) ≠ USB_DESC_IFACE := by
    rw [h]; decide
  unfold parseBody
  dsimp only
  rw [if_neg h1, if_neg h2, if_pos h]
  simp only [hl]
  split <;> simp_all

theorem U32_val : U32 = 4294967296 := by decide

theorem sumTo_eq_of_agree (m1 m2 : Nat → Nat) (n : Nat) (h : ∀ j, j < n → m1 j = m2 j) :
    ∀ j, j ≤ n → sumTo m1 j = sumTo m2 j :=
  fun j hj => sumTo_congr m1 m2 j (fun j2 hj2 => h j2 (by omega))

theorem parseInv_config (data : Nat → Nat) (n0 k : Nat) (st st1 : ParseState)
    (hk : k + 1 < U32) (hinv : ParseInv data n0 k st)
    (hC : descType data k = USB_DESC_CONFIG) (c1 : usb_config) (hc1 : c1.num_ifaces = 0)
    (h_ci : st1.config_index = (st.config_index + 1) % U32)
    (h_ii : st1.iface_index = st.iface_index) (h_ei : st1.ep_index = st.ep_index)
    (h_nc : st1.dev.num_configs = (st.dev.num_configs + 1) % U32)
    (h_lc : st1.last_cfg = some st.config_index) (h_li : st1.last_iface = st.last_iface)
    (h_cfgs : st1.dev.mem.cfgs = Function.update st.dev.mem.cfgs st.config_index c1)
    (h_ifs : st1.dev.mem.ifs = st.dev.mem.ifs) :
    ParseInv data n0 (k + 1) st1 := by
  have hcC := countType_le data USB_DESC_CONFIG k
  obtain ⟨i1, i2, i3, i4, i5, i6, i7, i8, i9, i10⟩ := hinv
  have hI : descType data k ≠ USB_DESC_IFACE := by
    rw [hC]; decide
  have hE : descType data k ≠ USB_DESC_EP := by
    rw [hC]; decide
  have e1 := countType_succ_eq data USB_DESC_CONFIG k hC
  have e2 := countType_succ_ne data USB_DESC_IFACE k hI
  have e3 := countType_succ_ne data USB_DESC_EP k hE
  have hNew : numIfaces st1.dev.mem (countType data USB_DESC_CONFIG k) = 0 := by
    unfold numIfaces
    rw [h_cfgs, i1, Function.update_same]
    exact hc1
  have hOld : ∀ j, j < countType data USB_DESC_CONFIG k →
      st1.dev.mem.cfgs j = st.dev.mem.cfgs j := by
    intro j hj
    rw [h_cfgs, i1, Function.update_noteq (by omega)]
  have hOldN : ∀ j, j < countType data USB_DESC_CONFIG k →
      numIfaces st1.dev.mem j = numIfaces st.dev.mem j := by
    intro j hj
    unfold numIfaces
    rw [hOld j hj]
  have hSum := sumTo_eq_of_agree _ _ _ hOldN
  have hEps : numEps st1.dev.mem = numEps st.dev.mem := by
    funext j
    unfold numEps
    rw [h_ifs]
  refine ⟨?_, ?_, ?_, ?_, ?_, ?_, ?_, ?_, ?_, ?_⟩
  · rw [h_ci, e1, i1, Nat.mod_eq_of_lt (by omega)]
  · rw [h_ii, e2, i2]
  · rw [h_ei, e3, i3]
  · rw [h_nc, e1]
    rw [U32_val] at i4 ⊢
    omega
  · rw [h_lc, e1, i1]
    simp
  · rw [h_li, e2, i6]
  · rw [e1, e2]
    simp only [sumTo]
    rw [hSum _ (le_refl _), hNew, i7]
    rfl
  · rw [e2, e3, hEps]
    exact i8
  · intro j hj hpos
    rw [e1] at hj
    rcases Nat.lt_succ_iff_lt_or_eq.mp hj with hj1 | hj1
    · rw [hSum j (by omega), hOld j hj1]
      rw [hOldN j hj1] at hpos
      exact i9 j hj1 hpos
    · rw [hj1, hNew] at hpos
      exact absurd hpos (by decide)
  · intro j hj hpos
    rw [e2] at hj
    rw [hEps] at hpos ⊢
    rw [h_ifs]
    exact i10 j hj hpos

theorem parseInv_iface (data : Nat → Nat) (n0 k : Nat) (st st1 : ParseState)
    (hk : k + 1 < U32) (hinv : ParseInv data n0 k st)
    (hI : descType data k = USB_DESC_IFACE) (lc : Nat) (hlc : st.last_cfg = some lc)
    (i1r : usb_iface) (hi1 : i1r.num_eps = 0) (c2 : usb_config)
    (hc2n : c2.num_ifaces = ((st.dev.mem.cfgs lc).num_ifaces + 1) % U32)
    (hc2p : c2.ifaces = if (st.dev.mem.cfgs lc).num_ifaces = 0 then some st.iface_index
      else (st.dev.mem.cfgs lc).ifaces)
    (h_ci : st1.config_index = st.config_index)
    (h_ii : st1.iface_index = (st.iface_index + 1) % U32) (h_ei : st1.ep_index = st.ep_index)
    (h_nc : st1.dev.num_configs = st.dev.num_configs)
    (h_lc : st1.last_cfg = st.last_cfg) (h_li : st1.last_iface = some st.iface_index)
    (h_cfgs : st1.dev.mem.cfgs = Function.update st.dev.mem.cfgs lc c2)
    (h_ifs : st1.dev.mem.ifs = Function.update st.dev.mem.ifs st.iface_index i1r) :
    ParseInv data n0 (k + 1) st1 := by
  have hcC := countType_le data USB_DESC_CONFIG k
  have hcI := countType_le data USB_DESC_IFACE k
  obtain ⟨i1, i2, i3, i4, i5, i6, i7, i8, i9, i10⟩ := hinv
  have hC : descType data k ≠ USB_DESC_CONFIG := by
    rw [hI]; decide
  have hE : descType data k ≠ USB_DESC_EP := by
    rw [hI]; decide
  have e1 := countType_succ_ne data USB_DESC_CONFIG k hC
  have e2 := countType_succ_eq data USB_DESC_IFACE k hI
  have e3 := countType_succ_ne data USB_DESC_EP k hE
  have hcpos : countType data USB_DESC_CONFIG k ≠ 0 := by
    intro h0
    rw [i5, if_pos h0] at hlc
    cases hlc
  have hsplit : countType data USB_DESC_CONFIG k = lc + 1 := by
    rw [i5, if_neg hcpos] at hlc
    injection hlc with hlc
    omega
  have hold : numIfaces st.dev.mem lc ≤ countType data USB_DESC_IFACE k := by
    rw [← i7]
    exact le_sumTo (numIfaces st.dev.mem) _ lc (by omega)
  have hi7 := i7
  rw [hsplit] at hi7
  simp only [sumTo] at hi7
  have hNewC : numIfaces st1.dev.mem lc = numIfaces st.dev.mem lc + 1 := by
    have : numIfaces st1.dev.mem lc = c2.num_ifaces := by
      unfold numIfaces
      rw [h_cfgs, Function.update_same]
    rw [this, hc2n]
    exact Nat.mod_eq_of_lt (by unfold numIfaces at hold; omega)
  have hOldC : ∀ j, j < lc → st1.dev.mem.cfgs j = st.dev.mem.cfgs j := by
    intro j hj
    rw [h_cfgs, Function.update_noteq (by omega)]
  have hOldCN : ∀ j, j < lc → numIfaces st1.dev.mem j = numIfaces st.dev.mem j := by
    intro j hj
    unfold numIfaces
    rw [hOldC j hj]
  have hSumC := sumTo_eq_of_agree _ _ _ hOldCN
  have hNewI : numEps st1.dev.mem (countType data USB_DESC_IFACE k) = 0 := by
    unfold numEps
    rw [h_ifs, i2, Function.update_same]
    exact hi1
  have hOldI : ∀ j, j < countType data USB_DESC_IFACE k →
      st1.dev.mem.ifs j = st.dev.mem.ifs j := by
    intro j hj
    rw [h_ifs, i2, Function.update_noteq (by omega)]
  have hOldIN : ∀ j, j < countType data USB_DESC_IFACE k →
      numEps st1.dev.mem j = numEps st.dev.mem j := by
    intro j hj
    unfold numEps
    rw [hOldI j hj]
  have hSumI := sumTo_eq_of_agree _ _ _ hOldIN
  refine ⟨?_, ?_, ?_, ?_, ?_, ?_, ?_, ?_, ?_, ?_⟩
  · rw [h_ci, e1, i1]
  · rw [h_ii, e2, i2, Nat.mod_eq_of_lt (by omega)]
  · rw [h_ei, e3, i3]
  · rw [h_nc, e1]
    exact i4
  · rw [h_lc, e1, i5]
  · rw [h_li, e2, i2]
    simp
  · rw [e1, e2, hsplit]
    simp only [sumTo]
    rw [hSumC lc (le_refl _), hNewC]
    omega
  · rw [e2, e3]
    simp only [sumTo]
    rw [hSumI _ (le_refl _), hNewI, i8]
    rfl
  · intro j hj hpos
    rw [e1, hsplit] at hj
    rcases Nat.lt_succ_iff_lt_or_eq.mp hj with hj1 | hj1
    · rw [hSumC j (by omega), hOldC j hj1]
      rw [hOldCN j hj1] at hpos
      exact i9 j (by omega) hpos
    · subst hj1
      rw [hSumC j (le_refl _), h_cfgs, Function.update_same, hc2p]
      by_cases hz : (st.dev.mem.cfgs j).num_ifaces = 0
      · rw [if_pos hz, i2]
        have hz2 : numIfaces st.dev.mem j = 0 := hz
        congr 1
        omega
      · rw [if_neg hz]
        exact i9 j (by omega) (Nat.pos_of_ne_zero hz)
  · intro j hj hpos
    rw [e2] at hj
    rcases Nat.lt_succ_iff_lt_or_eq.mp hj with hj1 | hj1
    · rw [hSumI j (by omega), hOldI j hj1]
      rw [hOldIN j hj1] at hpos
      exact i10 j hj1 hpos
    · rw [hj1, hNewI] at hpos
      exact absurd hpos (by decide)

theorem parseInv_ep (data : Nat → Nat) (n0 k : Nat) (st st1 : ParseState)
    (hk : k + 1 < U32) (hinv : ParseInv data n0 k st)
    (hE : descType data k = USB_DESC_EP) (li : Nat) (hli : st.last_iface = some li)
    (i2r : usb_iface)
    (hi2n : i2r.num_eps = ((st.dev.mem.ifs li).num_eps + 1) % U32)
    (hi2p : i2r.eps = if (st.dev.mem.ifs li).num_eps = 0 then some st.ep_index
      else (st.dev.mem.ifs li).eps)
    (h_ci : st1.config_index = st.config_index)
    (h_ii : st1.iface_index = st.iface_index) (h_ei : st1.ep_index = (st.ep_index + 1) % U32)
    (h_nc : st1.dev.num_configs = st.dev.num_configs)
    (h_lc : st1.last_cfg = st.last_cfg) (h_li : st1.last_iface = st.last_iface)
    (h_cfgs : st1.dev.mem.cfgs = st.dev.mem.cfgs)
    (h_ifs : st1.dev.mem.ifs = Function.update st.dev.mem.ifs li i2r) :
    ParseInv data n0 (k + 1) st1 := by
  have hcI := countType_le data USB_DESC_IFACE k
  have hcE := countType_le data USB_DESC_EP k
  obtain ⟨i1, i2, i3, i4, i5, i6, i7, i8, i9, i10⟩ := hinv
  have hC : descType data k ≠ USB_DESC_CONFIG := by
    rw [hE]; decide
  have hI : descType data k ≠ USB_DESC_IFACE := by
    rw [hE]; decide
  have e1 := countType_succ_ne data USB_DESC_CONFIG k hC
  have e2 := countType_succ_ne data USB_DESC_IFACE k hI
  have e3 := countType_succ_eq data USB_DESC_EP k hE
  have hipos : countType data USB_DESC_IFACE k ≠ 0 := by
    intro h0
    rw [i6, if_pos h0] at hli
    cases hli
  have hsplit : countType data USB_DESC_IFACE k = li + 1 := by
    rw [i6, if_neg hipos] at hli
    injection hli with hli
    omega
  have hold : numEps st.dev.mem li ≤ countType data USB_DESC_EP k := by
    rw [← i8]
    exact le_sumTo (numEps st.dev.mem) _ li (by omega)
  have hi8 := i8
  rw [hsplit] at hi8
  simp only [sumTo] at hi8
  have hNewI : numEps st1.dev.mem li = numEps st.dev.mem li + 1 := by
    have : numEps st1.dev.mem li = i2r.num_eps := by
      unfold numEps
      rw [h_ifs, Function.update_same]
    rw [this, hi2n]
    exact Nat.mod_eq_of_lt (by unfold numEps at hold; omega)
  have hOldI : ∀ j, j < li → st1.dev.mem.ifs j = st.dev.mem.ifs j := by
    intro j hj
    rw [h_ifs, Function.update_noteq (by omega)]
  have hOldIN : ∀ j, j < li → numEps st1.dev.mem j = numEps st.dev.mem j := by
    intro j hj
    unfold numEps
    rw [hOldI j hj]
  have hSumI := sumTo_eq_of_agree _ _ _ hOldIN
  have hCfg : numIfaces st1.dev.mem = numIfaces st.dev.mem := by
    funext j
    unfold numIfaces
    rw [h_cfgs]
  refine ⟨?_, ?_, ?_, ?_, ?_, ?_, ?_, ?_, ?_, ?_⟩
  · rw [h_ci, e1, i1]
  · rw [h_ii, e2, i2]
  · rw [h_ei, e3, i3, Nat.mod_eq_of_lt (by omega)]
  · rw [h_nc, e1]
    exact i4
  · rw [h_lc, e1, i5]
  · rw [h_li, e2, i6]
  · rw [e1, e2, hCfg]
    exact i7
  · rw [e2, e3, hsplit]
    simp only [sumTo]
    rw [hSumI li (le_refl _), hNewI]
    omega
  · intro j hj hpos
    rw [e1] at hj
    rw [hCfg] at hpos ⊢
    rw [h_cfgs]
    exact i9 j hj hpos
  · intro j hj hpos
    rw [e2, hsplit] at hj
    rcases Nat.lt_succ_iff_lt_or_eq.mp hj with hj1 | hj1
    · rw [hSumI j (by omega), hOldI j hj1]
      rw [hOldIN j hj1] at hpos
      exact i10 j (by omega) hpos
    · subst hj1
      rw [hSumI j (le_refl _), h_ifs, Function.update_same, hi2p]
      by_cases hz : (st.dev.mem.ifs j).num_eps = 0
      · rw [if_pos hz, i3]
        have hz2 : numEps st.dev.mem j = 0 := hz
        congr 1
        omega
      · rw [if_neg hz]
        exact i10 j (by omega) (Nat.pos_of_ne_zero hz)

theorem parseInv_other (data : Nat → Nat) (n0 k : Nat) (st : ParseState)
    (hinv : ParseInv data n0 k st)
    (hC : descType data k ≠ USB_DESC_CONFIG) (hI : descType data k ≠ USB_DESC_IFACE)
    (hE : descType data k ≠ USB_DESC_EP) :
    ParseInv data n0 (k + 1) st := by
  obtain ⟨i1, i2, i3, i4, i5, i6, i7, i8, i9, i10⟩ := hinv
  have e1 := countType_succ_ne data USB_DESC_CONFIG k hC
  have e2 := countType_succ_ne data USB_DESC_IFACE k hI
  have e3 := countType_succ_ne data USB_DESC_EP k hE
  refine ⟨?_, ?_, ?_, ?_, ?_, ?_, ?_, ?_, ?_, ?_⟩
  · rw [e1]; exact i1
  · rw [e2]; exact i2
  · rw [e3]; exact i3
  · rw [e1]; exact i4
  · rw [e1]; exact i5
  · rw [e2]; exact i6
  · rw [e1, e2]; exact i7
  · rw [e2, e3]; exact i8
  · rw [e1]; exact i9
  · rw [e2]; exact i10

theorem parseInv_step (sz : Sizes) (data : Nat → Nat) (n0 k : Nat) (st st1 : ParseState)
    (hk : k + 1 < U32) (hinv : ParseInv data n0 k st)
    (hb : parseBody sz data (walkPos data k) st = .ok st1) :
    ParseInv data n0 (k + 1) st1 := by
  by_cases hC : byteAt data (walkPos data k + 1) = USB_DESC_CONFIG
  · rw [parseBody_config sz data _ st hC] at hb
    injection hb with hb
    subst hb
    exact parseInv_config data n0 k st _ hk hinv hC _ rfl rfl rfl rfl rfl rfl rfl rfl rfl
  · by_cases hI : byteAt data (walkPos data k + 1) = USB_DESC_IFACE
    · cases hlc : st.last_cfg with
      | none =>
        obtain ⟨d, hd⟩ := parseBody_iface_none sz data _ st hI hlc
        rw [hd] at hb
        cases hb
      | some lc =>
        rw [parseBody_iface_some sz data _ st hI lc hlc] at hb
        injection hb with hb
        subst hb
        refine parseInv_iface data n0 k st _ hk hinv hI lc hlc _ rfl _ rfl ?_
          rfl rfl rfl rfl rfl rfl rfl rfl
        by_cases hz : (st.dev.mem.cfgs lc).num_ifaces = 0
        · simp [hz]
        · simp [hz]
    · by_cases hE : byteAt data (walkPos data k + 1) = USB_DESC_EP
      · cases hli : st.last_iface with
        | none =>
          obtain ⟨d, hd⟩ := parseBody_ep_none sz data _ st hE hli
          rw [hd] at hb
          cases hb
        | some li =>
          rw [parseBody_ep_some sz data _ st hE li hli] at hb
          injection hb with hb
          subst hb
          refine parseInv_ep data n0 k st _ hk hinv hE li hli _ rfl ?_
            rfl rfl rfl rfl rfl rfl rfl rfl
          by_cases hz : (st.dev.mem.ifs li).num_eps = 0
          · simp [hz]
          · simp [hz]
      · rw [parseBody_other sz data _ st hC hI hE] at hb
        injection hb with hb
        subst hb
        exact parseInv_other data n0 k st hinv hC hI hE

theorem countType_mono (data : Nat → Nat) (T a b : Nat) (h : a ≤ b) :
    countType data T a ≤ countType data T b := by
  induction b with
  | zero =>
    have : a = 0 := by omega
    subst this
    exact le_refl _
  | succ b ih =>
    rcases Nat.lt_succ_iff_lt_or_eq.mp (Nat.lt_succ_of_le h) with h1 | h1
    · have := ih (by omega)
      simp only [countType]
      omega
    · subst h1
      exact le_refl _

theorem countType_lt (data : Nat → Nat) (T t k : Nat) (h : t < k) (hT : descType data t = T) :
    countType data T t < countType data T k := by
  have h1 := countType_mono data T (t + 1) k (by omega)
  rw [countType_succ_eq data T t hT] at h1
  omega

theorem sumTo_mono (f : Nat → Nat) (a b : Nat) (h : a ≤ b) : sumTo f a ≤ sumTo f b := by
  induction b with
  | zero =>
    have : a = 0 := by omega
    subst this
    exact le_refl _
  | succ b ih =>
    rcases Nat.lt_succ_iff_lt_or_eq.mp (Nat.lt_succ_of_le h) with h1 | h1
    · have := ih (by omega)
      simp only [sumTo]
      omega
    · subst h1
      exact le_refl _

theorem wireInv_config (sz : Sizes) (data : Nat → Nat) (n0 k : Nat) (st st1 : ParseState)
    (hinv : ParseInv data n0 k st) (hw : WireInv sz data k st)
    (hC : descType data k = USB_DESC_CONFIG) (c1 : usb_config)
    (hc1d : c1.desc = memory_copy data (walkPos data k) sz.config_desc)
    (h_cfgs : st1.dev.mem.cfgs = Function.update st.dev.mem.cfgs st.config_index c1)
    (h_ifs : st1.dev.mem.ifs = st.dev.mem.ifs) (h_eps : st1.dev.mem.eps = st.dev.mem.eps) :
    WireInv sz data (k + 1) st1 := by
  obtain ⟨w1, w2, w3, w4, w5⟩ := hw
  have i1 := hinv.cfg_idx
  have hI : descType data k ≠ USB_DESC_IFACE := by
    rw [hC]; decide
  have hE : descType data k ≠ USB_DESC_EP := by
    rw [hC]; decide
  have hOld : ∀ j, j < countType data USB_DESC_CONFIG k →
      st1.dev.mem.cfgs j = st.dev.mem.cfgs j := by
    intro j hj
    rw [h_cfgs, i1, Function.update_noteq (by omega)]
  have hOldN : ∀ j, j < countType data USB_DESC_CONFIG k →
      numIfaces st1.dev.mem j = numIfaces st.dev.mem j := by
    intro j hj
    unfold numIfaces
    rw [hOld j hj]
  have hSum := sumTo_eq_of_agree _ _ _ hOldN
  have hEps : numEps st1.dev.mem = numEps st.dev.mem := by
    funext j
    unfold numEps
    rw [h_ifs]
  have hlt : ∀ t, t < k + 1 → descType data t ≠ USB_DESC_CONFIG → t < k := by
    intro t ht hne
    rcases Nat.lt_succ_iff_lt_or_eq.mp ht with h1 | h1
    · exact h1
    · exact absurd (h1 ▸ hC) hne
  refine ⟨?_, ?_, ?_, ?_, ?_⟩
  · intro t ht hT
    have htk := hlt t ht (by rw [hT]; decide)
    have hm := countType_mono data USB_DESC_CONFIG t k (by omega)
    rw [hSum _ (by omega), hSum _ hm]
    exact w1 t htk hT
  · intro t ht hT
    have htk := hlt t ht (by rw [hT]; decide)
    rw [hEps]
    exact w2 t htk hT
  · intro t ht hT
    rcases Nat.lt_succ_iff_lt_or_eq.mp ht with h1 | h1
    · rw [hOld _ (countType_lt data _ t k h1 hT)]
      exact w3 t h1 hT
    · subst h1
      rw [h_cfgs, i1, Function.update_same]
      exact hc1d
  · intro t ht hT
    have htk := hlt t ht (by rw [hT]; decide)
    rw [h_ifs]
    exact w4 t htk hT
  · intro t ht hT
    have htk := hlt t ht (by rw [hT]; decide)
    rw [h_eps]
    exact w5 t htk hT

theorem wireInv_iface (sz : Sizes) (data : Nat → Nat) (n0 k : Nat) (st st1 : ParseState)
    (hk : k + 1 < U32) (hinv : ParseInv data n0 k st) (hw : WireInv sz data k st)
    (hI : descType data k = USB_DESC_IFACE) (lc : Nat) (hlc : st.last_cfg = some lc)
    (i1r : usb_iface) (hi1d : i1r.desc = memory_copy data (walkPos data k) sz.iface_desc)
    (c2 : usb_config)
    (hc2n : c2.num_ifaces = ((st.dev.mem.cfgs lc).num_ifaces + 1) % U32)
    (hc2d : c2.desc = (st.dev.mem.cfgs lc).desc)
    (h_cfgs : st1.dev.mem.cfgs = Function.update st.dev.mem.cfgs lc c2)
    (h_ifs : st1.dev.mem.ifs = Function.update st.dev.mem.ifs st.iface_index i1r)
    (h_eps : st1.dev.mem.eps = st.dev.mem.eps) :
    WireInv sz data (k + 1) st1 := by
  have hcC := countType_le data USB_DESC_CONFIG k
  have hcI := countType_le data USB_DESC_IFACE k
  obtain ⟨w1, w2, w3, w4, w5⟩ := hw
  obtain ⟨i1, i2, i3, i4, i5, i6, i7, i8, i9, i10⟩ := hinv
  have hcpos : countType data USB_DESC_CONFIG k ≠ 0 := by
    intro h0
    rw [i5, if_pos h0] at hlc
    cases hlc
  have hsplit : countType data USB_DESC_CONFIG k = lc + 1 := by
    rw [i5, if_neg hcpos] at hlc
    injection hlc with hlc
    omega
  have hold : numIfaces st.dev.mem lc ≤ countType data USB_DESC_IFACE k := by
    rw [← i7]
    exact le_sumTo (numIfaces st.dev.mem) _ lc (by omega)
  have hi7 := i7
  rw [hsplit] at hi7
  simp only [sumTo] at hi7
  have hNewC : numIfaces st1.dev.mem lc = numIfaces st.dev.mem lc + 1 := by
    have : numIfaces st1.dev.mem lc = c2.num_ifaces := by
      unfold numIfaces
      rw [h_cfgs, Function.update_same]
    rw [this, hc2n]
    exact Nat.mod_eq_of_lt (by unfold numIfaces at hold; omega)
  have hOldC : ∀ j, j < lc → st1.dev.mem.cfgs j = st.dev.mem.cfgs j := by
    intro j hj
    rw [h_cfgs, Function.update_noteq (by omega)]
  have hOldCN : ∀ j, j < lc → numIfaces st1.dev.mem j = numIfaces st.dev.mem j := by
    intro j hj
    unfold numIfaces
    rw [hOldC j hj]
  have hSumC := sumTo_eq_of_agree _ _ _ hOldCN
  have hSumC1 : sumTo (numIfaces st1.dev.mem) (lc + 1)
      = sumTo (numIfaces st.dev.mem) (lc + 1) + 1 := by
    simp only [sumTo]
    rw [hSumC lc (le_refl _), hNewC]
    omega
  have hOldI : ∀ j, j < countType data USB_DESC_IFACE k →
      st1.dev.mem.ifs j = st.dev.mem.ifs j := by
    intro j hj
    rw [h_ifs, i2, Function.update_noteq (by omega)]
  have hOldIN : ∀ j, j < countType data USB_DESC_IFACE k →
      numEps st1.dev.mem j = numEps st.dev.mem j := by
    intro j hj
    unfold numEps
    rw [hOldI j hj]
  have hSumI := sumTo_eq_of_agree _ _ _ hOldIN
  refine ⟨?_, ?_, ?_, ?_, ?_⟩
  · intro t ht hT
    rcases Nat.lt_succ_iff_lt_or_eq.mp ht with h1 | h1
    · have hm := countType_mono data USB_DESC_CONFIG t k (by omega)
      have hw1 := w1 t h1 hT
      rw [hSumC _ (by omega)]
      refine ⟨hw1.1, ?_⟩
      by_cases hle : countType data USB_DESC_CONFIG t ≤ lc
      · rw [hSumC _ hle]
        exact hw1.2
      · have heq : countType data USB_DESC_CONFIG t = lc + 1 := by omega
        rw [heq, hSumC1]
        rw [heq] at hw1
        omega
    · subst h1
      rw [hsplit, hSumC1]
      have : lc + 1 - 1 = lc := by omega
      rw [this, hSumC lc (le_refl _)]
      simp only [sumTo]
      omega
  · intro t ht hT
    have htk : t < k := by
      rcases Nat.lt_succ_iff_lt_or_eq.mp ht with h1 | h1
      · exact h1
      · rw [h1, hI] at hT
        exact absurd hT (by decide)
    have hm := countType_mono data USB_DESC_IFACE t k (by omega)
    rw [hSumI _ (by omega), hSumI _ hm]
    exact w2 t htk hT
  · intro t ht hT
    have htk : t < k := by
      rcases Nat.lt_succ_iff_lt_or_eq.mp ht with h1 | h1
      · exact h1
      · rw [h1, hI] at hT
        exact absurd hT (by decide)
    have hl := countType_lt data _ t k htk hT
    by_cases he : countType data USB_DESC_CONFIG t = lc
    · rw [he, h_cfgs, Function.update_same, hc2d, ← he]
      exact w3 t htk hT
    · rw [hOldC _ (by omega)]
      exact w3 t htk hT
  · intro t ht hT
    rcases Nat.lt_succ_iff_lt_or_eq.mp ht with h1 | h1
    · rw [hOldI _ (countType_lt data _ t k h1 hT)]
      exact w4 t h1 hT
    · subst h1
      rw [h_ifs, i2, Function.update_same]
      exact hi1d
  · intro t ht hT
    have htk : t < k := by
      rcases Nat.lt_succ_iff_lt_or_eq.mp ht with h1 | h1
      · exact h1
      · rw [h1, hI] at hT
        exact absurd hT (by decide)
    rw [h_eps]
    exact w5 t htk hT

theorem wireInv_ep (sz : Sizes) (data : Nat → Nat) (n0 k : Nat) (st st1 : ParseState)
    (hk : k + 1 < U32) (hinv : ParseInv data n0 k st) (hw : WireInv sz data k st)
    (hE : descType data k = USB_DESC_EP) (li : Nat) (hli : st.last_iface = some li)
    (e1r : usb_ep) (he1d : e1r.desc = memory_copy data (walkPos data k) sz.ep)
    (i2r : usb_iface)
    (hi2n : i2r.num_eps = ((st.dev.mem.ifs li).num_eps + 1) % U32)
    (hi2d : i2r.desc = (st.dev.mem.ifs li).desc)
    (h_cfgs : st1.dev.mem.cfgs = st.dev.mem.cfgs)
    (h_ifs : st1.dev.mem.ifs = Function.update st.dev.mem.ifs li i2r)
    (h_eps : st1.dev.mem.eps = Function.update st.dev.mem.eps st.ep_index e1r) :
    WireInv sz data (k + 1) st1 := by
  have hcI := countType_le data USB_DESC_IFACE k
  have hcE := countType_le data USB_DESC_EP k
  obtain ⟨w1, w2, w3, w4, w5⟩ := hw
  obtain ⟨i1, i2, i3, i4, i5, i6, i7, i8, i9, i10⟩ := hinv
  have hipos : countType data USB_DESC_IFACE k ≠ 0 := by
    intro h0
    rw [i6, if_pos h0] at hli
    cases hli
  have hsplit : countType data USB_DESC_IFACE k = li + 1 := by
    rw [i6, if_neg hipos] at hli
    injection hli with hli
    omega
  have hold : numEps st.dev.mem li ≤ countType data USB_DESC_EP k := by
    rw [← i8]
    exact le_sumTo (numEps st.dev.mem) _ li (by omega)
  have hi8 := i8
  rw [hsplit] at hi8
  simp only [sumTo] at hi8
  have hNewI : numEps st1.dev.mem li = numEps st.dev.mem li + 1 := by
    have : numEps st1.dev.mem li = i2r.num_eps := by
      unfold numEps
      rw [h_ifs, Function.update_same]
    rw [this, hi2n]
    exact Nat.mod_eq_of_lt (by unfold numEps at hold; omega)
  have hOldI : ∀ j, j < li → st1.dev.mem.ifs j = st.dev.mem.ifs j := by
    intro j hj
    rw [h_ifs, Function.update_noteq (by omega)]
  have hOldIN : ∀ j, j < li → numEps st1.dev.mem j = numEps st.dev.mem j := by
    intro j hj
    unfold numEps
    rw [hOldI j hj]
  have hSumI := sumTo_eq_of_agree _ _ _ hOldIN
  have hSumI1 : sumTo (numEps st1.dev.mem) (li + 1)
      = sumTo (numEps st.dev.mem) (li + 1) + 1 := by
    simp only [sumTo]
    rw [hSumI li (le_refl _), hNewI]
    omega
  have hCfg : numIfaces st1.dev.mem = numIfaces st.dev.mem := by
    funext j
    unfold numIfaces
    rw [h_cfgs]
  have hOldE : ∀ j, j < countType data USB_DESC_EP k →
      st1.dev.mem.eps j = st.dev.mem.eps j := by
    intro j hj
    rw [h_eps, i3, Function.update_noteq (by omega)]
  have hlt : ∀ t, t < k + 1 → descType data t ≠ USB_DESC_EP → t < k := by
    intro t ht hne
    rcases Nat.lt_succ_iff_lt_or_eq.mp ht with h1 | h1
    · exact h1
    · exact absurd (h1 ▸ hE) hne
  refine ⟨?_, ?_, ?_, ?_, ?_⟩
  · intro t ht hT
    have htk := hlt t ht (by rw [hT]; decide)
    rw [hCfg]
    exact w1 t htk hT
  · intro t ht hT
    rcases Nat.lt_succ_iff_lt_or_eq.mp ht with h1 | h1
    · have hm := countType_mono data USB_DESC_IFACE t k (by omega)
      have hw2 := w2 t h1 hT
      rw [hSumI _ (by omega)]
      refine ⟨hw2.1, ?_⟩
      by_cases hle : countType data USB_DESC_IFACE t ≤ li
      · rw [hSumI _ hle]
        exact hw2.2
      · have heq : countType data USB_DESC_IFACE t = li + 1 := by omega
        rw [heq, hSumI1]
        rw [heq] at hw2
        omega
    · subst h1
      rw [hsplit, hSumI1]
      have : li + 1 - 1 = li := by omega
      rw [this, hSumI li (le_refl _)]
      simp only [sumTo]
      omega
  · intro t ht hT
    have htk := hlt t ht (by rw [hT]; decide)
    rw [h_cfgs]
    exact w3 t htk hT
  · intro t ht hT
    have htk := hlt t ht (by rw [hT]; decide)
    have hl := countType_lt data _ t k htk hT
    by_cases he : countType data USB_DESC_IFACE t = li
    · rw [he, h_ifs, Function.update_same, hi2d, ← he]
      exact w4 t htk hT
    · rw [hOldI _ (by omega)]
      exact w4 t htk hT
  · intro t ht hT
    rcases Nat.lt_succ_iff_lt_or_eq.mp ht with h1 | h1
    · rw [hOldE _ (countType_lt data _ t k h1 hT)]
      exact w5 t h1 hT
    · subst h1
      rw [h_eps, i3, Function.update_same]
      exact he1d

theorem wireInv_other (sz : Sizes) (data : Nat → Nat) (k : Nat) (st : ParseState)
    (hw : WireInv sz data k st)
    (hC : descType data k ≠ USB_DESC_CONFIG) (hI : descType data k ≠ USB_DESC_IFACE)
    (hE : descType data k ≠ USB_DESC_EP) :
    WireInv sz data (k + 1) st := by
  obtain ⟨w1, w2, w3, w4, w5⟩ := hw
  have hlt : ∀ t T, t < k + 1 → descType data t = T → descType data k ≠ T → t < k := by
    intro t T ht hT hne
    rcases Nat.lt_succ_iff_lt_or_eq.mp ht with h1 | h1
    · exact h1
    · exact absurd (h1 ▸ hT) hne
  exact ⟨fun t ht hT => w1 t (hlt t _ ht hT hI) hT, fun t ht hT => w2 t (hlt t _ ht hT hE) hT,
    fun t ht hT => w3 t (hlt t _ ht hT hC) hT, fun t ht hT => w4 t (hlt t _ ht hT hI) hT,
    fun t ht hT => w5 t (hlt t _ ht hT hE) hT⟩

theorem wireInv_step (sz : Sizes) (data : Nat → Nat) (n0 k : Nat) (st st1 : ParseState)
    (hk : k + 1 < U32) (hinv : ParseInv data n0 k st) (hw : WireInv sz data k st)
    (hb : parseBody sz data (walkPos data k) st = .ok st1) :
    WireInv sz data (k + 1) st1 := by
  by_cases hC : byteAt data (walkPos data k + 1) = USB_DESC_CONFIG
  · rw [parseBody_config sz data _ st hC] at hb
    injection hb with hb
    subst hb
    exact wireInv_config sz data n0 k st _ hinv hw hC _ rfl rfl rfl rfl
  · by_cases hI : byteAt data (walkPos data k + 1) = USB_DESC_IFACE
    · cases hlc : st.last_cfg with
      | none =>
        obtain ⟨d, hd⟩ := parseBody_iface_none sz data _ st hI hlc
        rw [hd] at hb
        cases hb
      | some lc =>
        rw [parseBody_iface_some sz data _ st hI lc hlc] at hb
        injection hb with hb
        subst hb
        refine wireInv_iface sz data n0 k st _ hk hinv hw hI lc hlc _ rfl _ rfl ?_ rfl rfl rfl
        by_cases hz : (st.dev.mem.cfgs lc).num_ifaces = 0
        · simp [hz]
        · simp [hz]
    · by_cases hE : byteAt data (walkPos data k + 1) = USB_DESC_EP
      · cases hli : st.last_iface with
        | none =>
          obtain ⟨d, hd⟩ := parseBody_ep_none sz data _ st hE hli
          rw [hd] at hb
          cases hb
        | some li =>
          rw [parseBody_ep_some sz data _ st hE li hli] at hb
          injection hb with hb
          subst hb
          refine wireInv_ep sz data n0 k st _ hk hinv hw hE li hli _ rfl _ rfl ?_ rfl rfl rfl
          by_cases hz : (st.dev.mem.ifs li).num_eps = 0
          · simp [hz]
          · simp [hz]
      · rw [parseBody_other sz data _ st hC hI hE] at hb
        injection hb with hb
        subst hb
        exact wireInv_other sz data k st hw hC hI hE

theorem parseLoop_spec (sz : Sizes) (data : Nat → Nat) (size n n0 : Nat)
    (h : WalkFinishes data size n) :
    ∀ m k fuel st, k + m = n → m < fuel → ParseInv data n0 k st → WireInv sz data k st →
      ∃ r dev, parseLoop sz data size fuel (walkPos data k) st = some (r, dev) ∧
        (r = 1 ∨ r = 0) ∧
        (r = 1 → ∃ stn : ParseState, stn.dev = dev ∧ ParseInv data n0 n stn ∧
          WireInv sz data n stn) := by
  have hn := walk_steps_lt data size n h
  intro m
  induction m with
  | zero =>
    intro k fuel st hk hf hinv hw
    have hkn : k = n := by omega
    subst hkn
    obtain ⟨f, rfl⟩ : ∃ f, fuel = f + 1 := ⟨fuel - 1, by omega⟩
    have hge : ¬ walkPos data k < size := by
      have := h.2
      omega
    refine ⟨1, st.dev, ?_, Or.inl rfl, fun _ => ⟨st, rfl, hinv, hw⟩⟩
    unfold parseLoop
    rw [if_neg hge]
  | succ m ih =>
    intro k fuel st hk hf hinv hw
    obtain ⟨f, rfl⟩ : ∃ f, fuel = f + 1 := ⟨fuel - 1, by omega⟩
    have hkn : k < n := by omega
    have hlt : walkPos data k < size := h.1 k hkn
    unfold parseLoop
    rw [if_pos hlt]
    cases hb : parseBody sz data (walkPos data k) st with
    | error d =>
      exact ⟨0, d, rfl, Or.inr rfl, fun h0 => absurd h0 (by decide)⟩
    | ok st1 =>
      have hinv1 := parseInv_step sz data n0 k st st1 (by omega) hinv hb
      have hw1 := wireInv_step sz data n0 k st st1 (by omega) hinv hw hb
      exact ih (k + 1) f st1 (by omega) (by omega) hinv1 hw1

theorem verifyLoop_success_walk (sz : Sizes) (data : Nat → Nat) (size : Nat) :
    ∀ fuel k c i e c1 i1 e1,
      verifyLoop sz data size fuel (walkPos data k) c i e = some (1, c1, i1, e1) →
      ∃ m, m < fuel ∧ (∀ j, k ≤ j → j < k + m → walkPos data j < size) ∧
        walkPos data (k + m) = size := by
  intro fuel
  induction fuel with
  | zero =>
    intro k c i e c1 i1 e1 hv
    simp [verifyLoop] at hv
  | succ f ih =>
    intro k c i e c1 i1 e1 hv
    have hnext : (walkPos data k + byteAt data (walkPos data k)) % U32 = walkPos data (k + 1) := rfl
    have hcont : ∀ c2 i2 e2,
        verifyLoop sz data size f (walkPos data (k + 1)) c2 i2 e2 = some (1, c1, i1, e1) →
        walkPos data k < size →
        ∃ m, m < f + 1 ∧ (∀ j, k ≤ j → j < k + m → walkPos data j < size) ∧
          walkPos data (k + m) = size := by
      intro c2 i2 e2 hv2 hlt
      obtain ⟨m, hm, hall, hend⟩ := ih (k + 1) c2 i2 e2 c1 i1 e1 hv2
      refine ⟨m + 1, by omega, ?_, ?_⟩
      · intro j hj1 hj2
        rcases Nat.eq_or_lt_of_le hj1 with he | hl
        · rw [← he]; exact hlt
        · exact hall j (by omega) (by omega)
      · rw [← hend]
        congr 1
        omega
    unfold verifyLoop at hv
    by_cases hlt : walkPos data k < size
    · rw [if_pos hlt] at hv
      dsimp only at hv
      rw [hnext] at hv
      by_cases hC : byteAt data (walkPos data k + 1) = USB_DESC_CONFIG
      · rw [if_pos hC] at hv
        by_cases hl : byteAt data (walkPos data k) ≠ sz.config_desc
        · rw [if_pos hl] at hv
          simp at hv
        · rw [if_neg hl] at hv
          exact hcont _ _ _ hv hlt
      · rw [if_neg hC] at hv
        by_cases hI : byteAt data (walkPos data k + 1) = USB_DESC_IFACE
        · rw [if_pos hI] at hv
          by_cases hl : byteAt data (walkPos data k) ≠ sz.iface_desc
          · rw [if_pos hl] at hv
            simp at hv
          · rw [if_neg hl] at hv
            exact hcont _ _ _ hv hlt
        · rw [if_neg hI] at hv
          by_cases hE : byteAt data (walkPos data k + 1) = USB_DESC_EP
          · rw [if_pos hE] at hv
            by_cases hl : byteAt data (walkPos data k) ≠ sz.ep_desc
            · rw [if_pos hl] at hv
              simp at hv
            · rw [if_neg hl] at hv
              exact hcont _ _ _ hv hlt
          · rw [if_neg hE] at hv
            exact hcont _ _ _ hv hlt
    · rw [if_neg hlt] at hv
      by_cases heq : walkPos data k = size
      · exact ⟨0, by omega, fun j h1 h2 => absurd h2 (by omega), heq⟩
      · rw [if_neg heq] at hv
        simp at hv

/-- A successful verify pass: the walk finishes, within the fuel, exactly at `size`. -/
theorem verify_success_walk (sz : Sizes) (data : Nat → Nat) (size fuel c i e : Nat)
    (hv : usbc_verify_descriptors sz fuel data size = some (1, c, i, e)) :
    ∃ n, n < fuel ∧ WalkFinishes data size n ∧ walkPos data n = size := by
  obtain ⟨m, hm, hall, hend⟩ := verifyLoop_success_walk sz data size fuel 0 0 0 0 c i e hv
  refine ⟨m, hm, ⟨fun k hk => hall k (by omega) (by omega), ?_⟩, ?_⟩
  · have : walkPos data (0 + m) = walkPos data m := by rw [Nat.zero_add]
    omega
  · rw [← hend, Nat.zero_add]

theorem initIfaces_num_configs (dev : usb_dev) (n : Nat) :
    (initIfaces dev n).num_configs = dev.num_configs := by
  induction n with
  | zero => rfl
  | succ n ih => simpa [initIfaces] using ih

theorem usbc_init_descriptors_num_configs (dev : usb_dev) (c i e : Nat) :
    (usbc_init_descriptors dev c i e).num_configs = dev.num_configs := by
  simp [usbc_init_descriptors, initIfaces_num_configs]

theorem usbc_alloc_descriptors_num_configs (sz : Sizes)
    (bmalloc : Nat → Option (Nat × DescBuffer)) (dev : usb_dev) (c i e : Nat) :
    (usbc_alloc_descriptors sz bmalloc dev c i e).2.num_configs = dev.num_configs := by
  unfold usbc_alloc_descriptors
  dsimp only
  split <;> rfl

theorem parseInv_init (sz : Sizes) (data : Nat → Nat) (dev : usb_dev)
    (n0 : Nat) (h0 : dev.num_configs = n0) :
    ParseInv data n0 0
        { dev := dev, config_index := 0, iface_index := 0, ep_index := 0,
          last_cfg := none, last_iface := none } ∧
      WireInv sz data 0
        { dev := dev, config_index := 0, iface_index := 0, ep_index := 0,
          last_cfg := none, last_iface := none } := by
  subst h0
  refine ⟨⟨rfl, rfl, rfl, ?_, rfl, rfl, rfl, rfl, ?_, ?_⟩, ⟨?_, ?_, ?_, ?_, ?_⟩⟩
  · show dev.num_configs % U32 = (dev.num_configs + 0) % U32
    rw [Nat.add_zero]
  all_goals
    intro j hj
    exact absurd hj (Nat.not_lt_zero j)

theorem verifyLoop_status (sz : Sizes) (data : Nat → Nat) (size : Nat) :
    ∀ fuel pos c i e r c1 i1 e1,
      verifyLoop sz data size fuel pos c i e = some (r, c1, i1, e1) → r = 1 ∨ r = 0 := by
  intro fuel
  induction fuel with
  | zero =>
    intro pos c i e r c1 i1 e1 hv
    simp [verifyLoop] at hv
  | succ f ih =>
    intro pos c i e r c1 i1 e1 hv
    unfold verifyLoop at hv
    dsimp only at hv
    split at hv
    · split at hv
      · split at hv
        · simp at hv; exact Or.inr hv.1.symm
        · exact ih _ _ _ _ _ _ _ _ hv
      · split at hv
        · split at hv
          · simp at hv; exact Or.inr hv.1.symm
          · exact ih _ _ _ _ _ _ _ _ hv
        · split at hv
          · split at hv
            · simp at hv; exact Or.inr hv.1.symm
            · exact ih _ _ _ _ _ _ _ _ hv
          · exact ih _ _ _ _ _ _ _ _ hv
    · split at hv
      · simp at hv; exact Or.inl hv.1.symm
      · simp at hv; exact Or.inr hv.1.symm

/-- What a successful `usbc_parse_descriptors` leaves behind: the walk finished exactly
at `size`, the verify pass counted the descriptors of the walk, and the final state of
the second walk satisfies both invariants. -/
theorem usbc_parse_descriptors_success (sz : Sizes) (bmalloc : Nat → Option (Nat × DescBuffer))
    (fuel : Nat) (dev : usb_dev) (data : Nat → Nat) (size : Nat) (dev1 : usb_dev)
    (log : List Nat)
    (h : usbc_parse_descriptors sz bmalloc fuel dev data size = some (1, dev1, log)) :
    ∃ n, n < fuel ∧ WalkFinishes data size n ∧ walkPos data n = size ∧
      usbc_verify_descriptors sz fuel data size
        = some (1, countType data USB_DESC_CONFIG n, countType data USB_DESC_IFACE n,
            countType data USB_DESC_EP n) ∧
      ∃ stn : ParseState, stn.dev = dev1 ∧ ParseInv data dev.num_configs n stn ∧
        WireInv sz data n stn := by
  unfold usbc_parse_descriptors at h
  cases hv : usbc_verify_descriptors sz fuel data size with
  | none =>
    rw [hv] at h
    simp at h
  | some res =>
    obtain ⟨r, c, i, e⟩ := res
    rw [hv] at h
    dsimp only at h
    have hr := verifyLoop_status sz data size fuel 0 0 0 0 r c i e hv
    rcases hr with hr | hr
    · subst hr
      obtain ⟨n, hnf, hwalk, hend⟩ := verify_success_walk sz data size fuel c i e hv
      obtain ⟨r1, c1, i1, e1, hv1, _, _, hcount⟩ :=
        verifyLoop_spec sz data size n hwalk n 0 fuel (by omega) hnf
          (fun j hj => absurd hj (Nat.not_lt_zero j))
      have hv0 : verifyLoop sz data size fuel (walkPos data 0)
          (countType data USB_DESC_CONFIG 0) (countType data USB_DESC_IFACE 0)
          (countType data USB_DESC_EP 0) = some (1, c, i, e) := hv
      rw [hv0] at hv1
      injection hv1 with hv1
      injection hv1 with hr1 hv1
      injection hv1 with hc1 hv1
      injection hv1 with hi1 he1
      obtain ⟨hc, hi, he⟩ := hcount hr1.symm
      have hcn : c = countType data USB_DESC_CONFIG n := by rw [hc1, hc]
      have hin : i = countType data USB_DESC_IFACE n := by rw [hi1, hi]
      have hen : e = countType data USB_DESC_EP n := by rw [he1, he]
      refine ⟨n, hnf, hwalk, hend, by rw [hcn, hin, hen], ?_⟩
      rw [if_neg (by decide)] at h
      split at h
      · simp at h
      · rename_i halloc
        have hinit := parseInv_init sz data
          (usbc_init_descriptors (usbc_alloc_descriptors sz bmalloc dev c i e).2 c i e)
          dev.num_configs
          (by rw [usbc_init_descriptors_num_configs, usbc_alloc_descriptors_num_configs])
        obtain ⟨r2, dev3, hloop, _, hpost⟩ :=
          parseLoop_spec sz data size n dev.num_configs hwalk n 0 fuel _ (by omega) hnf
            hinit.1 hinit.2
        have hw0 : walkPos data 0 = 0 := rfl
        rw [hw0] at hloop
        rw [hloop] at h
        simp only [Option.some.injEq, Prod.mk.injEq] at h
        obtain ⟨h1, h2, _⟩ := h
        subst h2
        exact hpost h1
    · subst hr
      rw [if_pos rfl] at h
      simp at h

/-- C1: on every buffer on which the bLength-stride walk finishes (after `n` strides),
`usbc_verify_descriptors` returns, and it returns success exactly when every
CONFIGURATION, INTERFACE or ENDPOINT descriptor met in the walk has the `bLength` of its
wire record and the walk ends exactly at `size`; on success the counters are the numbers
of CONFIGURATION, INTERFACE and ENDPOINT descriptors met, other types not being counted. -/
theorem usbc_verify_descriptors_correct (sz : Sizes) (data : Nat → Nat) (size n fuel : Nat)
    (h : WalkFinishes data size n) (hf : n < fuel) :
    ∃ r c i e, usbc_verify_descriptors sz fuel data size = some (r, c, i, e) ∧
      (r = 1 ∨ r = 0) ∧
      (r = 1 ↔ ((∀ j, j < n → LengthOk sz data j) ∧ walkPos data n = size)) ∧
      (r = 1 → c = countType data USB_DESC_CONFIG n ∧ i = countType data USB_DESC_IFACE n ∧
        e = countType data USB_DESC_EP n) := by
  have key := verifyLoop_spec sz data size n h n 0 fuel (by omega) hf
    (fun j hj => absurd hj (Nat.not_lt_zero j))
  simpa [usbc_verify_descriptors, walkPos, countType] using key

theorem sampleTree_walk : WalkFinishes (bufOf sampleTree) 25 3 := by
  refine ⟨?_, ?_⟩
  · decide
  · decide

/-- Witness of C1 on the 25-byte sample tree: the walk finishes after three strides. -/
theorem usbc_verify_descriptors_correct_witness :
    WalkFinishes (bufOf sampleTree) 25 3 ∧ 3 < 4 ∧
    ∃ r c i e, usbc_verify_descriptors stdSizes 4 (bufOf sampleTree) 25 = some (r, c, i, e) ∧
      (r = 1 ∨ r = 0) ∧
      (r = 1 ↔ ((∀ j, j < 3 → LengthOk stdSizes (bufOf sampleTree) j) ∧
        walkPos (bufOf sampleTree) 3 = 25)) ∧
      (r = 1 → c = countType (bufOf sampleTree) USB_DESC_CONFIG 3 ∧
        i = countType (bufOf sampleTree) USB_DESC_IFACE 3 ∧
        e = countType (bufOf sampleTree) USB_DESC_EP 3) :=
  ⟨sampleTree_walk, by decide,
    usbc_verify_descriptors_correct stdSizes (bufOf sampleTree) 25 3 4 sampleTree_walk (by decide)⟩

theorem sampleTree_verify :
    usbc_verify_descriptors stdSizes 4 (bufOf sampleTree) 25 = some (1, 1, 1, 1) := by
  decide

/-- On a success the counters of the device add up to the verify-pass counts, and
`num_configs` has grown by the number of configurations. -/
theorem usbc_parse_descriptors_counts (sz : Sizes) (bmalloc : Nat → Option (Nat × DescBuffer))
    (fuel : Nat) (dev : usb_dev) (data : Nat → Nat) (size : Nat) (dev1 : usb_dev)
    (log : List Nat)
    (h : usbc_parse_descriptors sz bmalloc fuel dev data size = some (1, dev1, log)) :
    ∃ C I E, usbc_verify_descriptors sz fuel data size = some (1, C, I, E) ∧
      dev1.num_configs % U32 = (dev.num_configs + C) % U32 ∧
      sumTo (numIfaces dev1.mem) C = I ∧ sumTo (numEps dev1.mem) I = E := by
  obtain ⟨n, _, _, _, hv, stn, hdev, hinv, _⟩ :=
    usbc_parse_descriptors_success sz bmalloc fuel dev data size dev1 log h
  subst hdev
  exact ⟨_, _, _, hv, hinv.ncfg, hinv.sum_if, hinv.sum_ep⟩

/-- C2 (defect of the code): `usbc_add_device` does not write `dev->num_configs` and
`usbc_parse_descriptors` only increments it.  On a device record made by
`usbc_add_device` in memory whose `num_configs` place holds 5, a tree with one
configuration (verify count C = 1) is parsed successfully and leaves `num_configs = 6`. -/
theorem usbc_parse_descriptors_stale_num_configs :
    (usbc_add_device 10 freshCore (rawDev 5)).2.num_configs = 5 ∧
    usbc_verify_descriptors stdSizes 4 (bufOf sampleTree) 25 = some (1, 1, 1, 1) ∧
    (usbc_parse_descriptors stdSizes junkAlloc 4 (usbc_add_device 10 freshCore (rawDev 5)).2
        (bufOf sampleTree) 25).map
      (fun r => (r.1, r.2.1.num_configs)) = some (1, 6) :=
  ⟨by rfl, by decide, by rfl⟩

/-- C3 as stated fails: for a buffer holding one interface descriptor and no
configuration the verify pass succeeds, the allocator is called (40 bytes), the
interface list and `dev->configs` are changed, and then the function returns failure. -/
theorem usbc_parse_descriptors_fails_after_alloc :
    (usbc_parse_descriptors stdSizes junkAlloc 2 (freshDev 0)
        (bufOf [9, 4, 0, 0, 0, 0, 0, 0, 0]) 9).map
      (fun r => (r.1, r.2.2, r.2.1.configs, r.2.1.iface_list)) = some (0, [40], some 4096, [0]) ∧
    (freshDev 0).configs = some 77 ∧ (freshDev 0).iface_list = [] :=
  ⟨by rfl, rfl, rfl⟩

/-- C3, amended: on every buffer on which the walk finishes `usbc_parse_descriptors`
returns, with success only if the walk consumed exactly `size` bytes; the allocator has
not been called exactly when the verify pass rejects the buffer, and then the result is
failure and the device record is unchanged; in particular a buffer whose summed
`bLength` values overshoot `size` by one is rejected with no allocation. -/
theorem usbc_parse_descriptors_outcome (sz : Sizes) (bmalloc : Nat → Option (Nat × DescBuffer))
    (dev : usb_dev) (data : Nat → Nat) (size n fuel : Nat)
    (h : WalkFinishes data size n) (hf : n < fuel) :
    ∃ r dev1 log, usbc_parse_descriptors sz bmalloc fuel dev data size = some (r, dev1, log) ∧
      (r = 1 ∨ r = 0) ∧
      (r = 1 → walkPos data n = size) ∧
      (log = [] ↔ ¬ Verified sz data size n) ∧
      (log = [] → r = 0 ∧ dev1 = dev) ∧
      (walkPos data n = size + 1 → r = 0 ∧ log = [] ∧ dev1 = dev) := by
  obtain ⟨r0, c, i, e, hv, hr0, hiff, _⟩ :=
    verifyLoop_spec sz data size n h n 0 fuel (by omega) hf
      (fun j hj => absurd hj (Nat.not_lt_zero j))
  have hv0 : usbc_verify_descriptors sz fuel data size = some (r0, c, i, e) := hv
  unfold usbc_parse_descriptors
  rw [hv0]
  dsimp only
  rcases hr0 with hr | hr
  · subst hr
    have hver : Verified sz data size n := hiff.mp rfl
    rw [if_neg (by decide)]
    by_cases ha : (usbc_alloc_descriptors sz bmalloc dev c i e).1 = 0
    · rw [if_pos ha]
      refine ⟨0, _, _, rfl, Or.inr rfl, fun h0 => absurd h0 (by decide), ?_, ?_, ?_⟩
      · exact ⟨fun h0 => absurd h0 (by simp), fun h0 => absurd hver h0⟩
      · intro h0; exact absurd h0 (by simp)
      · intro h0; have := hver.2; omega
    · rw [if_neg ha]
      have hinit := parseInv_init sz data
        (usbc_init_descriptors (usbc_alloc_descriptors sz bmalloc dev c i e).2 c i e)
        dev.num_configs
        (by rw [usbc_init_descriptors_num_configs, usbc_alloc_descriptors_num_configs])
      obtain ⟨r2, dev3, hloop, hr2, _⟩ :=
        parseLoop_spec sz data size n dev.num_configs h n 0 fuel _ (by omega) hf
          hinit.1 hinit.2
      have hw0 : walkPos data 0 = 0 := rfl
      rw [hw0] at hloop
      rw [hloop]
      refine ⟨r2, dev3, _, rfl, hr2, fun _ => hver.2, ?_, ?_, ?_⟩
      · exact ⟨fun h0 => absurd h0 (by simp), fun h0 => absurd hver h0⟩
      · intro h0; exact absurd h0 (by simp)
      · intro h0; have := hver.2; omega
  · subst hr
    have hnver : ¬ Verified sz data size n := fun hver => absurd (hiff.mpr hver) (by decide)
    rw [if_pos rfl]
    exact ⟨0, dev, [], rfl, Or.inr rfl, fun h0 => absurd h0 (by decide),
      ⟨fun _ => hnver, fun _ => rfl⟩, fun _ => ⟨rfl, rfl⟩, fun _ => ⟨rfl, rfl, rfl⟩⟩

/-- Witness of the amended C3 on the 25-byte sample tree. -/
theorem usbc_parse_descriptors_outcome_witness :
    WalkFinishes (bufOf sampleTree) 25 3 ∧ 3 < 4 ∧
    ∃ r dev1 log,
      usbc_parse_descriptors stdSizes junkAlloc 4 (freshDev 0) (bufOf sampleTree) 25
        = some (r, dev1, log) ∧
      (r = 1 ∨ r = 0) ∧
      (r = 1 → walkPos (bufOf sampleTree) 3 = 25) ∧
      (log = [] ↔ ¬ Verified stdSizes (bufOf sampleTree) 25 3) ∧
      (log = [] → r = 0 ∧ dev1 = freshDev 0) ∧
      (walkPos (bufOf sampleTree) 3 = 25 + 1 → r = 0 ∧ log = [] ∧ dev1 = freshDev 0) :=
  ⟨sampleTree_walk, by decide,
    usbc_parse_descriptors_outcome stdSizes junkAlloc (freshDev 0) (bufOf sampleTree) 25 3 4
      sampleTree_walk (by decide)⟩

/-- The 25-byte sample tree offered with `size = 24`: the walk ends at 25, one past the
size, and the buffer is rejected with no allocation. -/
theorem sampleTree_overshoot :
    walkPos (bufOf sampleTree) 3 = 24 + 1 ∧
    (usbc_parse_descriptors stdSizes junkAlloc 4 (freshDev 0) (bufOf sampleTree) 24).map
      (fun r => (r.1, r.2.2, r.2.1.configs, r.2.1.iface_list)) = some (0, [], some 77, []) :=
  ⟨by decide, by rfl⟩

theorem usbc_check_dev_match_iff (m : DevIdMasks) (id : usb_dev_id) (dev : usb_dev) :
    (usbc_check_dev_match m id dev = 1 ∨ usbc_check_dev_match m id dev = 0) ∧
    (usbc_check_dev_match m id dev ≠ 0 ↔
      (id.flags &&& m.USB_DEV_ID_VENDOR_MASK ≠ 0 → id.vendor_id = idVendor dev.desc) ∧
      (id.flags &&& m.USB_DEV_ID_PRODUCT_MASK ≠ 0 → id.product_id = idProduct dev.desc) ∧
      (id.flags &&& m.USB_DEV_ID_DEV_CLASS_MASK ≠ 0 → id.dev_class = bDeviceClass dev.desc) ∧
      (id.flags &&& m.USB_DEV_ID_DEV_SUBCLASS_MASK ≠ 0 →
        id.dev_sub_class = bDeviceSubClass dev.desc) ∧
      (id.flags &&& m.USB_DEV_ID_DEV_PROTOCOL_MASK ≠ 0 →
        id.dev_protocol = bDeviceProtocol dev.desc)) := by
  unfold usbc_check_dev_match
  dsimp only
  by_cases h1 : id.flags &&& m.USB_DEV_ID_VENDOR_MASK ≠ 0 ∧ id.vendor_id ≠ idVendor dev.desc
  · rw [if_pos h1]
    exact ⟨Or.inr rfl, fun h => absurd rfl h, fun h => absurd (h.1 h1.1) h1.2⟩
  rw [if_neg h1]
  by_cases h2 : id.flags &&& m.USB_DEV_ID_PRODUCT_MASK ≠ 0 ∧ id.product_id ≠ idProduct dev.desc
  · rw [if_pos h2]
    exact ⟨Or.inr rfl, fun h => absurd rfl h, fun h => absurd (h.2.1 h2.1) h2.2⟩
  rw [if_neg h2]
  by_cases h3 : id.flags &&& m.USB_DEV_ID_DEV_CLASS_MASK ≠ 0 ∧
      id.dev_class ≠ bDeviceClass dev.desc
  · rw [if_pos h3]
    exact ⟨Or.inr rfl, fun h => absurd rfl h, fun h => absurd (h.2.2.1 h3.1) h3.2⟩
  rw [if_neg h3]
  by_cases h4 : id.flags &&& m.USB_DEV_ID_DEV_SUBCLASS_MASK ≠ 0 ∧
      id.dev_sub_class ≠ bDeviceSubClass dev.desc
  · rw [if_pos h4]
    exact ⟨Or.inr rfl, fun h => absurd rfl h, fun h => absurd (h.2.2.2.1 h4.1) h4.2⟩
  rw [if_neg h4]
  by_cases h5 : id.flags &&& m.USB_DEV_ID_DEV_PROTOCOL_MASK ≠ 0 ∧
      id.dev_protocol ≠ bDeviceProtocol dev.desc
  · rw [if_pos h5]
    exact ⟨Or.inr rfl, fun h => absurd rfl h, fun h => absurd (h.2.2.2.2 h5.1) h5.2⟩
  rw [if_neg h5]
  refine ⟨Or.inl rfl, fun _ => ⟨?_, ?_, ?_, ?_, ?_⟩, fun _ => by decide⟩
  · intro hf; by_contra hne; exact h1 ⟨hf, hne⟩
  · intro hf; by_contra hne; exact h2 ⟨hf, hne⟩
  · intro hf; by_contra hne; exact h3 ⟨hf, hne⟩
  · intro hf; by_contra hne; exact h4 ⟨hf, hne⟩
  · intro hf; by_contra hne; exact h5 ⟨hf, hne⟩

theorem usbc_check_iface_match_iff (m : DevIdMasks) (id : usb_dev_id) (iface : usb_iface) :
    (usbc_check_iface_match m id iface = 1 ∨ usbc_check_iface_match m id iface = 0) ∧
    (usbc_check_iface_match m id iface ≠ 0 ↔
      (id.flags &&& m.USB_DEV_ID_IFACE_CLASS_MASK ≠ 0 →
        id.iface_class = bInterfaceClass iface.desc) ∧
      (id.flags &&& m.USB_DEV_ID_IFACE_SUBCLASS_MASK ≠ 0 →
        id.iface_sub_class = bInterfaceSubClass iface.desc) ∧
      (id.flags &&& m.USB_DEV_ID_IFACE_PROTOCOL_MASK ≠ 0 →
        id.iface_protocol = bInterfaceProtocol iface.desc)) := by
  unfold usbc_check_iface_match
  dsimp only
  by_cases h1 : id.flags &&& m.USB_DEV_ID_IFACE_CLASS_MASK ≠ 0 ∧
      id.iface_class ≠ bInterfaceClass iface.desc
  · rw [if_pos h1]
    exact ⟨Or.inr rfl, fun h => absurd rfl h, fun h => absurd (h.1 h1.1) h1.2⟩
  rw [if_neg h1]
  by_cases h2 : id.flags &&& m.USB_DEV_ID_IFACE_SUBCLASS_MASK ≠ 0 ∧
      id.iface_sub_class ≠ bInterfaceSubClass iface.desc
  · rw [if_pos h2]
    exact ⟨Or.inr rfl, fun h => absurd rfl h, fun h => absurd (h.2.1 h2.1) h2.2⟩
  rw [if_neg h2]
  by_cases h3 : id.flags &&& m.USB_DEV_ID_IFACE_PROTOCOL_MASK ≠ 0 ∧
      id.iface_protocol ≠ bInterfaceProtocol iface.desc
  · rw [if_pos h3]
    exact ⟨Or.inr rfl, fun h => absurd rfl h, fun h => absurd (h.2.2 h3.1) h3.2⟩
  rw [if_neg h3]
  refine ⟨Or.inl rfl, fun _ => ⟨?_, ?_, ?_⟩, fun _ => by decide⟩
  · intro hf; by_contra hne; exact h1 ⟨hf, hne⟩
  · intro hf; by_contra hne; exact h2 ⟨hf, hne⟩
  · intro hf; by_contra hne; exact h3 ⟨hf, hne⟩

theorem entryMatches_iff (m : DevIdMasks) (id : usb_dev_id) (iface : usb_iface)
    (parent : usb_dev) :
    EntryMatches m id iface parent ↔
      (usbc_check_dev_match m id parent ≠ 0 ∧ usbc_check_iface_match m id iface ≠ 0) := by
  rw [(usbc_check_dev_match_iff m id parent).2, (usbc_check_iface_match_iff m id iface).2]
  unfold EntryMatches
  constructor
  · rintro ⟨a1, a2, a3, a4, a5, a6, a7, a8⟩
    exact ⟨⟨a1, a2, a3, a4, a5⟩, ⟨a6, a7, a8⟩⟩
  · rintro ⟨⟨a1, a2, a3, a4, a5⟩, ⟨a6, a7, a8⟩⟩
    exact ⟨a1, a2, a3, a4, a5, a6, a7, a8⟩

theorem driverMatchLoop_iff (m : DevIdMasks) (driver : usb_driver) (iface : usb_iface)
    (parent : usb_dev) :
    ∀ left i,
      (driverMatchLoop m driver iface parent left i = 1 ∨
        driverMatchLoop m driver iface parent left i = 0) ∧
      (driverMatchLoop m driver iface parent left i = 1 ↔
        ∃ j, i ≤ j ∧ j < i + left ∧ EntryMatches m (driver.dev_ids j) iface parent) := by
  intro left
  induction left with
  | zero =>
    intro i
    refine ⟨Or.inr rfl, fun h => absurd h (by simp [driverMatchLoop]), ?_⟩
    rintro ⟨j, h1, h2, _⟩
    omega
  | succ left ih =>
    intro i
    obtain ⟨ihv, ihiff⟩ := ih (i + 1)
    have hstep : (∃ j, i + 1 ≤ j ∧ j < i + 1 + left ∧
          EntryMatches m (driver.dev_ids j) iface parent) →
        ∃ j, i ≤ j ∧ j < i + (left + 1) ∧ EntryMatches m (driver.dev_ids j) iface parent := by
      rintro ⟨j, h1, h2, h3⟩
      exact ⟨j, by omega, by omega, h3⟩
    have hback : ¬ EntryMatches m (driver.dev_ids i) iface parent →
        (∃ j, i ≤ j ∧ j < i + (left + 1) ∧ EntryMatches m (driver.dev_ids j) iface parent) →
        ∃ j, i + 1 ≤ j ∧ j < i + 1 + left ∧
          EntryMatches m (driver.dev_ids j) iface parent := by
      rintro hno ⟨j, h1, h2, h3⟩
      rcases Nat.eq_or_lt_of_le h1 with he | hl
      · exact absurd (he ▸ h3) hno
      · exact ⟨j, by omega, by omega, h3⟩
    have hem := entryMatches_iff m (driver.dev_ids i) iface parent
    unfold driverMatchLoop
    by_cases hd : usbc_check_dev_match m (driver.dev_ids i) parent ≠ 0
    · rw [if_pos hd]
      by_cases hi : usbc_check_iface_match m (driver.dev_ids i) iface ≠ 0
      · rw [if_pos hi]
        exact ⟨Or.inl rfl, fun _ => ⟨i, le_refl _, by omega, hem.mpr ⟨hd, hi⟩⟩, fun _ => rfl⟩
      · rw [if_neg hi]
        have hno : ¬ EntryMatches m (driver.dev_ids i) iface parent :=
          fun h => hi (hem.mp h).2
        exact ⟨ihv, fun h => hstep (ihiff.mp h), fun h => ihiff.mpr (hback hno h)⟩
    · rw [if_neg hd]
      have hno : ¬ EntryMatches m (driver.dev_ids i) iface parent :=
        fun h => hd (hem.mp h).1
      exact ⟨ihv, fun h => hstep (ihiff.mp h), fun h => ihiff.mpr (hback hno h)⟩

theorem findDriverLoop_find (m : DevIdMasks) (iface : usb_iface) (parent : usb_dev) :
    ∀ l : List usb_driver,
      findDriverLoop m iface parent l =
        match l.find? (fun d => decide (usbc_check_driver_match m d iface parent ≠ 0)) with
        | none => (none, [])
        | some d => if d.connect iface = true then (some d, [d.self]) else (none, [d.self]) := by
  intro l
  induction l with
  | nil => rfl
  | cons d rest ih =>
    unfold findDriverLoop
    dsimp only
    by_cases hm : usbc_check_driver_match m d iface parent ≠ 0
    · rw [if_pos hm, List.find?_cons_of_pos _ (by simpa using hm)]
      cases hc : d.connect iface <;> simp [hc]
    · rw [if_neg hm, List.find?_cons_of_neg _ (by simpa using hm)]
      exact ih

/-- C6 as stated fails: the driver list holds a matching driver (address 502) whose
`connect` returns false, followed by a matching driver (address 501) whose `connect`
returns true; `usbc_find_driver` calls the first `connect` only and returns `NULL`. -/
theorem usbc_find_driver_stops_at_refusal :
    usbc_check_driver_match stdMasks (hidDriver 501 true) (sampleDev.mem.ifs 0) sampleDev = 1 ∧
    (hidDriver 501 true).connect (sampleDev.mem.ifs 0) = true ∧
    ((usbc_find_driver stdMasks (sampleDev.mem.ifs 0) sampleDev
        { freshCore with driver_list := [hidDriver 502 false, hidDriver 501 true] }).1.map
      (fun d => d.self)) = none ∧
    (usbc_find_driver stdMasks (sampleDev.mem.ifs 0) sampleDev
        { freshCore with driver_list := [hidDriver 502 false, hidDriver 501 true] }).2 = [502] :=
  ⟨by rfl, by rfl, by rfl, by rfl⟩

/-- C6, amended: for every driver list and interface, `usbc_find_driver` calls the
`connect` of the first driver in list order that matches, and of no other driver; it
returns that driver when its `connect` returns true, and `NULL` when its `connect`
returns false, when no driver matches, or when the interface is already assigned. -/
theorem usbc_find_driver_first_match (m : DevIdMasks) (iface : usb_iface) (parent : usb_dev)
    (usbc : usb_core) :
    usbc_find_driver m iface parent usbc =
      if iface.assigned = 1 then (none, [])
      else
        match usbc.driver_list.find?
            (fun d => decide (usbc_check_driver_match m d iface parent ≠ 0)) with
        | none => (none, [])
        | some d => if d.connect iface = true then (some d, [d.self]) else (none, [d.self]) := by
  unfold usbc_find_driver
  by_cases ha : iface.assigned = 1
  · rw [if_pos ha, if_pos ha]
  · rw [if_neg ha, if_neg ha]
    exact findDriverLoop_find m iface parent usbc.driver_list

/-- C7 (defect of the code): on the sample device the driver at address 501 matches
interface 0 and its `connect` returns true, `usbc_assign_driver` finds it, yet the
interface record still has `assigned = 0` (and `driver = NULL`) afterwards. -/
theorem usbc_assign_driver_leaves_unassigned :
    ((usbc_assign_driver stdMasks (fun _ => sampleDev) sampleDev
        (usbc_add_driver (hidDriver 501 true) freshCore)).2.map
      (fun r => (r.1, r.2.1.map (fun d => d.self), r.2.2))) = [(0, some 501, [501])] ∧
    (hidDriver 501 true).connect (sampleDev.mem.ifs 0) = true ∧
    ((usbc_assign_driver stdMasks (fun _ => sampleDev) sampleDev
        (usbc_add_driver (hidDriver 501 true) freshCore)).1.mem.ifs 0).assigned = 0 ∧
    ((usbc_assign_driver stdMasks (fun _ => sampleDev) sampleDev
        (usbc_add_driver (hidDriver 501 true) freshCore)).1.mem.ifs 0).driver = none :=
  ⟨by rfl, by rfl, by rfl, by rfl⟩

/-- C8: `usbc_check_driver_match` returns 1 exactly when one of the `num_dev_ids`
device-id entries of the driver has, for each of its set flags, the field equal to the
field of the parent device descriptor or of the interface descriptor; otherwise it
returns 0. -/
theorem usbc_check_driver_match_iff (m : DevIdMasks) (driver : usb_driver)
    (iface : usb_iface) (parent : usb_dev) :
    (usbc_check_driver_match m driver iface parent = 1 ∨
      usbc_check_driver_match m driver iface parent = 0) ∧
    (usbc_check_driver_match m driver iface parent = 1 ↔
      ∃ i, i < driver.num_dev_ids ∧ EntryMatches m (driver.dev_ids i) iface parent) := by
  obtain ⟨hv, hiff⟩ := driverMatchLoop_iff m driver iface parent driver.num_dev_ids 0
  refine ⟨hv, ?_⟩
  unfold usbc_check_driver_match
  rw [hiff]
  constructor
  · rintro ⟨j, _, h2, h3⟩
    exact ⟨j, by omega, h3⟩
  · rintro ⟨j, h2, h3⟩
    exact ⟨j, Nat.zero_le j, by omega, h3⟩

theorem bit_clear_iff (bm i : Nat) (hi : i < 16) :
    (bm % 2 ^ 16) &&& (1 <<< i) = 0 ↔ bm.testBit i = false := by
  rw [Nat.one_shiftLeft, Nat.and_two_pow, Nat.testBit_mod_two_pow]
  have hp : 0 < 2 ^ i := Nat.two_pow_pos i
  constructor
  · intro h
    rcases Nat.mul_eq_zero.mp h with h1 | h1
    · simpa [hi] using h1
    · omega
  · intro h
    simp [h]

theorem newAddressLoop_spec (MAX_PIPES : Nat) (usbc : usb_core) (hMP : MAX_PIPES ≤ 16) :
    ∀ d i fuel, i + d = MAX_PIPES → d < fuel → 1 ≤ i →
      (∀ j, 1 ≤ j → j < i → usbc.dev_addr_bm.testBit j = true) →
      (∃ a, newAddressLoop MAX_PIPES usbc (usbc.dev_addr_bm % 2 ^ 16) fuel i
            = some (a, { usbc with dev_addr_bm := usbc.dev_addr_bm ||| (1 <<< a) }) ∧
          1 ≤ a ∧ a < MAX_PIPES ∧ usbc.dev_addr_bm.testBit a = false ∧
          ∀ j, 1 ≤ j → j < a → usbc.dev_addr_bm.testBit j = true) ∨
      (newAddressLoop MAX_PIPES usbc (usbc.dev_addr_bm % 2 ^ 16) fuel i = some (0, usbc) ∧
        ∀ j, 1 ≤ j → j < MAX_PIPES → usbc.dev_addr_bm.testBit j = true) := by
  intro d
  induction d with
  | zero =>
    intro i fuel hid hf hi hset
    obtain ⟨f, rfl⟩ : ∃ f, fuel = f + 1 := ⟨fuel - 1, by omega⟩
    right
    have hge : ¬ i < MAX_PIPES := by omega
    refine ⟨?_, fun j h1 h2 => hset j h1 (by omega)⟩
    unfold newAddressLoop
    rw [if_neg hge]
  | succ d ih =>
    intro i fuel hid hf hi hset
    obtain ⟨f, rfl⟩ : ∃ f, fuel = f + 1 := ⟨fuel - 1, by omega⟩
    have hlt : i < MAX_PIPES := by omega
    unfold newAddressLoop
    rw [if_pos hlt]
    by_cases hb : (usbc.dev_addr_bm % 2 ^ 16) &&& (1 <<< i) = 0
    · rw [if_pos hb]
      left
      exact ⟨i, rfl, hi, hlt, (bit_clear_iff _ i (by omega)).mp hb, hset⟩
    · rw [if_neg hb]
      have hbit : usbc.dev_addr_bm.testBit i = true := by
        cases hc : usbc.dev_addr_bm.testBit i
        · exact absurd ((bit_clear_iff _ i (by omega)).mpr hc) hb
        · rfl
      have hmod : (i + 1) % 256 = i + 1 := Nat.mod_eq_of_lt (by omega)
      rw [hmod]
      apply ih (i + 1) f (by omega) (by omega) (by omega)
      intro j h1 h2
      rcases Nat.lt_succ_iff_lt_or_eq.mp h2 with h3 | h3
      · exact hset j h1 h3
      · rw [h3]; exact hbit

theorem testBit_or_bit (bm a j : Nat) :
    (bm ||| (1 <<< a)).testBit j = (bm.testBit j || decide (j = a)) := by
  rw [Nat.testBit_or, Nat.one_shiftLeft, Nat.testBit_two_pow]
  congr 1
  by_cases h : a = j
  · simp [h]
  · have h2 : ¬ j = a := fun h3 => h h3.symm
    simp [h, h2]

/-- C9: when some bit in `[1, MAX_PIPES - 1]` of the bitmap is clear (`MAX_PIPES <= 16`),
`usbc_new_address` returns the lowest such bit index `a`; that bit was clear before the
call, and the bitmap after the call is the bitmap before with bit `a` set and every
other bit unchanged. -/
theorem usbc_new_address_lowest_free (MAX_PIPES fuel : Nat) (usbc : usb_core)
    (hMP : MAX_PIPES ≤ 16) (hfuel : MAX_PIPES ≤ fuel)
    (hfree : ∃ i, 1 ≤ i ∧ i < MAX_PIPES ∧ usbc.dev_addr_bm.testBit i = false) :
    ∃ a c1, usbc_new_address MAX_PIPES fuel usbc = some (a, c1) ∧
      c1 = { usbc with dev_addr_bm := usbc.dev_addr_bm ||| (1 <<< a) } ∧
      1 ≤ a ∧ a < MAX_PIPES ∧ usbc.dev_addr_bm.testBit a = false ∧
      (∀ j, 1 ≤ j → j < a → usbc.dev_addr_bm.testBit j = true) ∧
      (∀ j, c1.dev_addr_bm.testBit j = (usbc.dev_addr_bm.testBit j || decide (j = a))) := by
  obtain ⟨i0, h1, h2, h3⟩ := hfree
  have key := newAddressLoop_spec MAX_PIPES usbc hMP (MAX_PIPES - 1) 1 fuel (by omega)
    (by omega) (le_refl 1) (fun j h4 h5 => by omega)
  rcases key with ⟨a, ha, ha1, ha2, ha3, ha4⟩ | ⟨_, hall⟩
  · exact ⟨a, _, ha, rfl, ha1, ha2, ha3, ha4, fun j => testBit_or_bit _ a j⟩
  · have := hall i0 h1 h2
    rw [h3] at this
    exact absurd this (by decide)

/-- Witness of C9: ten pipes, addresses 1 and 2 in use; address 3 is handed out. -/
theorem usbc_new_address_lowest_free_witness :
    10 ≤ 16 ∧ 10 ≤ 10 ∧
    (∃ i, 1 ≤ i ∧ i < 10 ∧ ({ freshCore with dev_addr_bm := 7 } : usb_core).dev_addr_bm.testBit i
      = false) ∧
    ∃ a c1, usbc_new_address 10 10 { freshCore with dev_addr_bm := 7 } = some (a, c1) ∧
      c1 = { ({ freshCore with dev_addr_bm := 7 } : usb_core) with
        dev_addr_bm := ({ freshCore with dev_addr_bm := 7 } : usb_core).dev_addr_bm
          ||| (1 <<< a) } ∧
      1 ≤ a ∧ a < 10 ∧
      ({ freshCore with dev_addr_bm := 7 } : usb_core).dev_addr_bm.testBit a = false ∧
      (∀ j, 1 ≤ j → j < a →
        ({ freshCore with dev_addr_bm := 7 } : usb_core).dev_addr_bm.testBit j = true) ∧
      (∀ j, c1.dev_addr_bm.testBit j =
        (({ freshCore with dev_addr_bm := 7 } : usb_core).dev_addr_bm.testBit j
          || decide (j = a))) :=
  ⟨by decide, by decide, ⟨3, by decide, by decide, by decide⟩,
    usbc_new_address_lowest_free 10 10 { freshCore with dev_addr_bm := 7 } (by decide)
      (by decide) ⟨3, by decide, by decide, by decide⟩⟩

theorem addrReachable_bit0 (MAX_PIPES : Nat) (c : usb_core)
    (hr : AddrReachable MAX_PIPES c) : c.dev_addr_bm.testBit 0 = true := by
  induction hr with
  | init usbc =>
    show Nat.testBit 1 0 = true
    decide
  | call c c1 fuel a _ hcall ih =>
    obtain ⟨f, rfl⟩ : ∃ f, fuel = f + 1 := by
      cases fuel with
      | zero => simp [usbc_new_address, newAddressLoop] at hcall
      | succ f => exact ⟨f, rfl⟩
    have hgen : ∀ fl i, newAddressLoop MAX_PIPES c (c.dev_addr_bm % 2 ^ 16) fl i = some (a, c1) →
        c1.dev_addr_bm.testBit 0 = true := by
      intro fl
      induction fl with
      | zero =>
        intro i h
        simp [newAddressLoop] at h
      | succ fl ihf =>
        intro i h
        unfold newAddressLoop at h
        split at h
        · split at h
          · simp only [Option.some.injEq, Prod.mk.injEq] at h
            rw [← h.2]
            show (c.dev_addr_bm ||| 1 <<< i).testBit 0 = true
            rw [Nat.testBit_or, ih]
            rfl
          · exact ihf _ h
        · simp only [Option.some.injEq, Prod.mk.injEq] at h
          rw [← h.2]
          exact ih
    exact hgen _ _ hcall

theorem addrReachable_full : AddrReachable 10 { freshCore with dev_addr_bm := 1023 } := by
  apply AddrReachable.call { freshCore with dev_addr_bm := 511 } _ 10 9 _ (by rfl)
  apply AddrReachable.call { freshCore with dev_addr_bm := 255 } _ 10 8 _ (by rfl)
  apply AddrReachable.call { freshCore with dev_addr_bm := 127 } _ 10 7 _ (by rfl)
  apply AddrReachable.call { freshCore with dev_addr_bm := 63 } _ 10 6 _ (by rfl)
  apply AddrReachable.call { freshCore with dev_addr_bm := 31 } _ 10 5 _ (by rfl)
  apply AddrReachable.call { freshCore with dev_addr_bm := 15 } _ 10 4 _ (by rfl)
  apply AddrReachable.call { freshCore with dev_addr_bm := 7 } _ 10 3 _ (by rfl)
  apply AddrReachable.call { freshCore with dev_addr_bm := 3 } _ 10 2 _ (by rfl)
  apply AddrReachable.call freshCore _ 10 1 _ (by rfl)
  exact AddrReachable.init _

/-- C10 as stated fails: with ten pipes, after nine calls of `usbc_new_address` from
`usbc_init` the addresses 1 to 9 are in use, and the next call returns 0, which is not
in `[1, MAX_PIPES - 1]`. -/
theorem usbc_new_address_exhausted :
    AddrReachable 10 { freshCore with dev_addr_bm := 1023 } ∧
    (usbc_new_address 10 10 { freshCore with dev_addr_bm := 1023 }).map (fun r => r.1)
      = some 0 ∧
    ¬ (1 ≤ 0) :=
  ⟨addrReachable_full, by rfl, by decide⟩

/-- C10, amended: for `MAX_PIPES <= 16` and every core reachable from `usbc_init` by
calls to `usbc_new_address`, a call returns an address `a` with `1 <= a < MAX_PIPES`, or
it returns 0 when every bit in `[1, MAX_PIPES - 1]` is already set, and then the bitmap
is unchanged; in both cases bit `a` of the bitmap is set after the call. -/
theorem usbc_new_address_in_range (MAX_PIPES fuel : Nat) (c : usb_core)
    (hMP : MAX_PIPES ≤ 16) (hfuel : MAX_PIPES < fuel) (hr : AddrReachable MAX_PIPES c) :
    ∃ a c1, usbc_new_address MAX_PIPES fuel c = some (a, c1) ∧
      ((1 ≤ a ∧ a < MAX_PIPES) ∨
        (a = 0 ∧ c1 = c ∧ ∀ j, 1 ≤ j → j < MAX_PIPES → c.dev_addr_bm.testBit j = true)) ∧
      c1.dev_addr_bm.testBit a = true := by
  have hb0 := addrReachable_bit0 MAX_PIPES c hr
  rcases Nat.eq_zero_or_pos MAX_PIPES with h0 | hpos
  · subst h0
    obtain ⟨f, rfl⟩ : ∃ f, fuel = f + 1 := ⟨fuel - 1, by omega⟩
    refine ⟨0, c, ?_, Or.inr ⟨rfl, rfl, fun j h1 h2 => absurd h2 (Nat.not_lt_zero j)⟩, hb0⟩
    unfold usbc_new_address
    dsimp only
    unfold newAddressLoop
    rw [if_neg (by decide)]
  · have key := newAddressLoop_spec MAX_PIPES c hMP (MAX_PIPES - 1) 1 fuel (by omega)
      (by omega) (le_refl 1) (fun j h4 h5 => by omega)
    rcases key with ⟨a, ha, ha1, ha2, _, _⟩ | ⟨hret, hall⟩
    · refine ⟨a, _, ha, Or.inl ⟨ha1, ha2⟩, ?_⟩
      show (c.dev_addr_bm ||| 1 <<< a).testBit a = true
      rw [testBit_or_bit]
      simp
    · exact ⟨0, c, hret, Or.inr ⟨rfl, rfl, hall⟩, hb0⟩

/-- Witness of the amended C10: the core with all nine addresses in use is reachable,
and the next call returns. -/
theorem usbc_new_address_in_range_witness :
    10 ≤ 16 ∧ 10 < 11 ∧ AddrReachable 10 { freshCore with dev_addr_bm := 1023 } ∧
    ∃ a c1, usbc_new_address 10 11 { freshCore with dev_addr_bm := 1023 } = some (a, c1) ∧
      ((1 ≤ a ∧ a < 10) ∨
        (a = 0 ∧ c1 = { freshCore with dev_addr_bm := 1023 } ∧
          ∀ j, 1 ≤ j → j < 10 →
            ({ freshCore with dev_addr_bm := 1023 } : usb_core).dev_addr_bm.testBit j = true)) ∧
      c1.dev_addr_bm.testBit a = true :=
  ⟨by decide, by decide, addrReachable_full,
    usbc_new_address_in_range 10 11 { freshCore with dev_addr_bm := 1023 } (by decide)
      (by decide) addrReachable_full⟩

/-! ### String conversion, system calls and the enumeration handler -/

theorem uniLoop_bounds (uni : Nat → Nat) (uni_size ss : Nat) (hss : ss < U32) :
    ∀ fuel up ap r, ap ≤ ss → ss - ap < fuel →
      (∀ i, i ∈ r.reads → i < uni_size) → (∀ i, i ∈ r.writes → i < ss + 1) →
      ∃ a r1, uniLoop uni uni_size ss fuel up ap r = some (a, r1) ∧ a ≤ ss ∧
        (∀ i, i ∈ r1.reads → i < uni_size) ∧ (∀ i, i ∈ r1.writes → i < ss + 1) := by
  intro fuel
  induction fuel with
  | zero =>
    intro up ap r _ hf
    omega
  | succ f ih =>
    intro up ap r hap hf hr hw
    unfold uniLoop
    by_cases hc : up < uni_size ∧ ap < ss
    · rw [if_pos hc]
      have hmod : (ap + 1) % U32 = ap + 1 := Nat.mod_eq_of_lt (by omega)
      rw [hmod]
      apply ih
      · omega
      · omega
      · intro i hi
        rcases List.mem_append.mp hi with h1 | h1
        · exact hr i h1
        · have : i = up := by simpa using h1
          omega
      · intro i hi
        rcases List.mem_append.mp hi with h1 | h1
        · exact hw i h1
        · have : i = ap := by simpa using h1
          omega
    · rw [if_neg hc]
      exact ⟨ap, r, rfl, hap, hr, hw⟩

theorem uniLoop_content (uni : Nat → Nat) (uni_size ss : Nat) (hcap : ss < 2 ^ 31) :
    ∀ d i fuel r, i + d = uniCount uni_size (ss + 1) → d < fuel →
      ∃ r1, uniLoop uni uni_size ss fuel (2 * i) i r = some (uniCount uni_size (ss + 1), r1) ∧
        ∀ j, r1.string j =
          if i ≤ j ∧ j < uniCount uni_size (ss + 1) then byteAt uni (2 * j) else r.string j := by
  have hn : uniCount uni_size (ss + 1) = min ((uni_size + 1) / 2) ss := rfl
  intro d
  induction d with
  | zero =>
    intro i fuel r hid hf
    obtain ⟨f, rfl⟩ : ∃ f, fuel = f + 1 := ⟨fuel - 1, by omega⟩
    have hstop : ¬ (2 * i < uni_size ∧ i < ss) := by
      rw [hn] at hid
      omega
    unfold uniLoop
    rw [if_neg hstop]
    refine ⟨r, by rw [← hid]; rfl, fun j => ?_⟩
    have : ¬ (i ≤ j ∧ j < uniCount uni_size (ss + 1)) := by omega
    rw [if_neg this]
  | succ d ih =>
    intro i fuel r hid hf
    obtain ⟨f, rfl⟩ : ∃ f, fuel = f + 1 := ⟨fuel - 1, by omega⟩
    have hgo : 2 * i < uni_size ∧ i < ss := by
      rw [hn] at hid
      omega
    unfold uniLoop
    rw [if_pos hgo]
    have h31 : (2 : Nat) ^ 31 = 2147483648 := by norm_num
    have hm1 : (2 * i + 2) % U32 = 2 * (i + 1) := by
      rw [U32_val]
      omega
    have hm2 : (i + 1) % U32 = i + 1 := by
      rw [U32_val]
      omega
    rw [hm1, hm2]
    obtain ⟨r1, hr1, hs1⟩ := ih (i + 1) f
      { string := Function.update r.string i (byteAt uni (2 * i))
        reads := r.reads ++ [2 * i]
        writes := r.writes ++ [i] } (by omega) (by omega)
    refine ⟨r1, hr1, fun j => ?_⟩
    rw [hs1 j]
    by_cases hj : i + 1 ≤ j ∧ j < uniCount uni_size (ss + 1)
    · rw [if_pos hj, if_pos ⟨by omega, hj.2⟩]
    · rw [if_neg hj]
      by_cases hji : j = i
      · subst hji
        rw [if_pos ⟨le_refl _, by omega⟩]
        simp
      · have : ¬ (i ≤ j ∧ j < uniCount uni_size (ss + 1)) := by omega
        rw [if_neg this]
        simp [Function.update_noteq hji]

/-- C16: for a destination of capacity `string_size > 0` (at most `2 ^ 31` bytes)
`usbc_uni_to_string` stores `n = min(ceil(uni_size / 2), string_size - 1)` characters,
`string[i] = uni[2 * i]` for `i < n`, stores a zero at `string[n]` and leaves every byte
past index `n` unchanged; for `string_size = 0` the destination is unchanged. -/
theorem usbc_uni_to_string_spec (fuel : Nat) (uni : Nat → Nat) (uni_size : Nat)
    (string : Nat → Nat) (string_size : Nat)
    (hcap : string_size ≤ 2 ^ 31) (hfuel : string_size ≤ fuel) :
    ∃ r, usbc_uni_to_string fuel uni uni_size string string_size = some r ∧
      (string_size = 0 → r.string = string) ∧
      (0 < string_size →
        (∀ i, i < uniCount uni_size string_size → r.string i = byteAt uni (2 * i)) ∧
        r.string (uniCount uni_size string_size) = 0 ∧
        (∀ i, uniCount uni_size string_size < i → r.string i = string i)) := by
  unfold usbc_uni_to_string
  rcases Nat.eq_zero_or_pos string_size with h0 | hpos
  · subst h0
    rw [if_neg (by decide)]
    exact ⟨_, rfl, fun _ => rfl, fun h => absurd h (by decide)⟩
  · rw [if_pos hpos]
    obtain ⟨ss, rfl⟩ : ∃ ss, string_size = ss + 1 := ⟨string_size - 1, by omega⟩
    have h31 : (2 : Nat) ^ 31 = 2147483648 := by norm_num
    have hle : uniCount uni_size (ss + 1) ≤ ss := by
      unfold uniCount
      omega
    obtain ⟨r1, hr1, hs1⟩ := uniLoop_content uni uni_size ss (by omega)
      (uniCount uni_size (ss + 1)) 0 fuel { string := string, reads := [], writes := [] }
      (by omega) (by omega)
    have hsub : ss + 1 - 1 = ss := by omega
    rw [hsub]
    rw [Nat.mul_zero] at hr1
    rw [hr1]
    refine ⟨_, rfl, fun h => absurd h (by omega), fun _ => ⟨?_, ?_, ?_⟩⟩
    · intro i hi
      show Function.update r1.string (uniCount uni_size (ss + 1)) 0 i = _
      rw [Function.update_noteq (by omega), hs1 i, if_pos ⟨Nat.zero_le i, hi⟩]
    · show Function.update r1.string (uniCount uni_size (ss + 1)) 0 _ = 0
      rw [Function.update_same]
    · intro i hi
      show Function.update r1.string (uniCount uni_size (ss + 1)) 0 i = _
      rw [Function.update_noteq (by omega), hs1 i, if_neg (by omega)]

/-- Witness of C16: a six-byte source into a destination of capacity 3. -/
theorem usbc_uni_to_string_spec_witness :
    3 ≤ 2 ^ 31 ∧ 3 ≤ 3 ∧
    ∃ r, usbc_uni_to_string 3 (bufOf [65, 0, 66, 0, 67, 0]) 6 (fun _ => 120) 3 = some r ∧
      (3 = 0 → r.string = fun _ => 120) ∧
      (0 < 3 →
        (∀ i, i < uniCount 6 3 → r.string i = byteAt (bufOf [65, 0, 66, 0, 67, 0]) (2 * i)) ∧
        r.string (uniCount 6 3) = 0 ∧
        (∀ i, uniCount 6 3 < i → r.string i = (fun _ => 120) i)) :=
  ⟨by norm_num, by decide,
    usbc_uni_to_string_spec 3 (bufOf [65, 0, 66, 0, 67, 0]) 6 (fun _ => 120) 3 (by norm_num)
      (by decide)⟩

/-- C17: `usbc_uni_to_string` reads the source only at indices below `uni_size` and
writes the destination only at indices below `string_size`, for every `uni_size` and
`string_size` (both `u32`). -/
theorem usbc_uni_to_string_in_bounds (fuel : Nat) (uni : Nat → Nat) (uni_size : Nat)
    (string : Nat → Nat) (string_size : Nat)
    (hss : string_size < U32) (hfuel : string_size ≤ fuel) :
    ∃ r, usbc_uni_to_string fuel uni uni_size string string_size = some r ∧
      (∀ i, i ∈ r.reads → i < uni_size) ∧ (∀ i, i ∈ r.writes → i < string_size) := by
  unfold usbc_uni_to_string
  rcases Nat.eq_zero_or_pos string_size with h0 | hpos
  · subst h0
    rw [if_neg (by decide)]
    exact ⟨_, rfl, fun i hi => absurd hi (by simp), fun i hi => absurd hi (by simp)⟩
  · rw [if_pos hpos]
    obtain ⟨ss, rfl⟩ : ∃ ss, string_size = ss + 1 := ⟨string_size - 1, by omega⟩
    have hsub : ss + 1 - 1 = ss := by omega
    rw [hsub]
    obtain ⟨a, r1, hr1, ha, hrd, hwr⟩ := uniLoop_bounds uni uni_size ss (by omega) fuel 0 0
      { string := string, reads := [], writes := [] } (Nat.zero_le _) (by omega)
      (fun i hi => absurd hi (by simp)) (fun i hi => absurd hi (by simp))
    rw [hr1]
    refine ⟨_, rfl, hrd, ?_⟩
    intro i hi
    rcases List.mem_append.mp hi with h1 | h1
    · exact hwr i h1
    · have : i = a := by simpa using h1
      omega

/-- Witness of C17: a six-byte source into a destination of capacity 3. -/
theorem usbc_uni_to_string_in_bounds_witness :
    3 < U32 ∧ 3 ≤ 3 ∧
    ∃ r, usbc_uni_to_string 3 (bufOf [65, 0, 66, 0, 67, 0]) 6 (fun _ => 120) 3 = some r ∧
      (∀ i, i ∈ r.reads → i < 6) ∧ (∀ i, i ∈ r.writes → i < 3) :=
  ⟨by decide, by decide,
    usbc_uni_to_string_in_bounds 3 (bufOf [65, 0, 66, 0, 67, 0]) 6 (fun _ => 120) 3 (by decide)
      (by decide)⟩

/-- The selectors 1 and 2 are dispatched: thread sleep with slot 0, GPIO toggle with
slot 0 as port and the low byte of slot 1 as pin; the frame is not written. -/
theorem svc_handler_ext_dispatch (mem : Nat → Nat) (stack_ptr : Nat → Nat) :
    (svcSelector mem stack_ptr = 1 →
      svc_handler_ext mem stack_ptr
        = ([KernelCall.thread_sleep (stack_ptr 0 % U32)], stack_ptr)) ∧
    (svcSelector mem stack_ptr = 2 →
      svc_handler_ext mem stack_ptr
        = ([KernelCall.gpio_toggle (stack_ptr 0 % U32) (stack_ptr 1 % U32 % 256)],
            stack_ptr)) := by
  unfold svc_handler_ext
  dsimp only
  constructor
  · intro h
    rw [if_pos h]
  · intro h
    rw [if_neg (by rw [h]; decide), if_pos h]

/-- C19 (defect of the code): `svc_handler_ext` has cases for the selectors 1 and 2
only.  For a trap with selector 3 (allocate; size 64 in slot 0, region 1 in slot 1) and
for a trap with selector 4 (free; pointer in slot 0) it calls no kernel function. -/
theorem svc_handler_ext_ignores_alloc_free :
    svcSelector (svcMem 3) (frameOf [64, 1, 0, 0, 0, 0, 4098, 0]) = 3 ∧
    (svc_handler_ext (svcMem 3) (frameOf [64, 1, 0, 0, 0, 0, 4098, 0])).1 = [] ∧
    svcSelector (svcMem 4) (frameOf [536870912, 0, 0, 0, 0, 0, 4098, 0]) = 4 ∧
    (svc_handler_ext (svcMem 4) (frameOf [536870912, 0, 0, 0, 0, 0, 4098, 0])).1 = [] ∧
    (svc_handler_ext (svcMem 1) (frameOf [10, 0, 0, 0, 0, 0, 4098, 0])).1
      = [KernelCall.thread_sleep 10] ∧
    (svc_handler_ext (svcMem 2) (frameOf [1074662400, 263, 0, 0, 0, 0, 4098, 0])).1
      = [KernelCall.gpio_toggle 1074662400 7] :=
  ⟨by decide, by decide, by decide, by decide, by decide, by decide⟩

/-- C20: for every selector byte outside the selector table `svc_handler_ext` calls no
kernel function and leaves the exception frame unchanged. -/
theorem svc_handler_ext_unknown (mem : Nat → Nat) (stack_ptr : Nat → Nat)
    (h1 : svcSelector mem stack_ptr ≠ 1) (h2 : svcSelector mem stack_ptr ≠ 2) :
    svc_handler_ext mem stack_ptr = ([], stack_ptr) := by
  unfold svc_handler_ext
  dsimp only
  rw [if_neg h1, if_neg h2]

/-- Witness of C20: the selector byte 9. -/
theorem svc_handler_ext_unknown_witness :
    svcSelector (svcMem 9) (frameOf [5, 6, 0, 0, 0, 0, 4098, 0]) ≠ 1 ∧
    svcSelector (svcMem 9) (frameOf [5, 6, 0, 0, 0, 0, 4098, 0]) ≠ 2 ∧
    svc_handler_ext (svcMem 9) (frameOf [5, 6, 0, 0, 0, 0, 4098, 0])
      = ([], frameOf [5, 6, 0, 0, 0, 0, 4098, 0]) :=
  ⟨by decide, by decide,
    svc_handler_ext_unknown (svcMem 9) (frameOf [5, 6, 0, 0, 0, 0, 4098, 0]) (by decide)
      (by decide)⟩

theorem submits_append (a b : List HcEvent) : submits (a ++ b) = submits a ++ submits b := by
  induction a with
  | nil => rfl
  | cons e rest ih =>
    cases e <;> simp [submits, ih]

theorem submits_bmalloc (log : List Nat) : submits (log.map HcEvent.bmalloc) = [] := by
  induction log with
  | nil => rfl
  | cons a rest ih => simpa [submits] using ih

theorem submits_connect (calls : List Nat) (slot : Nat) :
    submits (calls.map (fun d => HcEvent.connect d slot)) = [] := by
  induction calls with
  | nil => rfl
  | cons a rest ih => simpa [submits] using ih

theorem submits_connectEvents (l : List (Nat × Option usb_driver × List Nat)) :
    submits (connectEvents l) = [] := by
  induction l with
  | nil => rfl
  | cons a rest ih =>
    obtain ⟨slot, d, calls⟩ := a
    simp [connectEvents, submits_append, submits_connect, ih]

theorem submitControl_trace (w : EnumWorld) :
    (submitControl w).trace = w.trace ++ [HcEvent.fill_control_urb, HcEvent.submit_urb 0 w.setup]
      ∧ (submitControl w).setup = w.setup ∧ (submitControl w).usbc = w.usbc
      ∧ (submitControl w).dev = w.dev :=
  ⟨rfl, rfl, rfl, rfl⟩

theorem assignDriverLoop_dev (m : DevIdMasks) (deref : Option Nat → usb_dev) (usbc : usb_core)
    (dev : usb_dev) (l : List Nat) : (assignDriverLoop m deref usbc dev l).1 = dev := by
  induction l with
  | nil => rfl
  | cons a rest ih => simpa [assignDriverLoop] using ih

/-- C14: for every enumeration state and every URB whose status is not OK the handler
takes the fatal path at once: the outcome is `panic` with the state it was called in, so
`enum_state`, the device record and the address bitmap are unchanged and no URB has been
submitted. -/
theorem usbc_enumerate_handler_urb_fail (P : EnumParams) (fuel : Nat) (u : urb)
    (w : EnumWorld) (hbad : u.status ≠ P.URB_STATUS_OK) :
    usbc_enumerate_handler P fuel u w
      = some (Outcome.panic PanicCode.enumeration_urb_failed w) := by
  unfold usbc_enumerate_handler
  rw [if_pos hbad]

/-- Witness of C14: a URB with status 3 in the state GET_DESCRIPTORS of the sample
enumeration. -/
theorem usbc_enumerate_handler_urb_fail_witness :
    ({ status := 3, acctual_length := 25, transfer_buffer := bufOf sampleTree } : urb).status
      ≠ stdParams.URB_STATUS_OK ∧
    usbc_enumerate_handler stdParams 20
        { status := 3, acctual_length := 25, transfer_buffer := bufOf sampleTree }
        (sampleWorld 4)
      = some (Outcome.panic PanicCode.enumeration_urb_failed (sampleWorld 4)) :=
  ⟨by decide,
    usbc_enumerate_handler_urb_fail stdParams 20
      { status := 3, acctual_length := 25, transfer_buffer := bufOf sampleTree }
      (sampleWorld 4) (by decide)⟩

theorem bMaxPacketSize_lt (buf : Nat → Nat) : bMaxPacketSize buf < 256 :=
  Nat.mod_lt _ (by decide)

theorem wTotalLength_lt (buf : Nat → Nat) : wTotalLength buf < 65536 := by
  have h2 : byteAt buf 2 < 256 := Nat.mod_lt _ (by decide)
  have h3 : byteAt buf 3 < 256 := Nat.mod_lt _ (by decide)
  unfold wTotalLength
  omega

/-- C11: in state GET_EP0_SIZE a completion with OK status ends in `panic` exactly when
the `bMaxPacketSize` read from the transfer buffer is outside `[8, 1024]`, and then
nothing has been changed; otherwise `ep0_size` of the device is that value, the endpoint
size of pipe 0 is set to it, and after that one request is submitted.  A buffer with 7
in the place of `bMaxPacketSize` aborts, and so does one with 1025 there (the one-byte
field then reads 1). -/
theorem usbc_enumerate_handler_ep0_size (P : EnumParams) (fuel : Nat) (u : urb)
    (w : EnumWorld) (hok : u.status = P.URB_STATUS_OK)
    (hst : w.usbc.enum_state = usb_enum_state.USB_ENUM_GET_EP0_SIZE) :
    ((∃ c w1, usbc_enumerate_handler P fuel u w = some (Outcome.panic c w1)) ↔
      (bMaxPacketSize u.transfer_buffer < 8 ∨ 1024 < bMaxPacketSize u.transfer_buffer)) ∧
    ((bMaxPacketSize u.transfer_buffer < 8 ∨ 1024 < bMaxPacketSize u.transfer_buffer) →
      usbc_enumerate_handler P fuel u w
        = some (Outcome.panic PanicCode.abort_enumeration w)) ∧
    (¬ (bMaxPacketSize u.transfer_buffer < 8 ∨ 1024 < bMaxPacketSize u.transfer_buffer) →
      ∃ w1, usbc_enumerate_handler P fuel u w = some (Outcome.done w1) ∧
        w1.dev.ep0_size = bMaxPacketSize u.transfer_buffer ∧
        w1.usbc.enum_state = usb_enum_state.USB_ENUM_GET_DEV_DESC ∧
        w1.trace = w.trace ++
          [HcEvent.set_ep_size 0 (bMaxPacketSize u.transfer_buffer),
           HcEvent.fill_control_urb, HcEvent.submit_urb 0 w1.setup]) ∧
    (u.transfer_buffer 7 = 7 →
      usbc_enumerate_handler P fuel u w
        = some (Outcome.panic PanicCode.abort_enumeration w)) ∧
    (u.transfer_buffer 7 = 1025 →
      usbc_enumerate_handler P fuel u w
        = some (Outcome.panic PanicCode.abort_enumeration w)) := by
  have hbad : (bMaxPacketSize u.transfer_buffer < 8 ∨ 1024 < bMaxPacketSize u.transfer_buffer) →
      usbc_enumerate_handler P fuel u w
        = some (Outcome.panic PanicCode.abort_enumeration w) := by
    intro hout
    unfold usbc_enumerate_handler
    rw [if_neg (not_not.mpr hok), hst]
    simp only [usbc_ep0_size_done]
    rw [if_pos hout]
  have hgood : ¬ (bMaxPacketSize u.transfer_buffer < 8 ∨
        1024 < bMaxPacketSize u.transfer_buffer) →
      ∃ w1, usbc_enumerate_handler P fuel u w = some (Outcome.done w1) ∧
        w1.dev.ep0_size = bMaxPacketSize u.transfer_buffer ∧
        w1.usbc.enum_state = usb_enum_state.USB_ENUM_GET_DEV_DESC ∧
        w1.trace = w.trace ++
          [HcEvent.set_ep_size 0 (bMaxPacketSize u.transfer_buffer),
           HcEvent.fill_control_urb, HcEvent.submit_urb 0 w1.setup] := by
    intro hin
    unfold usbc_enumerate_handler
    rw [if_neg (not_not.mpr hok), hst]
    simp only [usbc_ep0_size_done]
    rw [if_neg hin]
    refine ⟨_, rfl, rfl, rfl, ?_⟩
    simp [usbc_get_dev_desc, submitControl]
  refine ⟨⟨?_, fun hout => ⟨_, _, hbad hout⟩⟩, hbad, hgood, ?_, ?_⟩
  · rintro ⟨c, w1, hp⟩
    by_contra hin
    obtain ⟨w2, hd, _⟩ := hgood hin
    rw [hd] at hp
    cases hp
  · intro h7
    apply hbad
    left
    simp [bMaxPacketSize, byteAt, h7]
  · intro h7
    apply hbad
    left
    simp [bMaxPacketSize, byteAt, h7]

/-- Witness of C11: the first completion of the sample enumeration (`bMaxPacketSize`
64), in the state that `usbc_start_enum` leaves. -/
theorem usbc_enumerate_handler_ep0_size_witness :
    (okUrb 8 sampleDevDesc).status = stdParams.URB_STATUS_OK ∧
    (sampleWorld 0).usbc.enum_state = usb_enum_state.USB_ENUM_GET_EP0_SIZE ∧
    ¬ (bMaxPacketSize (okUrb 8 sampleDevDesc).transfer_buffer < 8 ∨
        1024 < bMaxPacketSize (okUrb 8 sampleDevDesc).transfer_buffer) ∧
    ∃ w1, usbc_enumerate_handler stdParams 20 (okUrb 8 sampleDevDesc) (sampleWorld 0)
        = some (Outcome.done w1) ∧
      w1.dev.ep0_size = bMaxPacketSize (okUrb 8 sampleDevDesc).transfer_buffer ∧
      w1.usbc.enum_state = usb_enum_state.USB_ENUM_GET_DEV_DESC ∧
      w1.trace = (sampleWorld 0).trace ++
        [HcEvent.set_ep_size 0 (bMaxPacketSize (okUrb 8 sampleDevDesc).transfer_buffer),
         HcEvent.fill_control_urb, HcEvent.submit_urb 0 w1.setup] :=
  ⟨by decide, by rfl, by decide,
    (usbc_enumerate_handler_ep0_size stdParams 20 (okUrb 8 sampleDevDesc) (sampleWorld 0)
      (by decide) (by rfl)).2.2.1 (by decide)⟩

/-- C15: in state GET_DESC_LENGTH a completion with OK status ends in `panic` exactly when
the actual length differs from 9, and then nothing has been changed; otherwise
`desc_total_size` of the device is the `wTotalLength` of the received configuration
descriptor, and the request that follows is GET_DESCRIPTOR(CONFIGURATION) on pipe 0 with
`wLength` equal to that `wTotalLength`. -/
theorem usbc_enumerate_handler_desc_length (P : EnumParams) (fuel : Nat) (u : urb)
    (w : EnumWorld) (hok : u.status = P.URB_STATUS_OK)
    (hst : w.usbc.enum_state = usb_enum_state.USB_ENUM_GET_DESC_LENGTH) :
    ((∃ c w1, usbc_enumerate_handler P fuel u w = some (Outcome.panic c w1)) ↔
      u.acctual_length ≠ 9) ∧
    (u.acctual_length ≠ 9 →
      usbc_enumerate_handler P fuel u w = some (Outcome.panic PanicCode.error w)) ∧
    (u.acctual_length = 9 →
      ∃ w1, usbc_enumerate_handler P fuel u w = some (Outcome.done w1) ∧
        w1.dev.desc_total_size = wTotalLength u.transfer_buffer ∧
        w1.usbc.enum_state = usb_enum_state.USB_ENUM_GET_DESCRIPTORS ∧
        w1.trace = w.trace ++ [HcEvent.fill_control_urb, HcEvent.submit_urb 0 w1.setup] ∧
        w1.setup.wLength = wTotalLength u.transfer_buffer ∧
        w1.setup.bRequest = USB_REQ_GET_DESCRIPTOR ∧
        bDescriptorType w1.setup = USB_DESC_CONFIG) := by
  have hbad : u.acctual_length ≠ 9 →
      usbc_enumerate_handler P fuel u w = some (Outcome.panic PanicCode.error w) := by
    intro hne
    unfold usbc_enumerate_handler
    rw [if_neg (not_not.mpr hok), hst]
    simp only [usbc_desc_length_done]
    rw [if_pos hne]
  have hgood : u.acctual_length = 9 →
      ∃ w1, usbc_enumerate_handler P fuel u w = some (Outcome.done w1) ∧
        w1.dev.desc_total_size = wTotalLength u.transfer_buffer ∧
        w1.usbc.enum_state = usb_enum_state.USB_ENUM_GET_DESCRIPTORS ∧
        w1.trace = w.trace ++ [HcEvent.fill_control_urb, HcEvent.submit_urb 0 w1.setup] ∧
        w1.setup.wLength = wTotalLength u.transfer_buffer ∧
        w1.setup.bRequest = USB_REQ_GET_DESCRIPTOR ∧
        bDescriptorType w1.setup = USB_DESC_CONFIG := by
    intro heq
    unfold usbc_enumerate_handler
    rw [if_neg (not_not.mpr hok), hst]
    simp only [usbc_desc_length_done]
    rw [if_neg (not_not.mpr heq)]
    have hlt := wTotalLength_lt u.transfer_buffer
    refine ⟨_, rfl, rfl, rfl, rfl, ?_, rfl, ?_⟩
    · show wTotalLength u.transfer_buffer % 65536 = _
      exact Nat.mod_eq_of_lt hlt
    · simp only [usbc_get_all_desc, submitControl, bDescriptorType, set_bDescriptorType,
        set_bDescriptorIndex, USB_DESC_CONFIG]
      omega
  refine ⟨⟨?_, fun hne => ⟨_, _, hbad hne⟩⟩, hbad, hgood⟩
  rintro ⟨c, w1, hp⟩ heq
  obtain ⟨w2, hd, _⟩ := hgood heq
  rw [hd] at hp
  cases hp

/-- Witness of C15: the fourth completion of the sample enumeration (9 bytes, with
`wTotalLength = 25`). -/
theorem usbc_enumerate_handler_desc_length_witness :
    (okUrb 9 sampleTree).status = stdParams.URB_STATUS_OK ∧
    (sampleWorld 3).usbc.enum_state = usb_enum_state.USB_ENUM_GET_DESC_LENGTH ∧
    (okUrb 9 sampleTree).acctual_length = 9 ∧
    ∃ w1, usbc_enumerate_handler stdParams 20 (okUrb 9 sampleTree) (sampleWorld 3)
        = some (Outcome.done w1) ∧
      w1.dev.desc_total_size = wTotalLength (okUrb 9 sampleTree).transfer_buffer ∧
      w1.usbc.enum_state = usb_enum_state.USB_ENUM_GET_DESCRIPTORS ∧
      w1.trace = (sampleWorld 3).trace ++
        [HcEvent.fill_control_urb, HcEvent.submit_urb 0 w1.setup] ∧
      w1.setup.wLength = wTotalLength (okUrb 9 sampleTree).transfer_buffer ∧
      w1.setup.bRequest = USB_REQ_GET_DESCRIPTOR ∧
      bDescriptorType w1.setup = USB_DESC_CONFIG :=
  ⟨by decide, by rfl, by decide,
    (usbc_enumerate_handler_desc_length stdParams 20 (okUrb 9 sampleTree) (sampleWorld 3)
      (by decide) (by rfl)).2.2 (by decide)⟩

theorem newAddressLoop_frame (MAX_PIPES : Nat) (c : usb_core) (bitmask : Nat) :
    ∀ fuel i a c1, newAddressLoop MAX_PIPES c bitmask fuel i = some (a, c1) →
      c1.enum_state = c.enum_state ∧ c1.driver_list = c.driver_list ∧
      c1.dev_list = c.dev_list ∧ c1.enum_dev = c.enum_dev := by
  intro fuel
  induction fuel with
  | zero =>
    intro i a c1 h
    simp [newAddressLoop] at h
  | succ f ih =>
    intro i a c1 h
    unfold newAddressLoop at h
    split at h
    · split at h
      · simp only [Option.some.injEq, Prod.mk.injEq] at h
        rw [← h.2]
        exact ⟨rfl, rfl, rfl, rfl⟩
      · exact ih _ _ _ h
    · simp only [Option.some.injEq, Prod.mk.injEq] at h
      rw [← h.2]
      exact ⟨rfl, rfl, rfl, rfl⟩

theorem usbc_set_dev_addr_spec (P : EnumParams) (fuel : Nat) (w w1 : EnumWorld)
    (h : usbc_set_dev_addr P fuel w = some w1) :
    w1.usbc.enum_state = w.usbc.enum_state ∧ w1.dev = w.dev ∧
    w1.trace = w.trace ++ [HcEvent.fill_control_urb, HcEvent.submit_urb 0 w1.setup] := by
  unfold usbc_set_dev_addr at h
  cases hn : usbc_new_address P.MAX_PIPES fuel w.usbc with
  | none =>
    rw [hn] at h
    simp at h
  | some r =>
    obtain ⟨a, c1⟩ := r
    rw [hn] at h
    simp only [Option.some.injEq] at h
    have hf := newAddressLoop_frame P.MAX_PIPES w.usbc _ fuel 1 a c1 hn
    rw [← h]
    exact ⟨hf.1, rfl, rfl⟩

/-- One call of the handler with an OK status: the calls it adds to the trace hold at
most one submission, and when it returns from one of the six waiting states the state
is the next one and exactly one URB was submitted, on pipe 0. -/
theorem usbc_enumerate_handler_step (P : EnumParams) (fuel : Nat) (u : urb) (w : EnumWorld)
    (o : Outcome) (hok : u.status = P.URB_STATUS_OK)
    (ho : usbc_enumerate_handler P fuel u w = some o) :
    (∃ ev, o.world.trace = w.trace ++ ev ∧ (submits ev = [] ∨ submits ev = [0])) ∧
    (∀ w1, o = Outcome.done w1 → w.usbc.enum_state ∈ stepStates →
      w1.usbc.enum_state = nextState w.usbc.enum_state ∧
      ∃ ev, w1.trace = w.trace ++ ev ∧ submits ev = [0]) := by
  unfold usbc_enumerate_handler at ho
  rw [if_neg (not_not.mpr hok)] at ho
  cases hs : w.usbc.enum_state with
  | USB_ENUM_IDLE =>
    rw [hs] at ho
    simp only [Option.some.injEq] at ho
    subst ho
    refine ⟨⟨[], by simp [Outcome.world], Or.inl rfl⟩, fun w1 _ hmem => ?_⟩
    simp [stepStates] at hmem
  | USB_ENUM_GET_EP0_SIZE =>
    rw [hs] at ho
    dsimp only at ho
    cases hd : usbc_ep0_size_done u w.dev with
    | error c =>
      rw [hd] at ho
      simp only [Option.some.injEq] at ho
      subst ho
      exact ⟨⟨[], by simp [Outcome.world], Or.inl rfl⟩, fun w1 h1 _ => by cases h1⟩
    | ok dev1 =>
      rw [hd] at ho
      simp only [Option.some.injEq] at ho
      subst ho
      have htr : (usbc_get_dev_desc
          { usbc := { w.usbc with enum_state := usb_enum_state.USB_ENUM_GET_DEV_DESC },
            dev := dev1, setup := w.setup,
            trace := w.trace ++ [HcEvent.set_ep_size 0 dev1.ep0_size] } 1).trace
          = w.trace ++ ([HcEvent.set_ep_size 0 dev1.ep0_size] ++
              [HcEvent.fill_control_urb, HcEvent.submit_urb 0 (usbc_get_dev_desc
          { usbc := { w.usbc with enum_state := usb_enum_state.USB_ENUM_GET_DEV_DESC },
            dev := dev1, setup := w.setup,
            trace := w.trace ++ [HcEvent.set_ep_size 0 dev1.ep0_size] } 1).setup]) := by
        simp [usbc_get_dev_desc, submitControl]
      refine ⟨⟨_, htr, Or.inr rfl⟩, fun w1 h1 _ => ?_⟩
      injection h1 with h1
      subst h1
      exact ⟨rfl, _, htr, rfl⟩
  | USB_ENUM_GET_DEV_DESC =>
    rw [hs] at ho
    dsimp only at ho
    split at ho
    · simp at ho
    · rename_i w3 hset
      simp only [Option.some.injEq] at ho
      subst ho
      obtain ⟨h1, _, h3⟩ := usbc_set_dev_addr_spec P fuel _ w3 hset
      refine ⟨⟨_, h3, Or.inr rfl⟩, fun w1 hw1 _ => ?_⟩
      injection hw1 with hw1
      subst hw1
      exact ⟨h1, _, h3, rfl⟩
  | USB_ENUM_SET_ADDRESS =>
    rw [hs] at ho
    simp only [Option.some.injEq] at ho
    subst ho
    have htr : (usbc_get_cfg_desc
        { usbc := { (usbc_address_done w).usbc with
            enum_state := usb_enum_state.USB_ENUM_GET_DESC_LENGTH },
          dev := (usbc_address_done w).dev, setup := (usbc_address_done w).setup,
          trace := (usbc_address_done w).trace }).trace
        = w.trace ++ ([HcEvent.set_address 0 w.setup.wValue] ++
            [HcEvent.fill_control_urb, HcEvent.submit_urb 0 (usbc_get_cfg_desc
        { usbc := { (usbc_address_done w).usbc with
            enum_state := usb_enum_state.USB_ENUM_GET_DESC_LENGTH },
          dev := (usbc_address_done w).dev, setup := (usbc_address_done w).setup,
          trace := (usbc_address_done w).trace }).setup]) := by
      simp [usbc_get_cfg_desc, submitControl, usbc_address_done]
    refine ⟨⟨_, htr, Or.inr rfl⟩, fun w1 h1 _ => ?_⟩
    injection h1 with h1
    subst h1
    exact ⟨rfl, _, htr, rfl⟩
  | USB_ENUM_GET_DESC_LENGTH =>
    rw [hs] at ho
    dsimp only at ho
    cases hd : usbc_desc_length_done u w.dev with
    | error c =>
      rw [hd] at ho
      simp only [Option.some.injEq] at ho
      subst ho
      exact ⟨⟨[], by simp [Outcome.world], Or.inl rfl⟩, fun w1 h1 _ => by cases h1⟩
    | ok dev1 =>
      rw [hd] at ho
      simp only [Option.some.injEq] at ho
      subst ho
      refine ⟨⟨_, rfl, Or.inr rfl⟩, fun w1 h1 _ => ?_⟩
      injection h1 with h1
      subst h1
      exact ⟨rfl, _, rfl, rfl⟩
  | USB_ENUM_GET_DESCRIPTORS =>
    rw [hs] at ho
    dsimp only at ho
    split at ho
    · simp at ho
    · rename_i fatal dev1 log hparse
      cases fatal with
      | true =>
        simp only [if_true, Option.some.injEq] at ho
        subst ho
        exact ⟨⟨_, rfl, Or.inl (submits_bmalloc log)⟩, fun w1 h1 _ => by cases h1⟩
      | false =>
        simp only [Bool.false_eq_true, if_false, Option.some.injEq] at ho
        subst ho
        have htr : ∀ i, (usb_get_string_desc P
            { usbc := { w.usbc with enum_state := usb_enum_state.USB_ENUM_GET_PRODUCT_NAME },
              dev := dev1, setup := w.setup,
              trace := w.trace ++ log.map HcEvent.bmalloc } i 0).trace
            = w.trace ++ (log.map HcEvent.bmalloc ++
                [HcEvent.fill_control_urb, HcEvent.submit_urb 0 (usb_get_string_desc P
            { usbc := { w.usbc with enum_state := usb_enum_state.USB_ENUM_GET_PRODUCT_NAME },
              dev := dev1, setup := w.setup,
              trace := w.trace ++ log.map HcEvent.bmalloc } i 0).setup]) := by
          intro i
          simp [usb_get_string_desc, submitControl]
        have hsub : ∀ s, submits (log.map HcEvent.bmalloc ++
            [HcEvent.fill_control_urb, HcEvent.submit_urb 0 s]) = [0] := by
          intro s
          rw [submits_append, submits_bmalloc]
          rfl
        refine ⟨⟨_, htr _, Or.inr (hsub _)⟩, fun w1 h1 _ => ?_⟩
        injection h1 with h1
        subst h1
        exact ⟨rfl, _, htr _, hsub _⟩
  | USB_ENUM_GET_PRODUCT_NAME =>
    rw [hs] at ho
    dsimp only at ho
    split at ho
    · simp at ho
    · rename_i dev1 hname
      simp only [Option.some.injEq] at ho
      subst ho
      refine ⟨⟨_, rfl, Or.inr rfl⟩, fun w1 h1 _ => ?_⟩
      injection h1 with h1
      subst h1
      exact ⟨rfl, _, rfl, rfl⟩
  | USB_ENUM_GET_MANUFACTURER_NAME =>
    rw [hs] at ho
    dsimp only at ho
    split at ho
    · simp at ho
    · rename_i dev1 hname
      simp only [Option.some.injEq] at ho
      subst ho
      refine ⟨⟨[HcEvent.pipe_disable 0] ++
          connectEvents (usbc_assign_driver P.masks (fun _ => dev1) dev1 w.usbc).2, ?_,
          Or.inl ?_⟩, fun w1 _ hmem => ?_⟩
      · simp [Outcome.world]
      · rw [submits_append, submits_connectEvents]
        rfl
      · simp [stepStates] at hmem

theorem usbc_parse_descriptors_returns (sz : Sizes) (bmalloc : Nat → Option (Nat × DescBuffer))
    (dev : usb_dev) (data : Nat → Nat) (size n fuel : Nat)
    (h : WalkFinishes data size n) (hf : n < fuel) :
    ∃ r dev1 log, usbc_parse_descriptors sz bmalloc fuel dev data size
      = some (r, dev1, log) := by
  obtain ⟨r0, c, i, e, hv, _, _, _⟩ :=
    verifyLoop_spec sz data size n h n 0 fuel (by omega) hf
      (fun j hj => absurd hj (Nat.not_lt_zero j))
  have hv0 : usbc_verify_descriptors sz fuel data size = some (r0, c, i, e) := hv
  unfold usbc_parse_descriptors
  rw [hv0]
  dsimp only
  by_cases hr : r0 = 0
  · rw [if_pos hr]
    exact ⟨_, _, _, rfl⟩
  · rw [if_neg hr]
    by_cases ha : (usbc_alloc_descriptors sz bmalloc dev c i e).1 = 0
    · rw [if_pos ha]
      exact ⟨_, _, _, rfl⟩
    · rw [if_neg ha]
      have hinit := parseInv_init sz data
        (usbc_init_descriptors (usbc_alloc_descriptors sz bmalloc dev c i e).2 c i e)
        dev.num_configs
        (by rw [usbc_init_descriptors_num_configs, usbc_alloc_descriptors_num_configs])
      obtain ⟨r2, dev3, hloop, _, _⟩ :=
        parseLoop_spec sz data size n dev.num_configs h n 0 fuel _ (by omega) hf
          hinit.1 hinit.2
      have hw0 : walkPos data 0 = 0 := rfl
      rw [hw0] at hloop
      rw [hloop]
      exact ⟨_, _, _, rfl⟩

theorem usbc_uni_to_string_returns (fuel : Nat) (uni : Nat → Nat) (uni_size : Nat)
    (string : Nat → Nat) (string_size : Nat)
    (hss : string_size < U32) (hfuel : string_size ≤ fuel) :
    ∃ r, usbc_uni_to_string fuel uni uni_size string string_size = some r := by
  unfold usbc_uni_to_string
  rcases Nat.eq_zero_or_pos string_size with h0 | hpos
  · subst h0
    rw [if_neg (by decide)]
    exact ⟨_, rfl⟩
  · rw [if_pos hpos]
    obtain ⟨a, r1, hr1, _⟩ := uniLoop_bounds uni uni_size (string_size - 1) (by omega) fuel 0 0
      { string := string, reads := [], writes := [] } (Nat.zero_le _) (by omega)
      (fun i hi => absurd hi (by simp)) (fun i hi => absurd hi (by simp))
    rw [hr1]
    exact ⟨_, rfl⟩

theorem usbc_new_address_returns (MAX_PIPES fuel : Nat) (c : usb_core)
    (hMP : MAX_PIPES ≤ 16) (hfuel : MAX_PIPES < fuel) :
    ∃ a c1, usbc_new_address MAX_PIPES fuel c = some (a, c1) := by
  rcases Nat.eq_zero_or_pos MAX_PIPES with h0 | hpos
  · subst h0
    obtain ⟨f, rfl⟩ : ∃ f, fuel = f + 1 := ⟨fuel - 1, by omega⟩
    refine ⟨0, c, ?_⟩
    unfold usbc_new_address
    dsimp only
    unfold newAddressLoop
    rw [if_neg (by decide)]
  · have key := newAddressLoop_spec MAX_PIPES c hMP (MAX_PIPES - 1) 1 fuel (by omega)
      (by omega) (le_refl 1) (fun j h4 h5 => by omega)
    rcases key with ⟨a, ha, _⟩ | ⟨hret, _⟩
    · exact ⟨a, _, ha⟩
    · exact ⟨0, c, hret⟩

theorem nameDone_returns (P : EnumParams) (fuel : Nat) (setup : usb_setup_desc) (u : urb)
    (name : Nat → Nat) (hname : P.USB_DEV_NAME_MAX_SIZE < U32)
    (hf : P.USB_DEV_NAME_MAX_SIZE ≤ fuel) : ∃ s, nameDone P fuel setup u name = some s := by
  unfold nameDone
  by_cases h0 : bDescriptorIndex setup = 0
  · rw [if_pos h0]
    exact ⟨_, rfl⟩
  · rw [if_neg h0]
    obtain ⟨r, hr⟩ := usbc_uni_to_string_returns fuel
      (fun i => u.transfer_buffer (USB_STRING_OFFSET + i))
      ((u.acctual_length % U32 + U32 - 2) % U32) name P.USB_DEV_NAME_MAX_SIZE hname hf
    rw [hr]
    exact ⟨_, rfl⟩

/-- With enough fuel the handler returns or ends in `panic`; in the state
GET_DESCRIPTORS this needs the walk over the received bytes to finish. -/
theorem usbc_enumerate_handler_returns (P : EnumParams) (fuel : Nat) (u : urb) (w : EnumWorld)
    (n : Nat) (hMP : P.MAX_PIPES ≤ 16) (hf1 : P.MAX_PIPES < fuel)
    (hname : P.USB_DEV_NAME_MAX_SIZE < U32) (hf2 : P.USB_DEV_NAME_MAX_SIZE ≤ fuel)
    (hwalk : w.usbc.enum_state = usb_enum_state.USB_ENUM_GET_DESCRIPTORS →
      WalkFinishes u.transfer_buffer u.acctual_length n ∧ n < fuel) :
    ∃ o, usbc_enumerate_handler P fuel u w = some o := by
  unfold usbc_enumerate_handler
  by_cases hok : u.status ≠ P.URB_STATUS_OK
  · rw [if_pos hok]
    exact ⟨_, rfl⟩
  rw [if_neg hok]
  cases hs : w.usbc.enum_state with
  | USB_ENUM_IDLE => exact ⟨_, rfl⟩
  | USB_ENUM_GET_EP0_SIZE =>
    dsimp only
    cases usbc_ep0_size_done u w.dev <;> exact ⟨_, rfl⟩
  | USB_ENUM_GET_DEV_DESC =>
    dsimp only
    obtain ⟨a, c1, hn⟩ := usbc_new_address_returns P.MAX_PIPES fuel
      { w.usbc with enum_state := usb_enum_state.USB_ENUM_SET_ADDRESS } hMP hf1
    simp only [usbc_set_dev_addr, hn]
    exact ⟨_, rfl⟩
  | USB_ENUM_SET_ADDRESS => exact ⟨_, rfl⟩
  | USB_ENUM_GET_DESC_LENGTH =>
    dsimp only
    cases usbc_desc_length_done u w.dev <;> exact ⟨_, rfl⟩
  | USB_ENUM_GET_DESCRIPTORS =>
    dsimp only
    obtain ⟨hw, hn⟩ := hwalk hs
    obtain ⟨r, dev1, log, hp⟩ := usbc_parse_descriptors_returns P.sz P.bmalloc w.dev
      u.transfer_buffer u.acctual_length n fuel hw hn
    simp only [usbc_get_all_desc_done, hp]
    by_cases hr : r = 0
    · simp [hr]
    · simp [hr]
  | USB_ENUM_GET_PRODUCT_NAME =>
    dsimp only
    obtain ⟨s, hsn⟩ := nameDone_returns P fuel w.setup u w.dev.product hname hf2
    simp only [usbc_get_product_name_done, hsn]
    exact ⟨_, rfl⟩
  | USB_ENUM_GET_MANUFACTURER_NAME =>
    dsimp only
    obtain ⟨s, hsn⟩ := nameDone_returns P fuel w.setup u w.dev.manufacturer hname hf2
    simp only [usbc_get_manufacturer_name_done, hsn]
    exact ⟨_, rfl⟩

theorem sampleTree_walk_urb :
    WalkFinishes (okUrb 25 sampleTree).transfer_buffer (okUrb 25 sampleTree).acctual_length 3 := by
  refine ⟨?_, ?_⟩
  · decide
  · decide

/-- An OK completion that passes the validation of its step is not fatal: the handler
returns, given the fuel for the address search and the name conversion. -/
theorem usbc_enumerate_handler_advances (P : EnumParams) (fuel : Nat) (u : urb)
    (w : EnumWorld) (hok : u.status = P.URB_STATUS_OK)
    (hmem : w.usbc.enum_state ∈ stepStates) (hvalid : stepValid P fuel u w)
    (hMP : P.MAX_PIPES ≤ 16) (hf1 : P.MAX_PIPES < fuel)
    (hname : P.USB_DEV_NAME_MAX_SIZE < U32) (hf2 : P.USB_DEV_NAME_MAX_SIZE ≤ fuel) :
    ∃ w1, usbc_enumerate_handler P fuel u w = some (Outcome.done w1) := by
  unfold stepValid at hvalid
  unfold usbc_enumerate_handler
  rw [if_neg (not_not.mpr hok)]
  cases hs : w.usbc.enum_state with
  | USB_ENUM_IDLE =>
    rw [hs] at hmem
    exact absurd hmem (by decide)
  | USB_ENUM_GET_EP0_SIZE =>
    rw [hs] at hvalid
    dsimp only at hvalid ⊢
    unfold usbc_ep0_size_done
    dsimp only
    rw [if_neg (by omega)]
    exact ⟨_, rfl⟩
  | USB_ENUM_GET_DEV_DESC =>
    dsimp only
    obtain ⟨a, c1, hn⟩ := usbc_new_address_returns P.MAX_PIPES fuel
      { w.usbc with enum_state := usb_enum_state.USB_ENUM_SET_ADDRESS } hMP hf1
    simp only [usbc_set_dev_addr, hn]
    exact ⟨_, rfl⟩
  | USB_ENUM_SET_ADDRESS => exact ⟨_, rfl⟩
  | USB_ENUM_GET_DESC_LENGTH =>
    rw [hs] at hvalid
    dsimp only at hvalid ⊢
    unfold usbc_desc_length_done
    rw [if_neg (not_not.mpr hvalid)]
    exact ⟨_, rfl⟩
  | USB_ENUM_GET_DESCRIPTORS =>
    rw [hs] at hvalid
    dsimp only at hvalid ⊢
    obtain ⟨r, dev1, log, hp, hr⟩ := hvalid
    simp only [usbc_get_all_desc_done, hp, hr, if_false]
    exact ⟨_, rfl⟩
  | USB_ENUM_GET_PRODUCT_NAME =>
    dsimp only
    obtain ⟨s, hsn⟩ := nameDone_returns P fuel w.setup u w.dev.product hname hf2
    simp only [usbc_get_product_name_done, hsn]
    exact ⟨_, rfl⟩
  | USB_ENUM_GET_MANUFACTURER_NAME =>
    rw [hs] at hmem
    exact absurd hmem (by decide)

/-- When the handler returns from a completion, the validation of the step had passed. -/
theorem stepValid_of_done (P : EnumParams) (fuel : Nat) (u : urb) (w w1 : EnumWorld)
    (h : usbc_enumerate_handler P fuel u w = some (Outcome.done w1)) :
    stepValid P fuel u w := by
  unfold usbc_enumerate_handler at h
  by_cases hok : u.status ≠ P.URB_STATUS_OK
  · rw [if_pos hok] at h
    cases h
  rw [if_neg hok] at h
  unfold stepValid
  cases hs : w.usbc.enum_state with
  | USB_ENUM_IDLE => trivial
  | USB_ENUM_GET_EP0_SIZE =>
    rw [hs] at h
    dsimp only at h ⊢
    unfold usbc_ep0_size_done at h
    dsimp only at h
    by_cases hb : bMaxPacketSize u.transfer_buffer < 8 ∨ bMaxPacketSize u.transfer_buffer > 1024
    · rw [if_pos hb] at h
      cases h
    · omega
  | USB_ENUM_GET_DEV_DESC => trivial
  | USB_ENUM_SET_ADDRESS => trivial
  | USB_ENUM_GET_DESC_LENGTH =>
    rw [hs] at h
    dsimp only at h ⊢
    unfold usbc_desc_length_done at h
    by_cases hb : u.acctual_length ≠ 9
    · rw [if_pos hb] at h
      cases h
    · exact not_not.mp hb
  | USB_ENUM_GET_DESCRIPTORS =>
    rw [hs] at h
    dsimp only at h ⊢
    cases hp : usbc_parse_descriptors P.sz P.bmalloc fuel w.dev u.transfer_buffer
        u.acctual_length with
    | none => simp only [usbc_get_all_desc_done, hp] at h; cases h
    | some q =>
      obtain ⟨r, dev1, log⟩ := q
      refine ⟨r, dev1, log, rfl, ?_⟩
      intro hr
      simp [usbc_get_all_desc_done, hp, hr] at h
  | USB_ENUM_GET_PRODUCT_NAME => trivial
  | USB_ENUM_GET_MANUFACTURER_NAME => trivial

/-- C12: the enumeration handler is a linear state machine.  With an OK status, in state
IDLE it returns with the state unchanged and nothing submitted.  In each of the states
GET_EP0_SIZE, GET_DEV_DESC, SET_ADDRESS, GET_DESC_LENGTH, GET_DESCRIPTORS,
GET_PRODUCT_NAME an OK completion that passes the validation of the step makes the
handler return with `enum_state` set to the next state of the sequence and exactly one
URB submitted, on pipe 0; the handler returns from such a state only when the validation
passed.  No call of the handler submits more than one URB, and with enough fuel every
call returns or ends in `panic`. -/
theorem usbc_enumerate_handler_linear (P : EnumParams) (fuel : Nat) (u : urb)
    (w : EnumWorld) :
    (u.status = P.URB_STATUS_OK → w.usbc.enum_state = usb_enum_state.USB_ENUM_IDLE →
      usbc_enumerate_handler P fuel u w = some (Outcome.done w)) ∧
    (u.status = P.URB_STATUS_OK → w.usbc.enum_state ∈ stepStates →
      stepValid P fuel u w →
      P.MAX_PIPES ≤ 16 → P.MAX_PIPES < fuel → P.USB_DEV_NAME_MAX_SIZE < U32 →
      P.USB_DEV_NAME_MAX_SIZE ≤ fuel →
      ∃ w1, usbc_enumerate_handler P fuel u w = some (Outcome.done w1) ∧
        w1.usbc.enum_state = nextState w.usbc.enum_state ∧
        ∃ ev, w1.trace = w.trace ++ ev ∧ submits ev = [0]) ∧
    (u.status = P.URB_STATUS_OK → ∀ w1,
      usbc_enumerate_handler P fuel u w = some (Outcome.done w1) →
      w.usbc.enum_state ∈ stepStates →
      stepValid P fuel u w ∧
      w1.usbc.enum_state = nextState w.usbc.enum_state ∧
      ∃ ev, w1.trace = w.trace ++ ev ∧ submits ev = [0]) ∧
    (∀ o, usbc_enumerate_handler P fuel u w = some o →
      ∃ ev, o.world.trace = w.trace ++ ev ∧ (submits ev).length ≤ 1) ∧
    (∀ n, P.MAX_PIPES ≤ 16 → P.MAX_PIPES < fuel → P.USB_DEV_NAME_MAX_SIZE < U32 →
      P.USB_DEV_NAME_MAX_SIZE ≤ fuel →
      (w.usbc.enum_state = usb_enum_state.USB_ENUM_GET_DESCRIPTORS →
        WalkFinishes u.transfer_buffer u.acctual_length n ∧ n < fuel) →
      ∃ o, usbc_enumerate_handler P fuel u w = some o) := by
  refine ⟨?_, ?_, ?_, ?_, ?_⟩
  · intro hok hs
    unfold usbc_enumerate_handler
    rw [if_neg (not_not.mpr hok), hs]
  · intro hok hmem hvalid h1 h2 h3 h4
    obtain ⟨w1, hw1⟩ := usbc_enumerate_handler_advances P fuel u w hok hmem hvalid h1 h2 h3 h4
    have hstep := (usbc_enumerate_handler_step P fuel u w _ hok hw1).2 w1 rfl hmem
    exact ⟨w1, hw1, hstep.1, hstep.2⟩
  · intro hok w1 hw1 hmem
    have hstep := (usbc_enumerate_handler_step P fuel u w _ hok hw1).2 w1 rfl hmem
    exact ⟨stepValid_of_done P fuel u w w1 hw1, hstep.1, hstep.2⟩
  · intro o ho
    by_cases hok : u.status = P.URB_STATUS_OK
    · obtain ⟨ev, h1, h2⟩ := (usbc_enumerate_handler_step P fuel u w o hok ho).1
      refine ⟨ev, h1, ?_⟩
      rcases h2 with h2 | h2 <;> simp [h2]
    · unfold usbc_enumerate_handler at ho
      rw [if_pos hok] at ho
      simp only [Option.some.injEq] at ho
      subst ho
      exact ⟨[], by simp [Outcome.world], by simp [submits]⟩
  · intro n h1 h2 h3 h4 h5
    exact usbc_enumerate_handler_returns P fuel u w n h1 h2 h3 h4 h5

theorem sampleWorld_tree_valid :
    stepValid stdParams 64 (okUrb 25 sampleTree) (sampleWorld 4) :=
  ⟨1, _, _, rfl, by decide⟩

theorem sampleWorld_name_valid :
    stepValid stdParams 64 (okUrb 4 [4, 3, 9, 4]) (sampleWorld 5) :=
  trivial

/-- Witness of C12: the fifth completion of the sample enumeration, in state
GET_DESCRIPTORS, and the sixth, in state GET_PRODUCT_NAME. -/
theorem usbc_enumerate_handler_linear_witness :
    (okUrb 25 sampleTree).status = stdParams.URB_STATUS_OK ∧
    (sampleWorld 4).usbc.enum_state ∈ stepStates ∧
    stepValid stdParams 64 (okUrb 25 sampleTree) (sampleWorld 4) ∧
    (∃ w1, usbc_enumerate_handler stdParams 64 (okUrb 25 sampleTree) (sampleWorld 4)
        = some (Outcome.done w1) ∧
      w1.usbc.enum_state = nextState (sampleWorld 4).usbc.enum_state ∧
      ∃ ev, w1.trace = (sampleWorld 4).trace ++ ev ∧ submits ev = [0]) ∧
    (∃ w1, usbc_enumerate_handler stdParams 64 (okUrb 4 [4, 3, 9, 4]) (sampleWorld 5)
        = some (Outcome.done w1) ∧
      w1.usbc.enum_state = nextState (sampleWorld 5).usbc.enum_state ∧
      ∃ ev, w1.trace = (sampleWorld 5).trace ++ ev ∧ submits ev = [0]) ∧
    (∃ o, usbc_enumerate_handler stdParams 64 (okUrb 25 sampleTree) (sampleWorld 4) = some o) :=
  ⟨by decide, by decide, sampleWorld_tree_valid,
    (usbc_enumerate_handler_linear stdParams 64 (okUrb 25 sampleTree) (sampleWorld 4)).2.1
      (by decide) (by decide) sampleWorld_tree_valid (by decide) (by decide) (by decide)
      (by decide),
    (usbc_enumerate_handler_linear stdParams 64 (okUrb 4 [4, 3, 9, 4]) (sampleWorld 5)).2.1
      (by decide) (by decide) sampleWorld_name_valid (by decide) (by decide) (by decide)
      (by decide),
    (usbc_enumerate_handler_linear stdParams 64 (okUrb 25 sampleTree)
      (sampleWorld 4)).2.2.2.2 3
      (by decide) (by decide) (by decide) (by decide) (fun _ => ⟨sampleTree_walk_urb, by decide⟩)⟩

theorem sameNames_refl (a : usb_dev) : SameNames a a := ⟨rfl, rfl, rfl⟩

theorem sameNames_trans {a b c : usb_dev} (h1 : SameNames a b) (h2 : SameNames b c) :
    SameNames a c :=
  ⟨h1.1.trans h2.1, h1.2.1.trans h2.2.1, h1.2.2.trans h2.2.2⟩

theorem initIfaces_names (dev : usb_dev) (n : Nat) : SameNames (initIfaces dev n) dev := by
  induction n with
  | zero => exact sameNames_refl dev
  | succ k ih => exact ih

theorem usbc_alloc_descriptors_names (sz : Sizes) (bmalloc : Nat → Option (Nat × DescBuffer))
    (dev : usb_dev) (c i e : Nat) :
    SameNames (usbc_alloc_descriptors sz bmalloc dev c i e).2 dev := by
  unfold usbc_alloc_descriptors
  dsimp only
  cases bmalloc ((c * sz.config + i * sz.iface + e * sz.ep) % U32) with
  | none => exact ⟨rfl, rfl, rfl⟩
  | some p => exact ⟨rfl, rfl, rfl⟩

theorem usbc_init_descriptors_names (dev : usb_dev) (c i e : Nat) :
    SameNames (usbc_init_descriptors dev c i e) dev := by
  unfold usbc_init_descriptors
  exact initIfaces_names _ i

theorem parseBody_names (sz : Sizes) (data : Nat → Nat) (pos : Nat) (st : ParseState) :
    (∀ st1, parseBody sz data pos st = .ok st1 → SameNames st1.dev st.dev) ∧
    (∀ d, parseBody sz data pos st = .error d → SameNames d st.dev) := by
  unfold parseBody
  dsimp only
  split_ifs
  · refine ⟨?_, ?_⟩
    · intro st1 h
      cases h
      exact ⟨rfl, rfl, rfl⟩
    · intro d h
      cases h
  · cases st.last_cfg with
    | none =>
      refine ⟨?_, ?_⟩
      · intro st1 h
        cases h
      · intro d h
        cases h
        exact ⟨rfl, rfl, rfl⟩
    | some lc =>
      refine ⟨?_, ?_⟩
      · intro st1 h
        cases h
        exact ⟨rfl, rfl, rfl⟩
      · intro d h
        cases h
  · cases st.last_iface with
    | none =>
      refine ⟨?_, ?_⟩
      · intro st1 h
        cases h
      · intro d h
        cases h
        exact ⟨rfl, rfl, rfl⟩
    | some li =>
      refine ⟨?_, ?_⟩
      · intro st1 h
        cases h
        exact ⟨rfl, rfl, rfl⟩
      · intro d h
        cases h
  · refine ⟨?_, ?_⟩
    · intro st1 h
      cases h
      exact ⟨rfl, rfl, rfl⟩
    · intro d h
      cases h

theorem parseLoop_names (sz : Sizes) (data : Nat → Nat) (size : Nat) :
    ∀ (fuel pos : Nat) (st : ParseState) (r : Nat) (d : usb_dev),
      parseLoop sz data size fuel pos st = some (r, d) → SameNames d st.dev := by
  intro fuel
  induction fuel with
  | zero =>
    intro pos st r d h
    simp [parseLoop] at h
  | succ f ih =>
    intro pos st r d h
    unfold parseLoop at h
    by_cases hp : pos < size
    · rw [if_pos hp] at h
      cases hb : parseBody sz data pos st with
      | error d1 =>
        rw [hb] at h
        simp only [Option.some.injEq, Prod.mk.injEq] at h
        rw [← h.2]
        exact (parseBody_names sz data pos st).2 d1 hb
      | ok st1 =>
        rw [hb] at h
        exact sameNames_trans (ih _ st1 r d h) ((parseBody_names sz data pos st).1 st1 hb)
    · rw [if_neg hp] at h
      simp only [Option.some.injEq, Prod.mk.injEq] at h
      rw [← h.2]
      exact sameNames_refl _

theorem usbc_parse_descriptors_names (sz : Sizes) (bmalloc : Nat → Option (Nat × DescBuffer))
    (fuel : Nat) (dev : usb_dev) (data : Nat → Nat) (size r : Nat) (d : usb_dev)
    (log : List Nat)
    (h : usbc_parse_descriptors sz bmalloc fuel dev data size = some (r, d, log)) :
    SameNames d dev := by
  unfold usbc_parse_descriptors at h
  cases hv : usbc_verify_descriptors sz fuel data size with
  | none => rw [hv] at h; cases h
  | some q =>
    obtain ⟨r0, c, i, e⟩ := q
    rw [hv] at h
    dsimp only at h
    by_cases hr : r0 = 0
    · rw [if_pos hr] at h
      simp only [Option.some.injEq, Prod.mk.injEq] at h
      rw [← h.2.1]
      exact sameNames_refl _
    · rw [if_neg hr] at h
      by_cases ha : (usbc_alloc_descriptors sz bmalloc dev c i e).1 = 0
      · rw [if_pos ha] at h
        simp only [Option.some.injEq, Prod.mk.injEq] at h
        rw [← h.2.1]
        exact usbc_alloc_descriptors_names sz bmalloc dev c i e
      · rw [if_neg ha] at h
        cases hl : parseLoop sz data size fuel 0
            { dev := usbc_init_descriptors (usbc_alloc_descriptors sz bmalloc dev c i e).2 c i e,
              config_index := 0, iface_index := 0, ep_index := 0,
              last_cfg := none, last_iface := none } with
        | none => rw [hl] at h; cases h
        | some q2 =>
          obtain ⟨r2, d3⟩ := q2
          rw [hl] at h
          simp only [Option.some.injEq, Prod.mk.injEq] at h
          rw [← h.2.1]
          exact sameNames_trans (parseLoop_names sz data size fuel 0 _ r2 d3 hl)
            (sameNames_trans (usbc_init_descriptors_names _ c i e)
              (usbc_alloc_descriptors_names sz bmalloc dev c i e))

theorem nameIsNone_string_copy (dest : Nat → Nat) : NameIsNone (string_copy strNone dest) := by
  refine ⟨?_, ?_, ?_, ?_, ?_⟩ <;> rfl

theorem bDescriptorIndex_set (s : usb_setup_desc) (i : Nat) :
    bDescriptorIndex (set_bDescriptorIndex s i) = i % 256 := by
  unfold bDescriptorIndex set_bDescriptorIndex
  dsimp only
  omega

theorem nameInv_start (P : EnumParams) (w : EnumWorld) (raw : usb_dev) :
    NameInv (usbc_start_enum P w raw) :=
  ⟨nameIsNone_string_copy raw.product, nameIsNone_string_copy raw.manufacturer⟩

theorem nameDone_index_zero (P : EnumParams) (fuel : Nat) (setup : usb_setup_desc) (u : urb)
    (name : Nat → Nat) (h : bDescriptorIndex setup = 0) :
    nameDone P fuel setup u name = some name := by
  unfold nameDone
  rw [if_pos h]

theorem usb_get_string_desc_index (P : EnumParams) (w : EnumWorld) (i l : Nat) :
    bDescriptorIndex (usb_get_string_desc P w i l).setup = i % 256 := by
  simp only [usb_get_string_desc, submitControl, bDescriptorIndex, set_bDescriptorIndex,
    set_bDescriptorType]
  omega

theorem nameInv_product_request (P : EnumParams) (w : EnumWorld) (l : Nat)
    (hs : w.usbc.enum_state = usb_enum_state.USB_ENUM_GET_PRODUCT_NAME)
    (h1 : NameIsNone w.dev.product) (h2 : NameIsNone w.dev.manufacturer) :
    NameInv (usb_get_string_desc P w (iProduct w.dev.desc) l) := by
  have hu : (usb_get_string_desc P w (iProduct w.dev.desc) l).usbc = w.usbc := rfl
  have hd : (usb_get_string_desc P w (iProduct w.dev.desc) l).dev = w.dev := rfl
  unfold NameInv
  rw [hu, hd, hs]
  exact ⟨usb_get_string_desc_index P w _ l, h1, h2⟩

theorem nameInv_manufacturer_request (P : EnumParams) (w : EnumWorld) (l : Nat)
    (hs : w.usbc.enum_state = usb_enum_state.USB_ENUM_GET_MANUFACTURER_NAME)
    (h1 : iProduct w.dev.desc % 256 = 0 → NameIsNone w.dev.product)
    (h2 : iManufacturer w.dev.desc % 256 = 0 → NameIsNone w.dev.manufacturer) :
    NameInv (usb_get_string_desc P w (iManufacturer w.dev.desc) l) := by
  have hu : (usb_get_string_desc P w (iManufacturer w.dev.desc) l).usbc = w.usbc := rfl
  have hd : (usb_get_string_desc P w (iManufacturer w.dev.desc) l).dev = w.dev := rfl
  unfold NameInv
  rw [hu, hd, hs]
  exact ⟨usb_get_string_desc_index P w _ l, h1, h2⟩

theorem nameInv_step (P : EnumParams) (fuel : Nat) (u : urb) (w w1 : EnumWorld)
    (hinv : NameInv w)
    (h : usbc_enumerate_handler P fuel u w = some (Outcome.done w1)) : NameInv w1 := by
  unfold usbc_enumerate_handler at h
  by_cases hok : u.status ≠ P.URB_STATUS_OK
  · rw [if_pos hok] at h
    cases h
  rw [if_neg hok] at h
  unfold NameInv at hinv
  cases hs : w.usbc.enum_state with
  | USB_ENUM_IDLE =>
    rw [hs] at h hinv
    cases h
    unfold NameInv
    rw [hs]
    exact hinv
  | USB_ENUM_GET_EP0_SIZE =>
    rw [hs] at h hinv
    dsimp only at h hinv
    cases hd : usbc_ep0_size_done u w.dev with
    | error c => rw [hd] at h; cases h
    | ok dev1 =>
      rw [hd] at h
      cases h
      unfold usbc_ep0_size_done at hd
      dsimp only at hd
      split_ifs at hd
      cases hd
      exact hinv
  | USB_ENUM_GET_DEV_DESC =>
    rw [hs] at h hinv
    dsimp only at h hinv
    cases hn : usbc_set_dev_addr P fuel
        { w with dev := usbc_device_desc_done w.setup u w.dev,
                 usbc := { w.usbc with enum_state := usb_enum_state.USB_ENUM_SET_ADDRESS } } with
    | none => rw [hn] at h; cases h
    | some w3 =>
      rw [hn] at h
      cases h
      obtain ⟨h1, h2, _⟩ := usbc_set_dev_addr_spec P fuel _ _ hn
      unfold NameInv
      rw [h1, h2]
      exact hinv
  | USB_ENUM_SET_ADDRESS =>
    rw [hs] at h hinv
    cases h
    exact hinv
  | USB_ENUM_GET_DESC_LENGTH =>
    rw [hs] at h hinv
    dsimp only at h hinv
    cases hd : usbc_desc_length_done u w.dev with
    | error c => rw [hd] at h; cases h
    | ok dev1 =>
      rw [hd] at h
      cases h
      unfold usbc_desc_length_done at hd
      split_ifs at hd
      cases hd
      exact hinv
  | USB_ENUM_GET_DESCRIPTORS =>
    rw [hs] at h hinv
    dsimp only at h hinv
    cases hp : usbc_parse_descriptors P.sz P.bmalloc fuel w.dev u.transfer_buffer
        u.acctual_length with
    | none => simp only [usbc_get_all_desc_done, hp] at h; cases h
    | some q =>
      obtain ⟨r, dev1, log⟩ := q
      have hn := usbc_parse_descriptors_names P.sz P.bmalloc fuel w.dev u.transfer_buffer
        u.acctual_length r dev1 log hp
      simp only [usbc_get_all_desc_done, hp] at h
      by_cases hr : r = 0
      · simp [hr] at h
      · simp only [hr, if_false] at h
        simp only [Bool.false_eq_true, if_false, Option.some.injEq, Outcome.done.injEq] at h
        subst h
        refine nameInv_product_request P _ 0 rfl ?_ ?_
        · show NameIsNone dev1.product
          rw [hn.1]
          exact hinv.1
        · show NameIsNone dev1.manufacturer
          rw [hn.2.1]
          exact hinv.2
  | USB_ENUM_GET_PRODUCT_NAME =>
    rw [hs] at h hinv
    dsimp only at h hinv
    cases hd : nameDone P fuel w.setup u w.dev.product with
    | none => simp only [usbc_get_product_name_done, hd] at h; cases h
    | some s =>
      simp only [usbc_get_product_name_done, hd] at h
      cases h
      refine nameInv_manufacturer_request P _ 0 rfl ?_ ?_
      · intro h0
        show NameIsNone s
        have h1 : bDescriptorIndex w.setup = 0 := by rw [hinv.1]; exact h0
        rw [nameDone_index_zero P fuel w.setup u w.dev.product h1] at hd
        cases hd
        exact hinv.2.1
      · intro _
        exact hinv.2.2
  | USB_ENUM_GET_MANUFACTURER_NAME =>
    rw [hs] at h hinv
    dsimp only at h hinv
    cases hd : nameDone P fuel w.setup u w.dev.manufacturer with
    | none => simp only [usbc_get_manufacturer_name_done, hd] at h; cases h
    | some s =>
      simp only [usbc_get_manufacturer_name_done, hd] at h
      cases h
      unfold NameInv
      dsimp only
      rw [hs]
      dsimp only
      unfold usbc_assign_driver
      rw [assignDriverLoop_dev]
      refine ⟨hinv.1, hinv.2.1, ?_⟩
      intro h0
      show NameIsNone s
      have h1 : bDescriptorIndex w.setup = 0 := by rw [hinv.1]; exact h0
      rw [nameDone_index_zero P fuel w.setup u w.dev.manufacturer h1] at hd
      cases hd
      exact hinv.2.2 h0

theorem nameInv_reach (P : EnumParams) (w : EnumWorld) (h : EnumReach P w) : NameInv w := by
  induction h with
  | start w0 raw => exact nameInv_start P w0 raw
  | step w0 w1 fuel u _ hstep ih => exact nameInv_step P fuel u w0 w1 ih hstep

/-- In the state GET_MANUFACTURER_NAME the handler leaves `enum_state` as it is and
submits nothing, for every completion it returns from. -/
theorem usbc_enumerate_handler_manufacturer_state (P : EnumParams) (fuel : Nat) (u : urb)
    (w w1 : EnumWorld)
    (hs : w.usbc.enum_state = usb_enum_state.USB_ENUM_GET_MANUFACTURER_NAME)
    (h : usbc_enumerate_handler P fuel u w = some (Outcome.done w1)) :
    w1.usbc.enum_state = usb_enum_state.USB_ENUM_GET_MANUFACTURER_NAME ∧
    ∃ ev, w1.trace = w.trace ++ ev ∧ submits ev = [] := by
  unfold usbc_enumerate_handler at h
  by_cases hok : u.status ≠ P.URB_STATUS_OK
  · rw [if_pos hok] at h
    cases h
  rw [if_neg hok, hs] at h
  dsimp only at h
  cases hd : usbc_get_manufacturer_name_done P fuel w.setup u w.dev with
  | none => rw [hd] at h; cases h
  | some dev1 =>
    rw [hd] at h
    cases h
    refine ⟨hs, [HcEvent.pipe_disable 0] ++
      connectEvents (usbc_assign_driver P.masks (fun _ => dev1) dev1 w.usbc).2, ?_, ?_⟩
    · simp
    · simp [submits_append, submits_connectEvents, submits]

/-- C13: the completion of the state GET_MANUFACTURER_NAME on the sample enumeration (one
HID interface, one HID driver registered): the handler binds (the `connect` of the driver
is called for the interface), submits no URB, and `enum_state` is still
GET_MANUFACTURER_NAME, not IDLE. -/
theorem usbc_enumerate_handler_manufacturer_not_idle :
    (sampleWorld 6).usbc.enum_state = usb_enum_state.USB_ENUM_GET_MANUFACTURER_NAME ∧
    usbc_enumerate_handler stdParams 20 (okUrb 4 [4, 3, 9, 4]) (sampleWorld 6)
      = some (Outcome.done (sampleWorld 7)) ∧
    (sampleWorld 7).usbc.enum_state = usb_enum_state.USB_ENUM_GET_MANUFACTURER_NAME ∧
    (sampleWorld 7).usbc.enum_state ≠ usb_enum_state.USB_ENUM_IDLE ∧
    (sampleWorld 7).trace
      = (sampleWorld 6).trace ++ [HcEvent.pipe_disable 0, HcEvent.connect 501 0] ∧
    submits [HcEvent.pipe_disable 0, HcEvent.connect 501 0] = [] := by
  refine ⟨by rfl, by rfl, by rfl, by decide, by rfl, by rfl⟩

theorem sampleWorld_reach_5 : EnumReach stdParams (sampleWorld 5) := by
  have r0 : EnumReach stdParams (sampleWorld 0) := EnumReach.start _ _
  have r1 : EnumReach stdParams (sampleWorld 1) :=
    EnumReach.step (sampleWorld 0) (sampleWorld 1) 20 (okUrb 8 sampleDevDesc) r0 (by rfl)
  have r2 : EnumReach stdParams (sampleWorld 2) :=
    EnumReach.step (sampleWorld 1) (sampleWorld 2) 20 (okUrb 18 sampleDevDesc) r1 (by rfl)
  have r3 : EnumReach stdParams (sampleWorld 3) :=
    EnumReach.step (sampleWorld 2) (sampleWorld 3) 20 (okUrb 0 []) r2 (by rfl)
  have r4 : EnumReach stdParams (sampleWorld 4) :=
    EnumReach.step (sampleWorld 3) (sampleWorld 4) 20 (okUrb 9 sampleTree) r3 (by rfl)
  exact EnumReach.step (sampleWorld 4) (sampleWorld 5) 20 (okUrb 25 sampleTree) r4 (by rfl)

theorem sampleWorld_reach_6 : EnumReach stdParams (sampleWorld 6) :=
  EnumReach.step (sampleWorld 5) (sampleWorld 6) 20 (okUrb 4 [4, 3, 9, 4])
    sampleWorld_reach_5 (by rfl)

/-- C18: in every world reached from `usbc_start_enum` (the device record comes from
`usbc_add_device`) by completions the handler returned from, an OK completion of the
state GET_PRODUCT_NAME with `iProduct = 0` in the cached device descriptor returns and
leaves the product name `"None"`, and an OK completion of the state
GET_MANUFACTURER_NAME with `iManufacturer = 0` returns and leaves the manufacturer name
`"None"` (and the product name too when `iProduct = 0`), for every transfer buffer and
every actual length of the URB and every fuel. -/
theorem usbc_name_stays_none (P : EnumParams) (fuel : Nat) (u : urb) (w : EnumWorld)
    (hreach : EnumReach P w) (hok : u.status = P.URB_STATUS_OK) :
    (w.usbc.enum_state = usb_enum_state.USB_ENUM_GET_PRODUCT_NAME →
      iProduct w.dev.desc = 0 →
      ∃ w1, usbc_enumerate_handler P fuel u w = some (Outcome.done w1) ∧
        NameIsNone w1.dev.product) ∧
    (w.usbc.enum_state = usb_enum_state.USB_ENUM_GET_MANUFACTURER_NAME →
      iManufacturer w.dev.desc = 0 →
      ∃ w1, usbc_enumerate_handler P fuel u w = some (Outcome.done w1) ∧
        NameIsNone w1.dev.manufacturer ∧
        (iProduct w.dev.desc = 0 → NameIsNone w1.dev.product)) := by
  have hinv := nameInv_reach P w hreach
  unfold NameInv at hinv
  refine ⟨?_, ?_⟩
  · intro hs h0
    rw [hs] at hinv
    dsimp only at hinv
    have h1 : bDescriptorIndex w.setup = 0 := by rw [hinv.1, h0]
    have hd := nameDone_index_zero P fuel w.setup u w.dev.product h1
    have he : ∃ w1, usbc_enumerate_handler P fuel u w = some (Outcome.done w1) ∧
        w1.dev.product = w.dev.product := by
      unfold usbc_enumerate_handler
      rw [if_neg (not_not.mpr hok), hs]
      dsimp only
      simp only [usbc_get_product_name_done, hd]
      exact ⟨_, rfl, rfl⟩
    obtain ⟨w1, he1, he2⟩ := he
    exact ⟨w1, he1, by rw [he2]; exact hinv.2.1⟩
  · intro hs h0
    rw [hs] at hinv
    dsimp only at hinv
    have h1 : bDescriptorIndex w.setup = 0 := by rw [hinv.1, h0]
    have hd := nameDone_index_zero P fuel w.setup u w.dev.manufacturer h1
    have he : ∃ w1, usbc_enumerate_handler P fuel u w = some (Outcome.done w1) ∧
        w1.dev.manufacturer = w.dev.manufacturer ∧ w1.dev.product = w.dev.product := by
      unfold usbc_enumerate_handler
      rw [if_neg (not_not.mpr hok), hs]
      dsimp only
      simp only [usbc_get_manufacturer_name_done, hd]
      refine ⟨_, rfl, ?_, ?_⟩
      · unfold usbc_assign_driver
        dsimp only
        rw [assignDriverLoop_dev]
      · unfold usbc_assign_driver
        dsimp only
        rw [assignDriverLoop_dev]
    obtain ⟨w1, he1, he2, he3⟩ := he
    refine ⟨w1, he1, ?_, ?_⟩
    · rw [he2]
      exact hinv.2.2 (by rw [h0])
    · intro hp
      rw [he3]
      exact hinv.2.1 (by rw [hp])

/-- Witness of C18: the sample enumeration in the state GET_PRODUCT_NAME, completed with
a one-byte buffer. -/
theorem usbc_name_stays_none_witness :
    (okUrb 1 [65]).status = stdParams.URB_STATUS_OK ∧
    (sampleWorld 5).usbc.enum_state = usb_enum_state.USB_ENUM_GET_PRODUCT_NAME ∧
    iProduct (sampleWorld 5).dev.desc = 0 ∧
    ∃ w1, usbc_enumerate_handler stdParams 20 (okUrb 1 [65]) (sampleWorld 5)
        = some (Outcome.done w1) ∧ NameIsNone w1.dev.product :=
  ⟨by decide, by rfl, by rfl,
    (usbc_name_stays_none stdParams 20 (okUrb 1 [65]) (sampleWorld 5) sampleWorld_reach_5
      (by decide)).1 (by rfl) (by rfl)⟩

/-! ### Buffer layout, interface records and the bounds of the walks -/

theorem type_codes_lt :
    USB_DESC_CONFIG % 256 = USB_DESC_CONFIG ∧ USB_DESC_IFACE % 256 = USB_DESC_IFACE ∧
    USB_DESC_EP % 256 = USB_DESC_EP := by
  decide

theorem usbc_get_desc_offset_config (sz : Sizes) (C I k : Nat) :
    usbc_get_desc_offset sz C I USB_DESC_CONFIG k = k * sz.config % U32 := by
  unfold usbc_get_desc_offset
  dsimp only
  rw [if_pos type_codes_lt.1, Nat.zero_add, Nat.mod_mod]

theorem usbc_get_desc_offset_iface (sz : Sizes) (C I k : Nat) :
    usbc_get_desc_offset sz C I USB_DESC_IFACE k = (C * sz.config + k * sz.iface) % U32 := by
  unfold usbc_get_desc_offset
  dsimp only
  rw [if_neg (by decide), if_pos type_codes_lt.2.1, Nat.zero_add, Nat.mod_mod]
  rw [U32_val]
  omega

theorem usbc_get_desc_offset_ep (sz : Sizes) (C I k : Nat) :
    usbc_get_desc_offset sz C I USB_DESC_EP k
      = (C * sz.config + I * sz.iface + k * sz.ep) % U32 := by
  unfold usbc_get_desc_offset
  dsimp only
  rw [if_neg (by decide), if_neg (by decide), if_pos type_codes_lt.2.2, Nat.zero_add,
    Nat.mod_mod]
  rw [U32_val]
  omega

/-- C21: for all counts `C`, `I` and every index `k`, `usbc_get_desc_offset` returns
`k * sizeof(config)` for the type CONFIGURATION, `C * sizeof(config) + k * sizeof(iface)`
for INTERFACE and `C * sizeof(config) + I * sizeof(iface) + k * sizeof(ep)` for ENDPOINT,
in arithmetic modulo `2 ^ 32`. -/
theorem usbc_get_desc_offset_spec (sz : Sizes) (C I k : Nat) :
    usbc_get_desc_offset sz C I USB_DESC_CONFIG k = k * sz.config % U32 ∧
    usbc_get_desc_offset sz C I USB_DESC_IFACE k = (C * sz.config + k * sz.iface) % U32 ∧
    usbc_get_desc_offset sz C I USB_DESC_EP k
      = (C * sz.config + I * sz.iface + k * sz.ep) % U32 :=
  ⟨usbc_get_desc_offset_config sz C I k, usbc_get_desc_offset_iface sz C I k,
    usbc_get_desc_offset_ep sz C I k⟩

theorem mul_slot_le (k n s : Nat) (h : k < n) : k * s + s ≤ n * s := by
  have h1 : (k + 1) * s ≤ n * s := Nat.mul_le_mul_right s h
  rw [Nat.succ_mul] at h1
  exact h1

theorem usbc_get_desc_offset_exact (sz : Sizes) (C I E : Nat)
    (hno : C * sz.config + I * sz.iface + E * sz.ep < U32) :
    (∀ k, k ≤ C → usbc_get_desc_offset sz C I USB_DESC_CONFIG k = k * sz.config) ∧
    (∀ k, k ≤ I → usbc_get_desc_offset sz C I USB_DESC_IFACE k
      = C * sz.config + k * sz.iface) ∧
    (∀ k, k ≤ E → usbc_get_desc_offset sz C I USB_DESC_EP k
      = C * sz.config + I * sz.iface + k * sz.ep) := by
  refine ⟨?_, ?_, ?_⟩
  · intro k hk
    rw [usbc_get_desc_offset_config]
    have h1 : k * sz.config ≤ C * sz.config := Nat.mul_le_mul_right _ hk
    exact Nat.mod_eq_of_lt (by omega)
  · intro k hk
    rw [usbc_get_desc_offset_iface]
    have h1 : k * sz.iface ≤ I * sz.iface := Nat.mul_le_mul_right _ hk
    exact Nat.mod_eq_of_lt (by omega)
  · intro k hk
    rw [usbc_get_desc_offset_ep]
    have h1 : k * sz.ep ≤ E * sz.ep := Nat.mul_le_mul_right _ hk
    exact Nat.mod_eq_of_lt (by omega)

theorem usbc_alloc_descriptors_total (sz : Sizes) (bmalloc : Nat → Option (Nat × DescBuffer))
    (dev : usb_dev) (C I E : Nat) :
    (usbc_alloc_descriptors sz bmalloc dev C I E).2.desc_total_size
      = (C * sz.config + I * sz.iface + E * sz.ep) % U32 := by
  unfold usbc_alloc_descriptors
  dsimp only
  cases bmalloc ((C * sz.config + I * sz.iface + E * sz.ep) % U32) <;> rfl

theorem parseReach_inv (sz : Sizes) (data : Nat → Nat) (size n : Nat) (dev0 : usb_dev)
    (hw : WalkFinishes data size n) (pos : Nat) (st : ParseState)
    (hr : ParseReach sz data size (parseStart dev0) pos st) :
    ∃ k, k ≤ n ∧ pos = walkPos data k ∧ ParseInv data dev0.num_configs k st := by
  have hn := walk_steps_lt data size n hw
  induction hr with
  | start => exact ⟨0, Nat.zero_le n, rfl, (parseInv_init sz data dev0 _ rfl).1⟩
  | step pos st st1 _ hpos hb ih =>
    obtain ⟨k, hk, hp, hinv⟩ := ih
    have hkn : k < n := by
      rcases Nat.lt_or_ge k n with h | h
      · exact h
      · have hkn : k = n := by omega
        have h2 := hw.2
        rw [← hkn, ← hp] at h2
        omega
    rw [hp] at hb
    refine ⟨k + 1, hkn, ?_, parseInv_step sz data _ k st st1 (by omega) hinv hb⟩
    rw [hp]
    rfl

theorem parseBody_configs (sz : Sizes) (data : Nat → Nat) (pos : Nat) (st : ParseState) :
    (∀ st1, parseBody sz data pos st = .ok st1 → st1.dev.configs = st.dev.configs) ∧
    (∀ d, parseBody sz data pos st = .error d → d.configs = st.dev.configs) := by
  unfold parseBody
  dsimp only
  split_ifs
  · refine ⟨?_, ?_⟩
    · intro st1 h
      cases h
      rfl
    · intro d h
      cases h
  · cases st.last_cfg with
    | none =>
      refine ⟨?_, ?_⟩
      · intro st1 h
        cases h
      · intro d h
        cases h
        rfl
    | some lc =>
      refine ⟨?_, ?_⟩
      · intro st1 h
        cases h
        rfl
      · intro d h
        cases h
  · cases st.last_iface with
    | none =>
      refine ⟨?_, ?_⟩
      · intro st1 h
        cases h
      · intro d h
        cases h
        rfl
    | some li =>
      refine ⟨?_, ?_⟩
      · intro st1 h
        cases h
        rfl
      · intro d h
        cases h
  · refine ⟨?_, ?_⟩
    · intro st1 h
      cases h
      rfl
    · intro d h
      cases h

theorem parseLoop_configs (sz : Sizes) (data : Nat → Nat) (size : Nat) :
    ∀ (fuel pos : Nat) (st : ParseState) (r : Nat) (d : usb_dev),
      parseLoop sz data size fuel pos st = some (r, d) → d.configs = st.dev.configs := by
  intro fuel
  induction fuel with
  | zero =>
    intro pos st r d h
    simp [parseLoop] at h
  | succ f ih =>
    intro pos st r d h
    unfold parseLoop at h
    by_cases hp : pos < size
    · rw [if_pos hp] at h
      cases hb : parseBody sz data pos st with
      | error d1 =>
        rw [hb] at h
        simp only [Option.some.injEq, Prod.mk.injEq] at h
        rw [← h.2]
        exact (parseBody_configs sz data pos st).2 d1 hb
      | ok st1 =>
        rw [hb] at h
        exact (ih _ st1 r d h).trans ((parseBody_configs sz data pos st).1 st1 hb)
    · rw [if_neg hp] at h
      simp only [Option.some.injEq, Prod.mk.injEq] at h
      rw [← h.2]

theorem slotsAbove_refl (C I E : Nat) (a : DescBuffer) : SlotsAbove C I E a a :=
  ⟨fun _ _ => rfl, fun _ _ => rfl, fun _ _ => rfl⟩

theorem slotsAbove_trans {C I E : Nat} {a b c : DescBuffer} (h1 : SlotsAbove C I E a b)
    (h2 : SlotsAbove C I E b c) : SlotsAbove C I E a c :=
  ⟨fun j hj => (h1.1 j hj).trans (h2.1 j hj), fun j hj => (h1.2.1 j hj).trans (h2.2.1 j hj),
    fun j hj => (h1.2.2 j hj).trans (h2.2.2 j hj)⟩

theorem update_above {α : Type} (f : Nat → α) (s : Nat) (v : α) (B j : Nat) (hs : s < B)
    (hj : B ≤ j) : Function.update f s v j = f j :=
  Function.update_noteq (by omega) _ _

/-- The indices and the record pointers of a state of the second walk after `k` strides
of a walk of `n` strides lie below the numbers of descriptors of their type. -/
theorem parseInv_indices (data : Nat → Nat) (n0 k n : Nat) (st : ParseState)
    (hinv : ParseInv data n0 k st) (hk : k < n) :
    (descType data k = USB_DESC_CONFIG →
      st.config_index < countType data USB_DESC_CONFIG n) ∧
    (descType data k = USB_DESC_IFACE → st.iface_index < countType data USB_DESC_IFACE n) ∧
    (descType data k = USB_DESC_EP → st.ep_index < countType data USB_DESC_EP n) ∧
    (∀ lc, st.last_cfg = some lc → lc < countType data USB_DESC_CONFIG n) ∧
    (∀ li, st.last_iface = some li → li < countType data USB_DESC_IFACE n) := by
  refine ⟨?_, ?_, ?_, ?_, ?_⟩
  · intro h
    rw [hinv.cfg_idx]
    exact countType_lt data _ k n hk h
  · intro h
    rw [hinv.if_idx]
    exact countType_lt data _ k n hk h
  · intro h
    rw [hinv.ep_idx]
    exact countType_lt data _ k n hk h
  · intro lc hl
    have h1 := hinv.lcfg
    have h2 := countType_mono data USB_DESC_CONFIG k n (by omega)
    rw [hl] at h1
    by_cases h0 : countType data USB_DESC_CONFIG k = 0
    · rw [if_pos h0] at h1
      cases h1
    · rw [if_neg h0] at h1
      simp only [Option.some.injEq] at h1
      omega
  · intro li hl
    have h1 := hinv.lif
    have h2 := countType_mono data USB_DESC_IFACE k n (by omega)
    rw [hl] at h1
    by_cases h0 : countType data USB_DESC_IFACE k = 0
    · rw [if_pos h0] at h1
      cases h1
    · rw [if_neg h0] at h1
      simp only [Option.some.injEq] at h1
      omega

/-- The body of the second walk writes only records whose slot is below the given
bounds, when its indices and pointers are below them. -/
theorem parseBody_slotsAbove (sz : Sizes) (data : Nat → Nat) (pos : Nat) (st : ParseState)
    (C I E : Nat)
    (hc : byteAt data (pos + 1) = USB_DESC_CONFIG → st.config_index < C)
    (hi : byteAt data (pos + 1) = USB_DESC_IFACE → st.iface_index < I)
    (he : byteAt data (pos + 1) = USB_DESC_EP → st.ep_index < E)
    (hlc : ∀ lc, st.last_cfg = some lc → lc < C)
    (hli : ∀ li, st.last_iface = some li → li < I) :
    (∀ st1, parseBody sz data pos st = .ok st1 → SlotsAbove C I E st1.dev.mem st.dev.mem) ∧
    (∀ d, parseBody sz data pos st = .error d → SlotsAbove C I E d.mem st.dev.mem) := by
  by_cases hC : byteAt data (pos + 1) = USB_DESC_CONFIG
  · rw [parseBody_config sz data pos st hC]
    refine ⟨?_, ?_⟩
    · intro st1 h
      cases h
      refine ⟨fun j hj => ?_, fun _ _ => rfl, fun _ _ => rfl⟩
      show Function.update st.dev.mem.cfgs st.config_index _ j = _
      exact update_above _ _ _ C j (hc hC) hj
    · intro d h
      cases h
  · by_cases hI : byteAt data (pos + 1) = USB_DESC_IFACE
    · cases hl : st.last_cfg with
      | none =>
        unfold parseBody
        dsimp only
        rw [if_neg hC, if_pos hI]
        simp only [hl]
        refine ⟨?_, ?_⟩
        · intro st1 h
          cases h
        · intro d h
          cases h
          refine ⟨fun _ _ => rfl, fun j hj => ?_, fun _ _ => rfl⟩
          show Function.update st.dev.mem.ifs st.iface_index _ j = _
          exact update_above _ _ _ I j (hi hI) hj
      | some lc =>
        rw [parseBody_iface_some sz data pos st hI lc hl]
        refine ⟨?_, ?_⟩
        · intro st1 h
          cases h
          refine ⟨fun j hj => ?_, fun j hj => ?_, fun _ _ => rfl⟩
          · show Function.update st.dev.mem.cfgs lc _ j = _
            exact update_above _ _ _ C j (hlc lc hl) hj
          · show Function.update st.dev.mem.ifs st.iface_index _ j = _
            exact update_above _ _ _ I j (hi hI) hj
        · intro d h
          cases h
    · by_cases hE : byteAt data (pos + 1) = USB_DESC_EP
      · cases hl : st.last_iface with
        | none =>
          unfold parseBody
          dsimp only
          rw [if_neg hC, if_neg hI, if_pos hE]
          simp only [hl]
          refine ⟨?_, ?_⟩
          · intro st1 h
            cases h
          · intro d h
            cases h
            refine ⟨fun _ _ => rfl, fun _ _ => rfl, fun j hj => ?_⟩
            show Function.update st.dev.mem.eps st.ep_index _ j = _
            exact update_above _ _ _ E j (he hE) hj
        | some li =>
          rw [parseBody_ep_some sz data pos st hE li hl]
          refine ⟨?_, ?_⟩
          · intro st1 h
            cases h
            refine ⟨fun _ _ => rfl, fun j hj => ?_, fun j hj => ?_⟩
            · show Function.update st.dev.mem.ifs li _ j = _
              exact update_above _ _ _ I j (hli li hl) hj
            · show Function.update st.dev.mem.eps st.ep_index _ j = _
              exact update_above _ _ _ E j (he hE) hj
          · intro d h
            cases h
      · rw [parseBody_other sz data pos st hC hI hE]
        refine ⟨?_, ?_⟩
        · intro st1 h
          cases h
          exact slotsAbove_refl _ _ _ _
        · intro d h
          cases h

/-- After a successful verify pass the walk finishes and the counters are the numbers of
descriptors of each type met in it. -/
theorem verify_success_counts (sz : Sizes) (data : Nat → Nat) (size fuel C I E : Nat)
    (hv : usbc_verify_descriptors sz fuel data size = some (1, C, I, E)) :
    ∃ n, n < fuel ∧ WalkFinishes data size n ∧ walkPos data n = size ∧
      C = countType data USB_DESC_CONFIG n ∧ I = countType data USB_DESC_IFACE n ∧
      E = countType data USB_DESC_EP n := by
  obtain ⟨n, hnf, hwalk, hend⟩ := verify_success_walk sz data size fuel C I E hv
  obtain ⟨r1, c1, i1, e1, hv1, _, _, hcount⟩ :=
    verifyLoop_spec sz data size n hwalk n 0 fuel (by omega) hnf
      (fun j hj => absurd hj (Nat.not_lt_zero j))
  have hv0 : verifyLoop sz data size fuel (walkPos data 0)
      (countType data USB_DESC_CONFIG 0) (countType data USB_DESC_IFACE 0)
      (countType data USB_DESC_EP 0) = some (1, C, I, E) := hv
  rw [hv0] at hv1
  simp only [Option.some.injEq, Prod.mk.injEq] at hv1
  obtain ⟨hr1, hc1, hi1, he1⟩ := hv1
  obtain ⟨hc, hi, he⟩ := hcount hr1.symm
  exact ⟨n, hnf, hwalk, hend, by rw [hc1, hc], by rw [hi1, hi], by rw [he1, he]⟩

/-- In every state at the head of the second loop, inside the buffer, the index of the
type of the descriptor at `pos` and the two record pointers are below the counts of the
verify pass. -/
theorem parseReach_indices (sz : Sizes) (fuel : Nat) (data : Nat → Nat) (size C I E : Nat)
    (dev : usb_dev) (pos : Nat) (st : ParseState)
    (hv : usbc_verify_descriptors sz fuel data size = some (1, C, I, E))
    (hr : ParseReach sz data size (parseStart dev) pos st) (hpos : pos < size) :
    (byteAt data (pos + 1) = USB_DESC_CONFIG → st.config_index < C) ∧
    (byteAt data (pos + 1) = USB_DESC_IFACE → st.iface_index < I) ∧
    (byteAt data (pos + 1) = USB_DESC_EP → st.ep_index < E) ∧
    (∀ lc, st.last_cfg = some lc → lc < C) ∧
    (∀ li, st.last_iface = some li → li < I) := by
  obtain ⟨n, _, hwalk, hend, hc, hi, he⟩ := verify_success_counts sz data size fuel C I E hv
  obtain ⟨j, hj, hp, hinv⟩ := parseReach_inv sz data size n dev hwalk pos st hr
  have hjn : j < n := by
    rcases Nat.lt_or_ge j n with h | h
    · exact h
    · have hjn : j = n := by omega
      rw [hp, hjn, hend] at hpos
      omega
  have key := parseInv_indices data dev.num_configs j n st hinv hjn
  rw [hp, hc, hi, he]
  exact key

theorem parseLoop_slotsAbove (sz : Sizes) (fuel0 : Nat) (data : Nat → Nat)
    (size C I E : Nat) (dev : usb_dev)
    (hv : usbc_verify_descriptors sz fuel0 data size = some (1, C, I, E)) :
    ∀ (fuel pos : Nat) (st : ParseState) (r : Nat) (d : usb_dev),
      ParseReach sz data size (parseStart dev) pos st →
      parseLoop sz data size fuel pos st = some (r, d) →
      SlotsAbove C I E d.mem st.dev.mem := by
  intro fuel
  induction fuel with
  | zero =>
    intro pos st r d _ h
    simp [parseLoop] at h
  | succ f ih =>
    intro pos st r d hr h
    unfold parseLoop at h
    by_cases hp : pos < size
    · rw [if_pos hp] at h
      obtain ⟨h1, h2, h3, h4, h5⟩ :=
        parseReach_indices sz fuel0 data size C I E dev pos st hv hr hp
      have hb := parseBody_slotsAbove sz data pos st C I E h1 h2 h3 h4 h5
      cases hbody : parseBody sz data pos st with
      | error d1 =>
        rw [hbody] at h
        simp only [Option.some.injEq, Prod.mk.injEq] at h
        rw [← h.2]
        exact hb.2 d1 hbody
      | ok st1 =>
        rw [hbody] at h
        exact slotsAbove_trans
          (ih _ st1 r d (ParseReach.step pos st st1 hr hp hbody) h) (hb.1 st1 hbody)
    · rw [if_neg hp] at h
      simp only [Option.some.injEq, Prod.mk.injEq] at h
      rw [← h.2]
      exact slotsAbove_refl _ _ _ _

theorem initConfigs_frame (m : DescBuffer) (n : Nat) :
    (∀ j, n ≤ j → (initConfigs m n).cfgs j = m.cfgs j) ∧ (initConfigs m n).ifs = m.ifs ∧
    (initConfigs m n).eps = m.eps := by
  induction n with
  | zero => exact ⟨fun _ _ => rfl, rfl, rfl⟩
  | succ k ih =>
    refine ⟨fun j hj => ?_, ih.2.1, ih.2.2⟩
    show Function.update (initConfigs m k).cfgs k _ j = _
    rw [update_above _ _ _ (k + 1) j (by omega) hj]
    exact ih.1 j (by omega)

theorem initIfaces_frame (dev : usb_dev) (n : Nat) :
    (∀ j, n ≤ j → (initIfaces dev n).mem.ifs j = dev.mem.ifs j) ∧
    (initIfaces dev n).mem.cfgs = dev.mem.cfgs ∧ (initIfaces dev n).mem.eps = dev.mem.eps ∧
    (initIfaces dev n).configs = dev.configs := by
  induction n with
  | zero => exact ⟨fun _ _ => rfl, rfl, rfl, rfl⟩
  | succ k ih =>
    refine ⟨fun j hj => ?_, ih.2.1, ih.2.2.1, ih.2.2.2⟩
    show Function.update (initIfaces dev k).mem.ifs k _ j = _
    rw [update_above _ _ _ (k + 1) j (by omega) hj]
    exact ih.1 j (by omega)

theorem initEps_frame (m : DescBuffer) (n : Nat) :
    (∀ j, n ≤ j → (initEps m n).eps j = m.eps j) ∧ (initEps m n).cfgs = m.cfgs ∧
    (initEps m n).ifs = m.ifs := by
  induction n with
  | zero => exact ⟨fun _ _ => rfl, rfl, rfl⟩
  | succ k ih =>
    refine ⟨fun j hj => ?_, ih.2.1, ih.2.2⟩
    show Function.update (initEps m k).eps k _ j = _
    rw [update_above _ _ _ (k + 1) j (by omega) hj]
    exact ih.1 j (by omega)

theorem usbc_init_descriptors_slotsAbove (dev : usb_dev) (C I E : Nat) :
    SlotsAbove C I E (usbc_init_descriptors dev C I E).mem dev.mem ∧
    (usbc_init_descriptors dev C I E).configs = dev.configs := by
  have h1 := initConfigs_frame dev.mem C
  have h2 := initIfaces_frame { dev with mem := initConfigs dev.mem C } I
  have h3 := initEps_frame (initIfaces { dev with mem := initConfigs dev.mem C } I).mem E
  refine ⟨⟨fun j hj => ?_, fun j hj => ?_, fun j hj => ?_⟩, h2.2.2.2⟩
  · show (initEps (initIfaces { dev with mem := initConfigs dev.mem C } I).mem E).cfgs j = _
    rw [h3.2.1, h2.2.1]
    exact h1.1 j hj
  · show (initEps (initIfaces { dev with mem := initConfigs dev.mem C } I).mem E).ifs j = _
    rw [h3.2.2, h2.1 j hj]
    show (initConfigs dev.mem C).ifs j = _
    rw [h1.2.1]
  · show (initEps (initIfaces { dev with mem := initConfigs dev.mem C } I).mem E).eps j = _
    rw [h3.1 j hj, h2.2.2.1]
    show (initConfigs dev.mem C).eps j = _
    rw [h1.2.2]

/-- What `usbc_alloc_descriptors` does with the allocator: it asks for the sum of the
record sizes (in `u32`), stores the result in `dev->configs` and the size in
`dev->desc_total_size`, and returns whether the result is not `NULL`. -/
theorem usbc_alloc_descriptors_request (sz : Sizes)
    (bmalloc : Nat → Option (Nat × DescBuffer)) (dev : usb_dev) (C I E : Nat) :
    (∀ p m, bmalloc ((C * sz.config + I * sz.iface + E * sz.ep) % U32) = some (p, m) →
      (usbc_alloc_descriptors sz bmalloc dev C I E).1 = 1 ∧
      (usbc_alloc_descriptors sz bmalloc dev C I E).2.configs = some p ∧
      (usbc_alloc_descriptors sz bmalloc dev C I E).2.mem = m) ∧
    (bmalloc ((C * sz.config + I * sz.iface + E * sz.ep) % U32) = none →
      (usbc_alloc_descriptors sz bmalloc dev C I E).1 = 0 ∧
      (usbc_alloc_descriptors sz bmalloc dev C I E).2.configs = none) := by
  unfold usbc_alloc_descriptors
  dsimp only
  refine ⟨?_, ?_⟩
  · intro p m h
    rw [h]
    exact ⟨rfl, rfl, rfl⟩
  · intro h
    rw [h]
    exact ⟨rfl, rfl⟩

/-- Whenever `usbc_parse_descriptors` returns after a successful verify pass and a
successful allocation, `dev->configs` is the buffer the allocator returned for the
requested size, and every record in a slot at or above the counts of the verify pass is
as the allocator returned it. -/
theorem usbc_parse_descriptors_slotsAbove (sz : Sizes)
    (bmalloc : Nat → Option (Nat × DescBuffer)) (fuel : Nat) (dev : usb_dev)
    (data : Nat → Nat) (size C I E p : Nat) (m : DescBuffer) (r : Nat) (dev1 : usb_dev)
    (log : List Nat)
    (hv : usbc_verify_descriptors sz fuel data size = some (1, C, I, E))
    (hb : bmalloc ((C * sz.config + I * sz.iface + E * sz.ep) % U32) = some (p, m))
    (h : usbc_parse_descriptors sz bmalloc fuel dev data size = some (r, dev1, log)) :
    dev1.configs = some p ∧ SlotsAbove C I E dev1.mem m := by
  obtain ⟨ha1, ha2, ha3⟩ := (usbc_alloc_descriptors_request sz bmalloc dev C I E).1 p m hb
  unfold usbc_parse_descriptors at h
  rw [hv] at h
  dsimp only at h
  rw [if_neg (by decide), if_neg (by rw [ha1]; decide)] at h
  have hi := usbc_init_descriptors_slotsAbove (usbc_alloc_descriptors sz bmalloc dev C I E).2
    C I E
  cases hl : parseLoop sz data size fuel 0
      { dev := usbc_init_descriptors (usbc_alloc_descriptors sz bmalloc dev C I E).2 C I E,
        config_index := 0, iface_index := 0, ep_index := 0,
        last_cfg := none, last_iface := none } with
  | none => rw [hl] at h; cases h
  | some q =>
    obtain ⟨r2, d3⟩ := q
    rw [hl] at h
    simp only [Option.some.injEq, Prod.mk.injEq] at h
    obtain ⟨_, hd, _⟩ := h
    subst hd
    have hs := parseLoop_slotsAbove sz fuel data size C I E
      (usbc_init_descriptors (usbc_alloc_descriptors sz bmalloc dev C I E).2 C I E) hv
      fuel 0 _ r2 d3 ParseReach.start hl
    have hcfg := parseLoop_configs sz data size fuel 0 _ r2 d3 hl
    refine ⟨?_, ?_⟩
    · rw [hcfg]
      show (usbc_init_descriptors (usbc_alloc_descriptors sz bmalloc dev C I E).2 C I E).configs
        = some p
      rw [hi.2, ha2]
    · have h2 : SlotsAbove C I E
          (usbc_init_descriptors (usbc_alloc_descriptors sz bmalloc dev C I E).2 C I E).mem m := by
        rw [← ha3]
        exact hi.1
      exact slotsAbove_trans hs h2

/-- C23: the record slots addressed by `usbc_get_desc_offset` tile the buffer requested
by `usbc_alloc_descriptors`.  For all counts `C`, `I`, `E` whose total size does not
overflow 32 bits, the slots of one region follow each other without overlap, every
configuration slot ends before every interface slot starts and every interface slot
before every endpoint slot, the first slot starts at 0, every slot ends inside the total
size and the last slot ends exactly at it; `usbc_alloc_descriptors` passes this total to
the allocator, stores the buffer it returns in `dev->configs` and fails when it returns
`NULL`.  During the second walk of `usbc_parse_descriptors`, after a successful verify
pass, the index of the descriptor at hand and the pointers to the last configuration and
interface are below the counts of the verify pass, the loop body writes no record in a
slot at or above them, and when the function returns the records in those slots are as
the allocator returned them. -/
theorem usbc_desc_slots_tile (sz : Sizes) :
    (∀ C I E, C * sz.config + I * sz.iface + E * sz.ep < U32 →
      (∀ a, a < C → usbc_get_desc_offset sz C I USB_DESC_CONFIG a = a * sz.config) ∧
      (∀ a, a < I → usbc_get_desc_offset sz C I USB_DESC_IFACE a
        = C * sz.config + a * sz.iface) ∧
      (∀ a, a < E → usbc_get_desc_offset sz C I USB_DESC_EP a
        = C * sz.config + I * sz.iface + a * sz.ep) ∧
      (∀ a b, a < b → b < C →
        usbc_get_desc_offset sz C I USB_DESC_CONFIG a + sz.config
          ≤ usbc_get_desc_offset sz C I USB_DESC_CONFIG b) ∧
      (∀ a b, a < b → b < I →
        usbc_get_desc_offset sz C I USB_DESC_IFACE a + sz.iface
          ≤ usbc_get_desc_offset sz C I USB_DESC_IFACE b) ∧
      (∀ a b, a < b → b < E →
        usbc_get_desc_offset sz C I USB_DESC_EP a + sz.ep
          ≤ usbc_get_desc_offset sz C I USB_DESC_EP b) ∧
      (∀ a b, a < C → b < I →
        usbc_get_desc_offset sz C I USB_DESC_CONFIG a + sz.config
          ≤ usbc_get_desc_offset sz C I USB_DESC_IFACE b) ∧
      (∀ a b, a < I → b < E →
        usbc_get_desc_offset sz C I USB_DESC_IFACE a + sz.iface
          ≤ usbc_get_desc_offset sz C I USB_DESC_EP b) ∧
      (∀ a b, a < C → b < E →
        usbc_get_desc_offset sz C I USB_DESC_CONFIG a + sz.config
          ≤ usbc_get_desc_offset sz C I USB_DESC_EP b) ∧
      (∀ a, a < C → usbc_get_desc_offset sz C I USB_DESC_CONFIG a + sz.config
        ≤ C * sz.config + I * sz.iface + E * sz.ep) ∧
      (∀ a, a < I → usbc_get_desc_offset sz C I USB_DESC_IFACE a + sz.iface
        ≤ C * sz.config + I * sz.iface + E * sz.ep) ∧
      (∀ a, a < E → usbc_get_desc_offset sz C I USB_DESC_EP a + sz.ep
        ≤ C * sz.config + I * sz.iface + E * sz.ep) ∧
      (0 < E → usbc_get_desc_offset sz C I USB_DESC_EP (E - 1) + sz.ep
        = C * sz.config + I * sz.iface + E * sz.ep) ∧
      (E = 0 → 0 < I → usbc_get_desc_offset sz C I USB_DESC_IFACE (I - 1) + sz.iface
        = C * sz.config + I * sz.iface + E * sz.ep) ∧
      (E = 0 → I = 0 → 0 < C → usbc_get_desc_offset sz C I USB_DESC_CONFIG (C - 1) + sz.config
        = C * sz.config + I * sz.iface + E * sz.ep) ∧
      (∀ (bmalloc : Nat → Option (Nat × DescBuffer)) (dev : usb_dev),
        (usbc_alloc_descriptors sz bmalloc dev C I E).2.desc_total_size
          = C * sz.config + I * sz.iface + E * sz.ep) ∧
      (∀ (bmalloc : Nat → Option (Nat × DescBuffer)) (dev : usb_dev) (p : Nat)
          (m : DescBuffer),
        bmalloc (C * sz.config + I * sz.iface + E * sz.ep) = some (p, m) →
        (usbc_alloc_descriptors sz bmalloc dev C I E).1 = 1 ∧
        (usbc_alloc_descriptors sz bmalloc dev C I E).2.configs = some p ∧
        (usbc_alloc_descriptors sz bmalloc dev C I E).2.mem = m) ∧
      (∀ (bmalloc : Nat → Option (Nat × DescBuffer)) (dev : usb_dev),
        bmalloc (C * sz.config + I * sz.iface + E * sz.ep) = none →
        (usbc_alloc_descriptors sz bmalloc dev C I E).1 = 0 ∧
        (usbc_alloc_descriptors sz bmalloc dev C I E).2.configs = none)) ∧
    (∀ (fuel : Nat) (data : Nat → Nat) (size C I E : Nat) (dev : usb_dev) (pos : Nat)
        (st : ParseState),
      usbc_verify_descriptors sz fuel data size = some (1, C, I, E) →
      ParseReach sz data size (parseStart dev) pos st → pos < size →
      (byteAt data (pos + 1) = USB_DESC_CONFIG → st.config_index < C) ∧
      (byteAt data (pos + 1) = USB_DESC_IFACE → st.iface_index < I) ∧
      (byteAt data (pos + 1) = USB_DESC_EP → st.ep_index < E) ∧
      (∀ lc, st.last_cfg = some lc → lc < C) ∧
      (∀ li, st.last_iface = some li → li < I) ∧
      (∀ st1, parseBody sz data pos st = .ok st1 →
        SlotsAbove C I E st1.dev.mem st.dev.mem) ∧
      (∀ d, parseBody sz data pos st = .error d → SlotsAbove C I E d.mem st.dev.mem)) ∧
    (∀ (bmalloc : Nat → Option (Nat × DescBuffer)) (fuel : Nat) (dev : usb_dev)
        (data : Nat → Nat) (size C I E p : Nat) (m : DescBuffer) (r : Nat) (dev1 : usb_dev)
        (log : List Nat),
      usbc_verify_descriptors sz fuel data size = some (1, C, I, E) →
      bmalloc ((C * sz.config + I * sz.iface + E * sz.ep) % U32) = some (p, m) →
      usbc_parse_descriptors sz bmalloc fuel dev data size = some (r, dev1, log) →
      dev1.configs = some p ∧ SlotsAbove C I E dev1.mem m) := by
  refine ⟨?_, ?_, ?_⟩
  · intro C I E hno
    obtain ⟨hc, hi, he⟩ := usbc_get_desc_offset_exact sz C I E hno
    refine ⟨fun a ha => hc a (by omega), fun a ha => hi a (by omega),
      fun a ha => he a (by omega), ?_, ?_, ?_, ?_, ?_, ?_, ?_, ?_, ?_, ?_, ?_, ?_, ?_, ?_, ?_⟩
    · intro a b hab hb
      rw [hc a (by omega), hc b (by omega)]
      exact mul_slot_le a b _ hab
    · intro a b hab hb
      rw [hi a (by omega), hi b (by omega)]
      have := mul_slot_le a b sz.iface hab
      omega
    · intro a b hab hb
      rw [he a (by omega), he b (by omega)]
      have := mul_slot_le a b sz.ep hab
      omega
    · intro a b ha hb
      rw [hc a (by omega), hi b (by omega)]
      have := mul_slot_le a C sz.config ha
      omega
    · intro a b ha hb
      rw [hi a (by omega), he b (by omega)]
      have := mul_slot_le a I sz.iface ha
      omega
    · intro a b ha hb
      rw [hc a (by omega), he b (by omega)]
      have := mul_slot_le a C sz.config ha
      omega
    · intro a ha
      rw [hc a (by omega)]
      have := mul_slot_le a C sz.config ha
      omega
    · intro a ha
      rw [hi a (by omega)]
      have := mul_slot_le a I sz.iface ha
      omega
    · intro a ha
      rw [he a (by omega)]
      have := mul_slot_le a E sz.ep ha
      omega
    · intro hE
      rw [he (E - 1) (by omega)]
      obtain ⟨e, rfl⟩ : ∃ e, E = e + 1 := ⟨E - 1, by omega⟩
      rw [Nat.add_sub_cancel, Nat.succ_mul]
      omega
    · intro hE hI
      rw [hi (I - 1) (by omega)]
      obtain ⟨i, rfl⟩ : ∃ i, I = i + 1 := ⟨I - 1, by omega⟩
      rw [Nat.add_sub_cancel, Nat.succ_mul, hE, Nat.zero_mul]
      omega
    · intro hE hI hC
      rw [hc (C - 1) (by omega)]
      obtain ⟨c, rfl⟩ : ∃ c, C = c + 1 := ⟨C - 1, by omega⟩
      rw [Nat.add_sub_cancel, Nat.succ_mul, hE, hI, Nat.zero_mul, Nat.zero_mul]
      omega
    · intro bmalloc dev
      rw [usbc_alloc_descriptors_total]
      exact Nat.mod_eq_of_lt hno
    · intro bmalloc dev p m hb
      have hmod : (C * sz.config + I * sz.iface + E * sz.ep) % U32
          = C * sz.config + I * sz.iface + E * sz.ep := Nat.mod_eq_of_lt hno
      exact (usbc_alloc_descriptors_request sz bmalloc dev C I E).1 p m (by rw [hmod]; exact hb)
    · intro bmalloc dev hb
      have hmod : (C * sz.config + I * sz.iface + E * sz.ep) % U32
          = C * sz.config + I * sz.iface + E * sz.ep := Nat.mod_eq_of_lt hno
      exact (usbc_alloc_descriptors_request sz bmalloc dev C I E).2 (by rw [hmod]; exact hb)
  · intro fuel data size C I E dev pos st hv hr hpos
    obtain ⟨h1, h2, h3, h4, h5⟩ := parseReach_indices sz fuel data size C I E dev pos st hv hr hpos
    have hb := parseBody_slotsAbove sz data pos st C I E h1 h2 h3 h4 h5
    exact ⟨h1, h2, h3, h4, h5, hb.1, hb.2⟩
  · intro bmalloc fuel dev data size C I E p m r dev1 log hv hb h
    exact usbc_parse_descriptors_slotsAbove sz bmalloc fuel dev data size C I E p m r dev1 log
      hv hb h

/-- Witness of C23: the layout for one configuration, one interface and one endpoint
with records of 20, 40 and 12 bytes, and the sample tree: the interface descriptor that
the second walk meets at position 9, and the whole parse. -/
theorem usbc_desc_slots_tile_witness :
    usbc_get_desc_offset stdSizes 1 1 USB_DESC_CONFIG 0 + stdSizes.config
      ≤ usbc_get_desc_offset stdSizes 1 1 USB_DESC_IFACE 0 ∧
    usbc_get_desc_offset stdSizes 1 1 USB_DESC_EP (1 - 1) + stdSizes.ep
      = 1 * stdSizes.config + 1 * stdSizes.iface + 1 * stdSizes.ep ∧
    (∃ st1, parseBody stdSizes (bufOf sampleTree) 0 (parseStart (freshDev 0)) = .ok st1 ∧
      st1.iface_index < 1) ∧
    (∃ dev1 log,
      usbc_parse_descriptors stdSizes junkAlloc 4 (freshDev 0) (bufOf sampleTree) 25
        = some (1, dev1, log) ∧
      dev1.configs = some 4096 ∧ SlotsAbove 1 1 1 dev1.mem junkBuffer) :=
  ⟨((usbc_desc_slots_tile stdSizes).1 1 1 1 (by decide)).2.2.2.2.2.2.1 0 0 (by decide)
      (by decide),
    ((usbc_desc_slots_tile stdSizes).1 1 1 1 (by decide)).2.2.2.2.2.2.2.2.2.2.2.2.1
      (by decide),
    ⟨_, rfl, ((usbc_desc_slots_tile stdSizes).2.1 4 (bufOf sampleTree) 25 1 1 1 (freshDev 0) 9
      _ (by decide) (ParseReach.step 0 _ _ ParseReach.start (by decide) rfl)
      (by decide)).2.1 (by decide)⟩,
    ⟨_, _, rfl, (usbc_desc_slots_tile stdSizes).2.2 junkAlloc 4 (freshDev 0)
      (bufOf sampleTree) 25 1 1 1 4096 junkBuffer 1 _ _ (by decide) rfl rfl⟩⟩

theorem ifaceFrame_refl (a : usb_dev) : IfaceFrame a a := ⟨rfl, fun _ => ⟨rfl, rfl, rfl⟩⟩

theorem ifaceFrame_trans {a b c : usb_dev} (h1 : IfaceFrame a b) (h2 : IfaceFrame b c) :
    IfaceFrame a c :=
  ⟨h1.1.trans h2.1, fun j =>
    ⟨(h1.2 j).1.trans (h2.2 j).1, (h1.2 j).2.1.trans (h2.2 j).2.1,
      (h1.2 j).2.2.trans (h2.2 j).2.2⟩⟩

theorem update_ifs_frame (f : Nat → usb_iface) (s : Nat) (r : usb_iface)
    (hd : r.driver = (f s).driver) (hp : r.parent_dev = (f s).parent_dev)
    (ha : r.assigned = (f s).assigned) (j : Nat) :
    (Function.update f s r j).driver = (f j).driver ∧
    (Function.update f s r j).parent_dev = (f j).parent_dev ∧
    (Function.update f s r j).assigned = (f j).assigned := by
  by_cases hj : j = s
  · subst hj
    rw [Function.update_same]
    exact ⟨hd, hp, ha⟩
  · rw [Function.update_noteq hj]
    exact ⟨rfl, rfl, rfl⟩

theorem parseBody_ifaceFrame (sz : Sizes) (data : Nat → Nat) (pos : Nat) (st : ParseState) :
    (∀ st1, parseBody sz data pos st = .ok st1 → IfaceFrame st1.dev st.dev) ∧
    (∀ d, parseBody sz data pos st = .error d → IfaceFrame d st.dev) := by
  by_cases hC : byteAt data (pos + 1) = USB_DESC_CONFIG
  · rw [parseBody_config sz data pos st hC]
    refine ⟨?_, ?_⟩
    · intro st1 h
      cases h
      exact ⟨rfl, fun _ => ⟨rfl, rfl, rfl⟩⟩
    · intro d h
      cases h
  · by_cases hI : byteAt data (pos + 1) = USB_DESC_IFACE
    · unfold parseBody
      dsimp only
      rw [if_neg hC, if_pos hI]
      cases st.last_cfg with
      | none =>
        refine ⟨?_, ?_⟩
        · intro st1 h
          cases h
        · intro d h
          cases h
          refine ⟨rfl, fun j => ?_⟩
          show (Function.update st.dev.mem.ifs st.iface_index _ j).driver = _ ∧
            (Function.update st.dev.mem.ifs st.iface_index _ j).parent_dev = _ ∧
            (Function.update st.dev.mem.ifs st.iface_index _ j).assigned = _
          refine update_ifs_frame _ _ _ ?_ ?_ ?_ j <;> rfl
      | some lc =>
        refine ⟨?_, ?_⟩
        · intro st1 h
          cases h
          refine ⟨rfl, fun j => ?_⟩
          show (Function.update st.dev.mem.ifs st.iface_index _ j).driver = _ ∧
            (Function.update st.dev.mem.ifs st.iface_index _ j).parent_dev = _ ∧
            (Function.update st.dev.mem.ifs st.iface_index _ j).assigned = _
          refine update_ifs_frame _ _ _ ?_ ?_ ?_ j <;> rfl
        · intro d h
          cases h
    · by_cases hE : byteAt data (pos + 1) = USB_DESC_EP
      · unfold parseBody
        dsimp only
        rw [if_neg hC, if_neg hI, if_pos hE]
        cases st.last_iface with
        | none =>
          refine ⟨?_, ?_⟩
          · intro st1 h
            cases h
          · intro d h
            cases h
            exact ⟨rfl, fun _ => ⟨rfl, rfl, rfl⟩⟩
        | some li =>
          refine ⟨?_, ?_⟩
          · intro st1 h
            cases h
            refine ⟨rfl, fun j => ?_⟩
            show (Function.update st.dev.mem.ifs li _ j).driver = _ ∧
              (Function.update st.dev.mem.ifs li _ j).parent_dev = _ ∧
              (Function.update st.dev.mem.ifs li _ j).assigned = _
            refine update_ifs_frame _ _ _ ?_ ?_ ?_ j
            · dsimp only
              split <;> rfl
            · dsimp only
              split <;> rfl
            · dsimp only
              split <;> rfl
          · intro d h
            cases h
      · rw [parseBody_other sz data pos st hC hI hE]
        refine ⟨?_, ?_⟩
        · intro st1 h
          cases h
          exact ifaceFrame_refl _
        · intro d h
          cases h

theorem parseLoop_ifaceFrame (sz : Sizes) (data : Nat → Nat) (size : Nat) :
    ∀ (fuel pos : Nat) (st : ParseState) (r : Nat) (d : usb_dev),
      parseLoop sz data size fuel pos st = some (r, d) → IfaceFrame d st.dev := by
  intro fuel
  induction fuel with
  | zero =>
    intro pos st r d h
    simp [parseLoop] at h
  | succ f ih =>
    intro pos st r d h
    unfold parseLoop at h
    by_cases hp : pos < size
    · rw [if_pos hp] at h
      cases hb : parseBody sz data pos st with
      | error d1 =>
        rw [hb] at h
        simp only [Option.some.injEq, Prod.mk.injEq] at h
        rw [← h.2]
        exact (parseBody_ifaceFrame sz data pos st).2 d1 hb
      | ok st1 =>
        rw [hb] at h
        exact ifaceFrame_trans (ih _ st1 r d h) ((parseBody_ifaceFrame sz data pos st).1 st1 hb)
    · rw [if_neg hp] at h
      simp only [Option.some.injEq, Prod.mk.injEq] at h
      rw [← h.2]
      exact ifaceFrame_refl _

theorem initIfaces_spec (dev : usb_dev) (n : Nat) :
    (initIfaces dev n).iface_list = (List.range n).reverse ++ dev.iface_list ∧
    (∀ j, j < n → ((initIfaces dev n).mem.ifs j).driver = none ∧
      ((initIfaces dev n).mem.ifs j).parent_dev = some dev.self ∧
      ((initIfaces dev n).mem.ifs j).assigned = 0) := by
  induction n with
  | zero =>
    refine ⟨by simp [initIfaces], ?_⟩
    intro j hj
    exact absurd hj (Nat.not_lt_zero j)
  | succ k ih =>
    refine ⟨?_, ?_⟩
    · show list_add_first k (initIfaces dev k).iface_list = _
      rw [ih.1, List.range_succ, List.reverse_append]
      rfl
    · intro j hj
      show (Function.update (initIfaces dev k).mem.ifs k _ j).driver = none ∧
        (Function.update (initIfaces dev k).mem.ifs k _ j).parent_dev = some dev.self ∧
        (Function.update (initIfaces dev k).mem.ifs k _ j).assigned = 0
      by_cases hjk : j = k
      · subst hjk
        rw [Function.update_same]
        exact ⟨rfl, rfl, rfl⟩
      · rw [Function.update_noteq hjk]
        exact ih.2 j (by omega)

theorem initEps_ifs (m : DescBuffer) (n : Nat) : (initEps m n).ifs = m.ifs := by
  induction n with
  | zero => rfl
  | succ k ih => exact ih

theorem usbc_init_descriptors_ifaces (dev : usb_dev) (c i e : Nat) :
    (usbc_init_descriptors dev c i e).iface_list = (List.range i).reverse ++ dev.iface_list ∧
    (∀ j, j < i → ((usbc_init_descriptors dev c i e).mem.ifs j).driver = none ∧
      ((usbc_init_descriptors dev c i e).mem.ifs j).parent_dev = some dev.self ∧
      ((usbc_init_descriptors dev c i e).mem.ifs j).assigned = 0) := by
  have h := initIfaces_spec { dev with mem := initConfigs dev.mem c } i
  refine ⟨h.1, ?_⟩
  intro j hj
  show ((initEps (initIfaces { dev with mem := initConfigs dev.mem c } i).mem e).ifs j).driver
      = none ∧
    ((initEps (initIfaces { dev with mem := initConfigs dev.mem c } i).mem e).ifs j).parent_dev
      = some dev.self ∧
    ((initEps (initIfaces { dev with mem := initConfigs dev.mem c } i).mem e).ifs j).assigned = 0
  rw [initEps_ifs]
  exact h.2 j hj

theorem usbc_alloc_descriptors_frame (sz : Sizes) (bmalloc : Nat → Option (Nat × DescBuffer))
    (dev : usb_dev) (c i e : Nat) :
    (usbc_alloc_descriptors sz bmalloc dev c i e).2.iface_list = dev.iface_list ∧
    (usbc_alloc_descriptors sz bmalloc dev c i e).2.self = dev.self := by
  unfold usbc_alloc_descriptors
  dsimp only
  cases bmalloc ((c * sz.config + i * sz.iface + e * sz.ep) % U32) <;> exact ⟨rfl, rfl⟩

/-- A successful `usbc_parse_descriptors` leaves the interface list and the fields
`driver`, `parent_dev`, `assigned` of the interface records as `usbc_init_descriptors`
made them. -/
theorem usbc_parse_descriptors_iface_init (sz : Sizes)
    (bmalloc : Nat → Option (Nat × DescBuffer)) (fuel : Nat) (dev : usb_dev)
    (data : Nat → Nat) (size : Nat) (dev1 : usb_dev) (log : List Nat)
    (h : usbc_parse_descriptors sz bmalloc fuel dev data size = some (1, dev1, log)) :
    ∃ C I E, usbc_verify_descriptors sz fuel data size = some (1, C, I, E) ∧
      dev1.iface_list = (List.range I).reverse ++ dev.iface_list ∧
      (∀ j, j < I → (dev1.mem.ifs j).driver = none ∧
        (dev1.mem.ifs j).parent_dev = some dev.self ∧ (dev1.mem.ifs j).assigned = 0) := by
  unfold usbc_parse_descriptors at h
  cases hv : usbc_verify_descriptors sz fuel data size with
  | none => rw [hv] at h; cases h
  | some q =>
    obtain ⟨r0, c, i, e⟩ := q
    rw [hv] at h
    dsimp only at h
    have hr := verifyLoop_status sz data size fuel 0 0 0 0 r0 c i e hv
    rcases hr with hr | hr
    · subst hr
      rw [if_neg (by decide)] at h
      by_cases ha : (usbc_alloc_descriptors sz bmalloc dev c i e).1 = 0
      · rw [if_pos ha] at h
        simp at h
      · rw [if_neg ha] at h
        cases hl : parseLoop sz data size fuel 0
            { dev := usbc_init_descriptors (usbc_alloc_descriptors sz bmalloc dev c i e).2 c i e,
              config_index := 0, iface_index := 0, ep_index := 0,
              last_cfg := none, last_iface := none } with
        | none => rw [hl] at h; cases h
        | some q2 =>
          obtain ⟨r2, d3⟩ := q2
          rw [hl] at h
          simp only [Option.some.injEq, Prod.mk.injEq] at h
          obtain ⟨_, hd, _⟩ := h
          subst hd
          have hf := parseLoop_ifaceFrame sz data size fuel 0 _ r2 d3 hl
          have hi := usbc_init_descriptors_ifaces
            (usbc_alloc_descriptors sz bmalloc dev c i e).2 c i e
          have hal := usbc_alloc_descriptors_frame sz bmalloc dev c i e
          refine ⟨c, i, e, rfl, ?_, ?_⟩
          · rw [hf.1, hi.1, hal.1]
          · intro j hj
            obtain ⟨h1, h2, h3⟩ := hf.2 j
            obtain ⟨g1, g2, g3⟩ := hi.2 j hj
            rw [h1, h2, h3]
            refine ⟨g1, ?_, g3⟩
            rw [← hal.2]
            exact g2
    · subst hr
      rw [if_pos rfl] at h
      simp at h

/-- C22: after a successful `usbc_parse_descriptors` on the device `dev`, with `I` the
interface count of the verify pass, every one of the `I` interface records of the buffer
has `parent_dev = dev`, `driver = NULL` and `assigned = 0`, and the interface list of
the device is the `I` records pushed in front of the list as it was before the call; for
a device whose list was empty (`usbc_add_device` initialises it) the list holds exactly
those `I` records, each once. -/
theorem usbc_parse_descriptors_ifaces (sz : Sizes) (bmalloc : Nat → Option (Nat × DescBuffer))
    (fuel : Nat) (dev : usb_dev) (data : Nat → Nat) (size : Nat) (dev1 : usb_dev)
    (log : List Nat)
    (h : usbc_parse_descriptors sz bmalloc fuel dev data size = some (1, dev1, log)) :
    ∃ C I E, usbc_verify_descriptors sz fuel data size = some (1, C, I, E) ∧
      (∀ j, j < I → (dev1.mem.ifs j).parent_dev = some dev.self ∧
        (dev1.mem.ifs j).driver = none ∧ (dev1.mem.ifs j).assigned = 0) ∧
      dev1.iface_list = (List.range I).reverse ++ dev.iface_list ∧
      (dev.iface_list = [] →
        dev1.iface_list.Nodup ∧ dev1.iface_list.length = I ∧
        ∀ j, j ∈ dev1.iface_list ↔ j < I) := by
  obtain ⟨C, I, E, hv, hl, hf⟩ :=
    usbc_parse_descriptors_iface_init sz bmalloc fuel dev data size dev1 log h
  refine ⟨C, I, E, hv, ?_, hl, ?_⟩
  · intro j hj
    obtain ⟨h1, h2, h3⟩ := hf j hj
    exact ⟨h2, h1, h3⟩
  · intro he
    rw [hl, he, List.append_nil]
    refine ⟨?_, ?_, ?_⟩
    · rw [List.nodup_reverse]
      exact List.nodup_range I
    · rw [List.length_reverse, List.length_range]
    · intro j
      rw [List.mem_reverse, List.mem_range]

/-- Witness of C22: the sample tree parsed into a device made by `usbc_add_device`. -/
theorem usbc_parse_descriptors_ifaces_witness : ∃ dev1 log,
    usbc_parse_descriptors stdSizes junkAlloc 4 (freshDev 0) (bufOf sampleTree) 25
      = some (1, dev1, log) ∧
    ∃ C I E, usbc_verify_descriptors stdSizes 4 (bufOf sampleTree) 25 = some (1, C, I, E) ∧
      (∀ j, j < I → (dev1.mem.ifs j).parent_dev = some (freshDev 0).self ∧
        (dev1.mem.ifs j).driver = none ∧ (dev1.mem.ifs j).assigned = 0) ∧
      dev1.iface_list = (List.range I).reverse ++ (freshDev 0).iface_list ∧
      ((freshDev 0).iface_list = [] →
        dev1.iface_list.Nodup ∧ dev1.iface_list.length = I ∧
        ∀ j, j ∈ dev1.iface_list ↔ j < I) :=
  ⟨_, _, rfl, usbc_parse_descriptors_ifaces stdSizes junkAlloc 4 (freshDev 0)
    (bufOf sampleTree) 25 _ _ rfl⟩

/-- After a success the record of every endpoint descriptor met in the walk holds
`sizeof(struct usb_ep)` bytes copied from the position of the descriptor. -/
theorem usbc_parse_descriptors_ep_copy (sz : Sizes) (bmalloc : Nat → Option (Nat × DescBuffer))
    (fuel : Nat) (dev : usb_dev) (data : Nat → Nat) (size : Nat) (dev1 : usb_dev)
    (log : List Nat)
    (h : usbc_parse_descriptors sz bmalloc fuel dev data size = some (1, dev1, log)) :
    ∃ n, WalkFinishes data size n ∧ ∀ t, t < n → descType data t = USB_DESC_EP →
      (dev1.mem.eps (countType data USB_DESC_EP t)).desc
        = memory_copy data (walkPos data t) sz.ep ∧
      (dev1.mem.eps (countType data USB_DESC_EP t)).desc.length = sz.ep := by
  obtain ⟨n, _, hw, _, _, stn, hdev, _, hwire⟩ :=
    usbc_parse_descriptors_success sz bmalloc fuel dev data size dev1 log h
  subst hdev
  refine ⟨n, hw, fun t ht hE => ?_⟩
  have h1 := hwire.desc_ep t ht hE
  refine ⟨h1, ?_⟩
  rw [h1]
  simp [memory_copy]

/-- C24 (defect of the code): the configuration and the interface descriptor are copied
with the sizes of their wire records (9 bytes each), but the endpoint descriptor is
copied with `sizeof(struct usb_ep)`: for the sample tree, 12 bytes are stored at
`&ep->desc`, the 7 bytes of the endpoint descriptor and the 5 bytes at the indices 25 to
29 of the source, which lie past the descriptor and past `size = 25`. -/
theorem usbc_parse_descriptors_ep_copy_overruns : ∃ dev1 log,
    usbc_parse_descriptors stdSizes junkAlloc 4 (freshDev 0) (bufOf overrunTree) 25
      = some (1, dev1, log) ∧
    (dev1.mem.cfgs 0).desc = [9, 2, 25, 0, 1, 1, 0, 128, 50] ∧
    (dev1.mem.ifs 0).desc = [9, 4, 0, 0, 1, 3, 1, 1, 0] ∧
    (dev1.mem.eps 0).desc = [7, 5, 129, 3, 8, 0, 10, 170, 187, 204, 221, 238] ∧
    stdSizes.ep_desc = 7 ∧ (dev1.mem.eps 0).desc.length = 12 ∧
    (dev1.mem.eps 0).desc.drop 7 = (List.range 5).map (fun i => bufOf overrunTree (25 + i)) :=
  ⟨_, _, rfl, by decide, by decide, by decide, by decide, by decide, by decide⟩

/-- C25 (defect of the code): a string URB for the descriptor index 2 that completes with
the actual length 1 (and likewise 0).  The length passed to `usbc_uni_to_string` is
`1 - 2` in `u32`, that is `2 ^ 32 - 1`, and the product name is taken from the bytes at
the indices 2, 4, ... of the transfer buffer, which lie past the received length, where
the empty string was to be written. -/
theorem usbc_get_product_name_done_short_urb :
    (namedWorld 5).usbc.enum_state = usb_enum_state.USB_ENUM_GET_PRODUCT_NAME ∧
    bDescriptorIndex (namedWorld 5).setup = 2 ∧
    (1 % U32 + U32 - 2) % U32 = 4294967295 ∧
    (∃ w1, usbc_enumerate_handler stdParams 64 (okUrb 1 shortStringBuffer) (namedWorld 5)
        = some (Outcome.done w1) ∧
      w1.dev.product 0 = bufOf shortStringBuffer 2 ∧
      w1.dev.product 1 = bufOf shortStringBuffer 4 ∧
      w1.dev.product 0 = 72 ∧ w1.dev.product 1 = 105 ∧ w1.dev.product 2 = 0) ∧
    (∃ w1, usbc_enumerate_handler stdParams 64 (okUrb 0 shortStringBuffer) (namedWorld 5)
        = some (Outcome.done w1) ∧
      w1.dev.product 0 = 72 ∧ w1.dev.product 1 = 105 ∧ w1.dev.product 2 = 0) :=
  ⟨by rfl, by rfl, by decide,
    ⟨_, rfl, by rfl, by rfl, by rfl, by rfl, by rfl⟩,
    ⟨_, rfl, by rfl, by rfl, by rfl⟩⟩

/-- C26 (defect of the code): a 9-byte configuration descriptor that reports
`wTotalLength = 1000`, received in the state GET_DESC_LENGTH with an enumeration buffer
of 512 bytes.  The request that follows is submitted with `wLength = 1000`, more than
the size of the buffer it is to fill. -/
theorem usbc_get_all_desc_exceeds_buffer :
    (sampleWorld 3).usbc.enum_state = usb_enum_state.USB_ENUM_GET_DESC_LENGTH ∧
    wTotalLength (okUrb 9 longConfigDesc).transfer_buffer = 1000 ∧
    stdParams.USB_ENUM_BUFFER_SIZE = 512 ∧
    ∃ w1, usbc_enumerate_handler stdParams 20 (okUrb 9 longConfigDesc) (sampleWorld 3)
        = some (Outcome.done w1) ∧
      w1.usbc.enum_state = usb_enum_state.USB_ENUM_GET_DESCRIPTORS ∧
      w1.setup.wLength = 1000 ∧ stdParams.USB_ENUM_BUFFER_SIZE < w1.setup.wLength ∧
      w1.trace.getLast? = some (HcEvent.submit_urb 0 w1.setup) :=
  ⟨by rfl, by decide, by rfl, ⟨_, rfl, by rfl, by rfl, by decide, by rfl⟩⟩

theorem verifyLoop_zero_length_stuck (sz : Sizes) :
    ∀ fuel c i e, verifyLoop sz (bufOf zeroLengthTree) 11 fuel 9 c i e = none := by
  intro fuel
  induction fuel with
  | zero =>
    intro c i e
    rfl
  | succ f ih =>
    intro c i e
    unfold verifyLoop
    have h1 : byteAt (bufOf zeroLengthTree) (9 + 1) = 33 := by decide
    have h2 : byteAt (bufOf zeroLengthTree) 9 = 0 := by decide
    dsimp only
    rw [if_pos (by decide), h1, h2, if_neg (by decide), if_neg (by decide), if_neg (by decide)]
    exact ih c i e

theorem walkPos_zero_length_stuck : ∀ k, walkPos (bufOf zeroLengthTree) (k + 1) = 9 := by
  intro k
  induction k with
  | zero => decide
  | succ j ih =>
    show (walkPos (bufOf zeroLengthTree) (j + 1)
      + byteAt (bufOf zeroLengthTree) (walkPos (bufOf zeroLengthTree) (j + 1))) % U32 = 9
    rw [ih]
    decide

/-- C27 (defect of the code): a configuration descriptor followed by a descriptor of
type 0x21 whose `bLength` is 0, in a buffer of 11 bytes.  The walk reaches position 9
and stays there: `usbc_verify_descriptors` does not return, whatever the fuel. -/
theorem usbc_verify_descriptors_zero_length_hangs :
    (∀ fuel, usbc_verify_descriptors stdSizes fuel (bufOf zeroLengthTree) 11 = none) ∧
    (∀ k, walkPos (bufOf zeroLengthTree) (k + 1) = 9) ∧
    (9 : Nat) < 11 := by
  refine ⟨?_, walkPos_zero_length_stuck, by decide⟩
  intro fuel
  cases fuel with
  | zero => rfl
  | succ f =>
    unfold usbc_verify_descriptors verifyLoop
    have h1 : byteAt (bufOf zeroLengthTree) (0 + 1) = USB_DESC_CONFIG := by decide
    have h2 : byteAt (bufOf zeroLengthTree) 0 = stdSizes.config_desc := by decide
    dsimp only
    rw [if_pos (by decide), h1, h2, if_pos rfl, if_neg (by decide)]
    exact verifyLoop_zero_length_stuck stdSizes f _ _ _

/-- C28 (defect of the code): a buffer of `size = 10`, a configuration descriptor and
one more byte.  At position 9 the type is read from index 10: two buffers that agree on
every index below `size` and differ at index 10 give different results. -/
theorem usbc_verify_descriptors_reads_past_size :
    (∀ i, i < 10 → bufOf trailingByteTree i = bufOf (trailingByteTree ++ [2]) i) ∧
    usbc_verify_descriptors stdSizes 4 (bufOf trailingByteTree) 10 = some (1, 1, 0, 0) ∧
    usbc_verify_descriptors stdSizes 4 (bufOf (trailingByteTree ++ [2])) 10
      = some (0, 1, 0, 0) ∧
    walkPos (bufOf trailingByteTree) 1 = 9 ∧ 9 + 1 = 10 := by
  refine ⟨by decide, by decide, by decide, by decide, by decide⟩

/-- Whatever the size of the enumeration buffer below 65535, a configuration descriptor
that reports `wTotalLength = 65535` makes the handler request more than the buffer
holds. -/
theorem usbc_get_all_desc_unbounded (P : EnumParams) (fuel : Nat) (w : EnumWorld)
    (hB : P.USB_ENUM_BUFFER_SIZE < 65535)
    (hst : w.usbc.enum_state = usb_enum_state.USB_ENUM_GET_DESC_LENGTH) :
    ∃ w1, usbc_enumerate_handler P fuel
        { status := P.URB_STATUS_OK, acctual_length := 9,
          transfer_buffer := bufOf [9, 2, 255, 255, 1, 1, 0, 128, 50] } w
        = some (Outcome.done w1) ∧
      P.USB_ENUM_BUFFER_SIZE < w1.setup.wLength := by
  have hlen : wTotalLength (bufOf [9, 2, 255, 255, 1, 1, 0, 128, 50]) % 65536 = 65535 := by
    decide
  unfold usbc_enumerate_handler
  rw [if_neg (not_not.mpr rfl), hst]
  dsimp only
  unfold usbc_desc_length_done
  rw [if_neg (not_not.mpr rfl)]
  dsimp only
  refine ⟨_, rfl, ?_⟩
  show P.USB_ENUM_BUFFER_SIZE
    < wTotalLength (bufOf [9, 2, 255, 255, 1, 1, 0, 128, 50]) % 65536
  rw [hlen]
  exact hB

end Vanilla
